import Mathlib

/-!
# MouseTrail particle engine: a shallow embedding

The definitions below follow `src/src/particles.cpp`, `src/src/utils.cpp` and
`src/include/particles.h`.

Conventions of the embedding.

* C `float` values are rationals (`ℚ`). The functions are embedded with exact
  arithmetic. Where a statement depends on the rounding of the `float`
  operations (how many particles a spawn tick appends, when the life of a
  particle runs out), the functions it is about are embedded a second time
  with every operation rounded to binary32 (section "Binary32 arithmetic",
  names ending in `F32`), and the statement is about that embedding.
* `sqrt(dx*dx + dy*dy)` of the integer pointer displacement is kept exactly,
  as the natural number under the root; the two uses of `dist` in the source
  (a comparison with a constant, and a truncated division) are computed on
  that number and are related to `Real.sqrt` by lemmas.
* `cosf` / `sinf` are parameters (`Libm`).
* `rand()` reads the next element of a fixed stream, reduced to `0..RAND_MAX`.
* `GetCursorPos` is the argument `pt` of the spawn functions.
* The globals `g_particles`, `g_activeParticleSystem`, `g_lastMousePos` and the
  generator are the fields of `State`.
* A renderer is the list of its effects in program order: its pixel stores
  and its divisions by a computed divisor. The globals of `window.cpp` it
  reads are the fields of `Screen`; `sqrtf` is a parameter (`DrawLibm`).
* `int` values are unbounded integers, `static_cast<int>` of a float truncates
  toward zero.
-/

namespace MouseTrail

/-! ## Data model (`particles.h`) -/

/-- The macro `MAX_PARTICLES`; no function of the program reads it. -/
def MAX_PARTICLES : Nat := 5000

/-- The enum class `ParticleType`. -/
inductive ParticleType where
  | HEARTS
  | STARS
  | FIRE
  | SPARKS
  | SMOKE
  | SWORD
deriving DecidableEq, Repr

/-- The enumerator values: `HEARTS = 1`, then consecutive. -/
def ParticleType.toInt : ParticleType → Int
  | .HEARTS => 1
  | .STARS => 2
  | .FIRE => 3
  | .SPARKS => 4
  | .SMOKE => 5
  | .SWORD => 6

/-- The struct `Particle`. -/
structure Particle where
  x : ℚ
  y : ℚ
  vx : ℚ
  vy : ℚ
  life : ℚ
  maxLife : ℚ
  color : Nat
  angle : ℚ
  rotationSpeed : ℚ
  scale : ℚ
  type : ParticleType
deriving DecidableEq, Repr

/-- The Win32 `POINT` (two `LONG`s). -/
structure POINT where
  x : Int
  y : Int
deriving DecidableEq, Repr

/-- The value of `RAND_MAX` of the Windows C runtime. -/
def RAND_MAX : Nat := 32767

/-- The state of the C generator: the stream it will return and a cursor. -/
structure Rng where
  seq : Nat → Nat
  pos : Nat

/-- The value the next `rand()` call returns. -/
def Rng.val (r : Rng) : Nat := r.seq r.pos % (RAND_MAX + 1)

/-- The generator after one `rand()` call. -/
def Rng.next (r : Rng) : Rng := { r with pos := r.pos + 1 }

/-- The two `<cmath>` functions the spawners call. -/
structure Libm where
  cosf : ℚ → ℚ
  sinf : ℚ → ℚ

/-- The literal `3.14159f`. -/
def PI_F : ℚ := 314159 / 100000

/-- The Win32 macro `RGB(r,g,b)`: three bytes packed as `0x00bbggrr`. -/
def RGB (r g b : Nat) : Nat :=
  (r % 256) ||| ((g % 256) <<< 8) ||| ((b % 256) <<< 16)

/-- The globals of `particles.cpp`, and the generator. -/
structure State where
  g_particles : List Particle
  g_activeParticleSystem : ParticleType
  g_lastMousePos : POINT
  rng : Rng

/-- The initial values of the globals: empty store, `SMOKE`, `{ -1, -1 }`. -/
def initState (rng : Rng) : State :=
  { g_particles := [], g_activeParticleSystem := .SMOKE,
    g_lastMousePos := { x := -1, y := -1 }, rng := rng }

/-! ## `SetActiveParticleSystem` -/

/-- The function `SetActiveParticleSystem(int systemId)`, case by case. -/
def SetActiveParticleSystem (systemId : Int) (s : State) : State :=
  if systemId = 1 then { s with g_activeParticleSystem := .SMOKE }
  else if systemId = 2 then { s with g_activeParticleSystem := .STARS }
  else if systemId = 3 then { s with g_activeParticleSystem := .FIRE }
  else if systemId = 4 then { s with g_activeParticleSystem := .SPARKS }
  else if systemId = 5 then { s with g_activeParticleSystem := .HEARTS }
  else if systemId = 6 then { s with g_activeParticleSystem := .SWORD }
  else { s with g_activeParticleSystem := .SMOKE }

/-! ## Exact square roots of naturals -/

/-- The test `sqrt(sq) > c` on floats, decided on the squares. -/
def sqrtGt (sq : Nat) (c : ℚ) : Bool :=
  if c < 0 then true else decide (c * c < (sq : ℚ))

/-- The conversion `static_cast<int>(sqrt(sq) / d)` for a divisor `d > 0`, in
exact arithmetic: with `d = a / b` in lowest terms, the truncated quotient is
`⌊√(sq·b²)⌋ / a`. A divisor `d ≤ 0` (no caller passes one) gives `0`. The
quotient as binary32 computes it is in `SpawnParticlesCommonF32`. -/
def sqrtDivTrunc (sq : Nat) (d : ℚ) : Nat :=
  if 0 < d then Nat.sqrt (sq * d.den ^ 2) / d.num.toNat else 0

/-! ## Spawning -/

/-- The number under the root in `dist = sqrt(dx*dx + dy*dy)`. -/
def distSq (last pt : POINT) : Nat :=
  ((pt.x - last.x) * (pt.x - last.x) + (pt.y - last.y) * (pt.y - last.y)).toNat

/-- The guard `g_lastMousePos.x == -1 && g_lastMousePos.y == -1`. -/
def isUnset (p : POINT) : Bool := decide (p.x = -1) && decide (p.y = -1)

/-- One iteration of the `for` loop of `SpawnParticlesCommon`: the particle
pushed at index `i`, and the generator afterwards. -/
def spawnCommonParticle (m : Libm) (type : ParticleType)
    (colorFunc : Option (Rng → Nat × Rng))
    (minLife maxLife scaleMin scaleMax : ℚ) (allowRotation upwardVelocityBias : Bool)
    (last : POINT) (dx dy : ℚ) (numParticles i : Nat) (r0 : Rng) : Particle × Rng :=
  let t : ℚ := ((i : ℚ) + 1) / ((numParticles : ℚ) + 1)
  let px : ℚ := (last.x : ℚ) + t * dx
  let py : ℚ := (last.y : ℚ) + t * dy
  -- Random angle & speed
  let angle : ℚ := (((r0.val % 360 : Nat) : ℚ) / 180) * PI_F
  let r1 := r0.next
  let speed : ℚ := 25 + ((r1.val % 30 : Nat) : ℚ)
  let r2 := r1.next
  let vx : ℚ := speed * m.cosf angle * (1 / 2)
  let vy : ℚ :=
    if upwardVelocityBias then - |speed * m.sinf angle|
    else speed * m.sinf angle * (1 / 2)
  -- Use color function
  let c : Nat × Rng :=
    match colorFunc with
    | some f => f r2
    | none => (0xFFFFFF, r2)
  let r3 := c.2
  -- Life
  let lifeRange : ℚ := maxLife - minLife
  let chosenLife : ℚ := minLife + ((r3.val : ℚ) / (RAND_MAX : ℚ)) * lifeRange
  let r4 := r3.next
  -- Scale
  let chosenScale : ℚ := scaleMin + ((r4.val : ℚ) / (RAND_MAX : ℚ)) * (scaleMax - scaleMin)
  let r5 := r4.next
  -- Rotation
  let pAngle : ℚ := if allowRotation then ((r5.val % 360 : Nat) : ℚ) * PI_F / 180 else 0
  let pRot : ℚ :=
    if allowRotation then (((r5.next.val % 601 : Nat) : ℚ) - 300) / 100 else 0
  let r6 := if allowRotation then r5.next.next else r5
  ({ x := px, y := py, vx := vx, vy := vy, life := chosenLife, maxLife := chosenLife,
     color := c.1, angle := pAngle, rotationSpeed := pRot, scale := chosenScale,
     type := type }, r6)

/-- The loop `for (int i = 0; i < numParticles; i++) { ...; push_back(p); }`:
`k` iterations remain and the next index is `i`. -/
def spawnLoop (body : Nat → Rng → Particle × Rng) : Nat → Nat → State → State
  | 0, _, s => s
  | k + 1, i, s =>
    let pr := body i s.rng
    spawnLoop body k (i + 1) { s with g_particles := s.g_particles ++ [pr.1], rng := pr.2 }

/-- The function `SpawnParticlesCommon`; `pt` is what `GetCursorPos` returned. -/
def SpawnParticlesCommon (m : Libm) (pt : POINT) (type : ParticleType)
    (distBetweenParticles : ℚ) (colorFunc : Option (Rng → Nat × Rng))
    (minLife maxLife scaleMin scaleMax : ℚ)
    (allowRotation upwardVelocityBias : Bool) (s : State) : State :=
  -- If first time, just store the last pos
  if isUnset s.g_lastMousePos then { s with g_lastMousePos := pt }
  else
    let dx : ℚ := ((pt.x - s.g_lastMousePos.x : Int) : ℚ)
    let dy : ℚ := ((pt.y - s.g_lastMousePos.y : Int) : ℚ)
    let sq := distSq s.g_lastMousePos pt
    let s1 :=
      if sqrtGt sq 0 then
        let numParticles : Nat := max 1 (sqrtDivTrunc sq distBetweenParticles)
        spawnLoop
          (spawnCommonParticle m type colorFunc minLife maxLife scaleMin scaleMax
            allowRotation upwardVelocityBias s.g_lastMousePos dx dy numParticles)
          numParticles 0 s
      else s
    { s1 with g_lastMousePos := pt }

/-- The function `RandomHeartColor` of `utils.cpp`. -/
def RandomHeartColor (r0 : Rng) : Nat × Rng :=
  let r := 200 + r0.val % 26
  let r1 := r0.next
  let g := r1.val % 121
  let r2 := r1.next
  let b := 150 + r2.val % 106
  let r3 := r2.next
  -- Occasionally bright red
  if r3.val % 5 = 0 then
    let r4 := r3.next
    let g2 := r4.val % 60
    let r5 := r4.next
    let b2 := 80 + r5.val % 40
    (RGB 255 g2 b2, r5.next)
  else (RGB r g b, r3.next)

/-- The particle `SpawnHeartsOnMouseMove` builds when `dist > 5`. -/
def spawnHeartParticle (m : Libm) (pt : POINT) (r0 : Rng) : Particle × Rng :=
  let angle : ℚ := (((r0.val % 160 : Nat) : ℚ) - 80) * (PI_F / 180)
  let r1 := r0.next
  let speed : ℚ := 150 + ((r1.val % 50 : Nat) : ℚ)
  let r2 := r1.next
  let vx : ℚ := speed * m.cosf angle
  let vy : ℚ := - |speed * m.sinf angle|
  let px : ℚ := (pt.x : ℚ) + (((r2.val % 50 : Nat) : ℚ) - 30)
  let r3 := r2.next
  let py : ℚ := (pt.y : ℚ) + (((r3.val % 50 : Nat) : ℚ) - 30)
  let r4 := r3.next
  let c := RandomHeartColor r4
  let r5 := c.2
  let maxLife : ℚ := 9 / 10
  let scale : ℚ := 1 + ((r5.val % 100 : Nat) : ℚ) / 200
  let r6 := r5.next
  let pAngle : ℚ := ((r6.val % 360 : Nat) : ℚ) * PI_F / 180
  let r7 := r6.next
  let pRot : ℚ := (((r7.val % 601 : Nat) : ℚ) - 300) / 100
  ({ x := px, y := py, vx := vx, vy := vy, life := maxLife, maxLife := maxLife,
     color := c.1, angle := pAngle, rotationSpeed := pRot, scale := scale,
     type := .HEARTS }, r7.next)

/-- The function `SpawnHeartsOnMouseMove`. -/
def SpawnHeartsOnMouseMove (m : Libm) (pt : POINT) (s : State) : State :=
  -- First time: Just store position, don't spawn yet
  if isUnset s.g_lastMousePos then { s with g_lastMousePos := pt }
  else
    let sq := distSq s.g_lastMousePos pt
    let s1 :=
      if sqrtGt sq 5 then
        let pr := spawnHeartParticle m pt s.rng
        { s with g_particles := s.g_particles ++ [pr.1], rng := pr.2 }
      else s
    { s1 with g_lastMousePos := pt }

/-- The colour lambda of `SpawnStarsOnMouseMove` (arguments drawn left to right). -/
def starsColor (r0 : Rng) : Nat × Rng :=
  (RGB (200 + r0.val % 56) (200 + r0.next.val % 56) (180 + r0.next.next.val % 76),
    r0.next.next.next)

/-- The colour lambda of `SpawnFireOnMouseMove`. -/
def fireColor (r0 : Rng) : Nat × Rng :=
  (RGB (200 + r0.val % 56) (50 + r0.next.val % 80) 0, r0.next.next)

/-- The colour lambda of `SpawnSparksOnMouseMove`. -/
def sparksColor (r0 : Rng) : Nat × Rng :=
  (RGB 0 (100 + r0.val % 56) (200 + r0.next.val % 56), r0.next.next)

/-- The colour lambda of `SpawnSmokeOnMouseMove`. -/
def smokeColor (r0 : Rng) : Nat × Rng :=
  let shade := 100 + r0.val % 100
  (RGB shade shade shade, r0.next)

/-- The colour lambda of `SpawnSwordOnMouseMove`. -/
def swordColor (r0 : Rng) : Nat × Rng := (RGB 100 100 100, r0)

/-- The function `SpawnStarsOnMouseMove`. -/
def SpawnStarsOnMouseMove (m : Libm) (pt : POINT) (s : State) : State :=
  SpawnParticlesCommon m pt .STARS 10 (some starsColor) (3 / 10) (1 / 2) (1 / 2) (3 / 2)
    true true s

/-- The function `SpawnFireOnMouseMove`. -/
def SpawnFireOnMouseMove (m : Libm) (pt : POINT) (s : State) : State :=
  SpawnParticlesCommon m pt .FIRE 4 (some fireColor) (3 / 10) (1 / 2) 1 (11 / 10)
    false false s

/-- The function `SpawnSparksOnMouseMove`. -/
def SpawnSparksOnMouseMove (m : Libm) (pt : POINT) (s : State) : State :=
  SpawnParticlesCommon m pt .SPARKS 2 (some sparksColor) (1 / 10) (1 / 5) 1 2
    true false s

/-- The function `SpawnSmokeOnMouseMove`. -/
def SpawnSmokeOnMouseMove (m : Libm) (pt : POINT) (s : State) : State :=
  SpawnParticlesCommon m pt .SMOKE 10 (some smokeColor) (3 / 10) (1 / 2) 1 (3 / 2)
    false true s

/-- The function `SpawnSwordOnMouseMove`. -/
def SpawnSwordOnMouseMove (m : Libm) (pt : POINT) (s : State) : State :=
  SpawnParticlesCommon m pt .SWORD 10 (some swordColor) (3 / 10) (1 / 2) (1 / 2) (1 / 2)
    true true s

/-- The dispatcher `SpawnParticlesOnMouseMove`: one spawn tick. -/
def SpawnParticlesOnMouseMove (m : Libm) (pt : POINT) (s : State) : State :=
  match s.g_activeParticleSystem with
  | .SMOKE => SpawnSmokeOnMouseMove m pt s
  | .STARS => SpawnStarsOnMouseMove m pt s
  | .FIRE => SpawnFireOnMouseMove m pt s
  | .SPARKS => SpawnSparksOnMouseMove m pt s
  | .HEARTS => SpawnHeartsOnMouseMove m pt s
  | .SWORD => SpawnSwordOnMouseMove m pt s

/-! ## `UpdateParticles` -/

/-- The expression `1.0f - powf(1.0f - ratio, 3.0f)`. -/
def fadeFactor (ratio : ℚ) : ℚ := 1 - (1 - ratio) ^ 3

/-- The body of the `for (auto &p : g_particles)` loop of `UpdateParticles`, in
exact arithmetic (`updateParticleF32` is the body in binary32). -/
def updateParticle (dt : ℚ) (p : Particle) (r0 : Rng) : Particle × Rng :=
  -- Special behavior for hearts
  let isHeart : Bool := decide (p.type = .HEARTS)
  let vx1 : ℚ :=
    if isHeart then p.vx * (101 / 100) + (((r0.val % 5 : Nat) : ℚ) - 2) * (5 / 100)
    else p.vx
  let vy1 : ℚ := if isHeart then p.vy * (103 / 100) - 5 * dt else p.vy
  let r1 := if isHeart then r0.next else r0
  -- Update position
  let x1 : ℚ := p.x + vx1 * dt
  let y1 : ℚ := p.y + vy1 * dt
  -- Apply gravity for other particles
  let vy2 : ℚ :=
    if p.type ≠ .FIRE ∧ p.type ≠ .HEARTS then vy1 + 20 * dt else vy1
  -- Rotate particles unless they are fire or smoke
  let angle1 : ℚ :=
    if p.type ≠ .FIRE ∧ p.type ≠ .SMOKE then p.angle + p.rotationSpeed * dt else p.angle
  -- Decrease life over time
  let life1 : ℚ := p.life - dt
  -- Smooth fade-out effect by scaling down over time
  let ratio : ℚ := if 0 < life1 then life1 / p.maxLife else 0
  let scale1 : ℚ := p.scale * fadeFactor ratio
  ({ p with x := x1, y := y1, vx := vx1, vy := vy2, angle := angle1, life := life1,
            scale := scale1 }, r1)

/-- The range-for loop of `UpdateParticles`, front to back, threading `rand()`. -/
def updateLoop (dt : ℚ) : List Particle → Rng → List Particle × Rng
  | [], r => ([], r)
  | p :: ps, r =>
    let h := updateParticle dt p r
    let t := updateLoop dt ps h.2
    (h.1 :: t.1, t.2)

/-- The idiom `v.erase(std::remove_if(v.begin(), v.end(), pred), v.end())`. -/
def eraseRemoveIf (pred : Particle → Bool) : List Particle → List Particle
  | [] => []
  | p :: ps => if pred p then eraseRemoveIf pred ps else p :: eraseRemoveIf pred ps

/-- The function `UpdateParticles(float dt)`. -/
def UpdateParticles (dt : ℚ) (s : State) : State :=
  let u := updateLoop dt s.g_particles s.rng
  { s with g_particles := eraseRemoveIf (fun p => decide (p.life ≤ 0)) u.1, rng := u.2 }

/-! ## Runs -/

/-- What can happen to the globals between two frames: a menu selection, a
spawn tick at a pointer position, a lifecycle update. -/
inductive Event where
  | select (systemId : Int)
  | spawn (pt : POINT)
  | update (dt : ℚ)

/-- One event applied to the state. -/
def step (m : Libm) (s : State) : Event → State
  | .select systemId => SetActiveParticleSystem systemId s
  | .spawn pt => SpawnParticlesOnMouseMove m pt s
  | .update dt => UpdateParticles dt s

/-- A sequence of events, applied in order. -/
def run (m : Libm) (s : State) (es : List Event) : State := es.foldl (step m) s

/-- A sequence of `UpdateParticles` calls, applied in order. -/
def runUpdates (dts : List ℚ) (s : State) : State :=
  dts.foldl (fun st dt => UpdateParticles dt st) s

/-! ## Rendering (`particles.cpp`, `window.cpp`)

A renderer is embedded as the list of what it does, in program order: the
pixels it stores (`Effect.write x y value` for `dst[y * g_ScreenWidth + x] =
value`) and the divisions it executes whose divisor is not a literal
(`Effect.divide divisor`). Renderers that call `rand()` thread the generator. -/

/-- The globals of `window.cpp` the renderers read; `pixelsAllocated` says
that `g_pPixels` is not null. -/
structure Screen where
  g_ScreenWidth : Int
  g_ScreenHeight : Int
  g_VirtualOffsetX : Int
  g_VirtualOffsetY : Int
  pixelsAllocated : Bool

/-- What a renderer does: a pixel store, or a division by a computed divisor. -/
inductive Effect where
  | write (x y : Int) (color : Nat)
  | divide (divisor : ℚ)
deriving DecidableEq, Repr

/-- The conversion `static_cast<int>(f)` of a float: truncation toward zero. -/
def truncInt (q : ℚ) : Int := if 0 ≤ q then ⌊q⌋ else ⌈q⌉

/-- The conversion of an `int` to `unsigned int` (32 bits). -/
def toU32 (z : Int) : Nat := (z % 4294967296).toNat

/-- The test `x >= 0 && x < g_ScreenWidth && y >= 0 && y < g_ScreenHeight`. -/
def onScreen (sc : Screen) (x y : Int) : Bool :=
  decide (0 ≤ x) && decide (x < sc.g_ScreenWidth) && decide (0 ≤ y) &&
    decide (y < sc.g_ScreenHeight)

/-- The values `lo, lo + 1, ..., hi` of `for (v = lo; v <= hi; v++)`. -/
def intRange (lo hi : Int) : List Int :=
  (List.range (hi + 1 - lo).toNat).map (fun k => lo + (k : Int))

/-- A loop over `xs` whose body may call `rand()`. -/
def forEachM {α : Type} : List α → (α → Rng → List Effect × Rng) → Rng → List Effect × Rng
  | [], _, r => ([], r)
  | a :: rest, body, r =>
    let o := body a r
    let t := forEachM rest body o.2
    (o.1 ++ t.1, t.2)

/-- The `<cmath>` functions the renderers call: `cosf`, `sinf` and `sqrtf`. -/
structure DrawLibm extends Libm where
  sqrtf : ℚ → ℚ

/-- The table `HEART_MASK[10 * 11]`. -/
def HEART_MASK : List Nat := [
    0,0,0,1,1,0,0,0,1,1,0,
    0,0,1,1,1,1,0,1,1,1,1,
    0,1,1,1,1,1,1,1,1,1,1,
    1,1,1,1,1,1,1,1,1,1,1,
    1,1,1,1,1,1,1,1,1,1,1,
    0,1,1,1,1,1,1,1,1,1,0,
    0,0,1,1,1,1,1,1,1,0,0,
    0,0,0,1,1,1,1,1,0,0,0,
    0,0,0,0,1,1,1,0,0,0,0,
    0,0,0,0,0,1,0,0,0,0,0]

/-- The table `STAR_MASK[16 * 16]`. -/
def STAR_MASK : List Nat := [
    1,0,0,0,0,0,0,1,0,0,0,0,0,0,0,1,
    0,1,0,0,0,0,0,1,0,0,0,0,0,0,1,0,
    0,0,1,0,0,0,0,1,0,0,0,0,0,1,0,0,
    0,0,0,1,0,0,0,1,0,0,0,0,1,0,0,0,
    0,0,0,0,1,0,0,1,0,0,0,1,0,0,0,0,
    0,0,0,0,0,1,0,1,0,0,1,0,0,0,0,0,
    0,0,0,0,0,0,1,1,0,1,0,0,0,0,0,0,
    1,1,1,1,1,1,1,1,1,1,1,1,1,1,1,1,
    0,0,0,0,0,0,0,1,1,0,0,0,0,0,0,0,
    0,0,0,0,0,0,1,1,0,1,0,0,0,0,0,0,
    0,0,0,0,0,1,0,1,0,0,1,0,0,0,0,0,
    0,0,0,0,1,0,0,1,0,0,0,1,0,0,0,0,
    0,0,0,1,0,0,0,1,0,0,0,0,1,0,0,0,
    0,0,1,0,0,0,0,1,0,0,0,0,0,1,0,0,
    0,1,0,0,0,0,0,1,0,0,0,0,0,0,1,0,
    1,0,0,0,0,0,0,1,0,0,0,0,0,0,0,1]

/-- The function `DrawShape(p, mask, width, height)`. -/
def DrawShape (m : Libm) (sc : Screen) (p : Particle) (mask : List Nat)
    (width height : Nat) : List Effect :=
  let cx : ℚ := (width : ℚ) / 2
  let cy : ℚ := (height : ℚ) / 2
  let pixel : Nat := (0xFF <<< 24) ||| (p.color &&& 0xFFFFFF)
  (List.range height).flatMap fun j =>
    (List.range width).flatMap fun i =>
      if mask.getD (j * width + i) 0 = 1 then
        -- Scale and rotate
        let localX : ℚ := ((i : ℚ) - cx) * p.scale
        let localY : ℚ := ((j : ℚ) - cy) * p.scale
        let cosA : ℚ := m.cosf p.angle
        let sinA : ℚ := m.sinf p.angle
        let rotX : ℚ := localX * cosA - localY * sinA
        let rotY : ℚ := localX * sinA + localY * cosA
        -- Final screen coordinates
        let screenX : Int := truncInt (p.x + rotX)
        let screenY : Int := truncInt (p.y + rotY)
        if onScreen sc screenX screenY then
          -- Write pixel with full alpha, then fill adjacent pixels
          Effect.write screenX screenY pixel ::
            ([-1, 0, 1] : List Int).flatMap fun dx =>
              ([-1, 0, 1] : List Int).flatMap fun dy =>
                if onScreen sc (screenX + dx) (screenY + dy) then
                  [Effect.write (screenX + dx) (screenY + dy) pixel]
                else []
        else []
      else []

/-- The function `DrawSword(p)`. -/
def DrawSword (m : Libm) (sc : Screen) (p : Particle) : List Effect :=
  let cosA : ℚ := m.cosf p.angle
  let sinA : ℚ := m.sinf p.angle
  (intRange (-60) 20).flatMap fun ly =>
    (intRange (-20) 20).flatMap fun lx =>
      -- Transform local coordinates (lx, ly) to screen space.
      let localX : ℚ := (lx : ℚ) * p.scale
      let localY : ℚ := (ly : ℚ) * p.scale
      let rotX : ℚ := localX * cosA - localY * sinA
      let rotY : ℚ := localX * sinA + localY * cosA
      let screenX : Int := truncInt (p.x + rotX)
      let screenY : Int := truncInt (p.y + rotY)
      if onScreen sc screenX screenY then
        let inBlade : Bool := decide (lx ≥ -3 ∧ lx ≤ 3 ∧ ly ≥ -50 ∧ ly ≤ 0)
        let inGuard : Bool := decide (lx ≥ -10 ∧ lx ≤ 10 ∧ ly ≥ 0 ∧ ly ≤ 4)
        let inHilt : Bool := decide (lx ≥ -2 ∧ lx ≤ 2 ∧ ly ≥ 4 ∧ ly ≤ 14)
        let dx : ℚ := (lx : ℚ) - 0
        let dy : ℚ := (ly : ℚ) - 14
        let inPommel : Bool := decide (dx * dx + dy * dy ≤ 9)
        if inBlade then [Effect.write screenX screenY ((0xFF <<< 24) ||| (0xC0C0C0 &&& 0xFFFFFF))]
        else if inGuard then
          [Effect.write screenX screenY ((0xFF <<< 24) ||| (0xFFD700 &&& 0xFFFFFF))]
        else if inHilt then
          [Effect.write screenX screenY ((0xFF <<< 24) ||| (0x8B4513 &&& 0xFFFFFF))]
        else if inPommel then
          [Effect.write screenX screenY ((0xFF <<< 24) ||| (0x696969 &&& 0xFFFFFF))]
        else []
      else []

/-- One flame of `DrawFire`: the scanline fill of the triangle with apex
`(tx, ty - height)` and base from `tx - baseWidth / 2` to `tx + baseWidth / 2`
on the row `ty`. -/
def fireTriangle (m : Libm) (sc : Screen) (p : Particle)
    (tx ty baseWidth height : Int) (color : Nat) : List Effect :=
  let p1x : Int := tx
  let p1y : Int := ty - height
  let p2x : Int := tx - baseWidth.tdiv 2
  let p2y : Int := ty
  let p3x : Int := tx + baseWidth.tdiv 2
  (intRange p1y p2y).flatMap fun y =>
    let progress : ℚ := ((y - p1y : Int) : ℚ) / ((p2y - p1y : Int) : ℚ)
    let leftX : Int := p1x + truncInt (((p2x - p1x : Int) : ℚ) * progress)
    let rightX : Int := p1x + truncInt (((p3x - p1x : Int) : ℚ) * progress)
    Effect.divide ((p2y - p1y : Int) : ℚ) ::
      (intRange leftX rightX).flatMap fun x =>
        if onScreen sc x y then
          -- Faster flickering brightness effect
          let alpha : ℚ := 1 / 2 + 1 / 2 * m.sinf (p.life * 15)
          let finalColor : Nat :=
            toU32 (truncInt (alpha * 255) * 16777216) ||| (color &&& 0xFFFFFF)
          [Effect.write x y finalColor]
        else []

/-- The loop `for (int i = 0; i < numTriangles; i++)` of `DrawFire`, with `k`
iterations left; `if (dy == 0) return;` leaves the function. The locals
`angle` and `scale` are computed from `rand()` and not used. -/
def fireLoop (m : Libm) (sc : Screen) (p : Particle) : Nat → Rng → List Effect × Rng
  | 0, r => ([], r)
  | k + 1, r0 =>
    let _angle : ℚ := (((r0.val % 30 : Nat) : ℚ) - 15) * (PI_F / 180)
    let r1 := r0.next
    let _scale : ℚ := p.scale * (1 / 2 + ((r1.val % 50 : Nat) : ℚ) / 100)
    let r2 := r1.next
    let baseWidth : Int := truncInt (p.scale * 10)
    let height : Int := truncInt (p.scale * 15)
    let tx : Int := truncInt p.x + (((r2.val % 4 : Nat) : Int) - 2)
    let r3 := r2.next
    let ty : Int := truncInt p.y - ((r3.val % 6 : Nat) : Int)
    let r4 := r3.next
    -- Fire Color Gradient (Flame animation)
    let phase : Nat := r4.val % 3
    let r5 := r4.next
    let g : Nat := if phase = 0 then 80 + r5.val % 100 else 150 + r5.val % 50
    let r6 := r5.next
    let color : Nat := (0xFF <<< 24) ||| (255 <<< 16) ||| (g <<< 8) ||| 0
    -- Draw Triangle
    let dy : Int := ty - (ty - height)
    if dy = 0 then ([], r6)
    else
      let rest := fireLoop m sc p k r6
      (fireTriangle m sc p tx ty baseWidth height color ++ rest.1, rest.2)

/-- The function `DrawFire(p)`. -/
def DrawFire (m : Libm) (sc : Screen) (p : Particle) (r0 : Rng) : List Effect × Rng :=
  if !sc.pixelsAllocated then ([], r0)
  else
    let numTriangles : Nat := 3 + r0.val % 3
    fireLoop m sc p numTriangles r0.next

/-- The `while (true)` loop of `DrawLine`, run for at most `fuel` iterations
from the current point `(x0, y0)` and error term `err`. -/
def drawLineLoop (sc : Screen) (x1 y1 dx dy sx sy : Int) (color : Nat) :
    Nat → Int → Int → Int → List Effect
  | 0, _, _, _ => []
  | fuel + 1, x0, y0, err =>
    let w : List Effect := if onScreen sc x0 y0 then [Effect.write x0 y0 color] else []
    if x0 = x1 ∧ y0 = y1 then w
    else
      let e2 : Int := 2 * err
      let err1 : Int := if e2 > -dy then err - dy else err
      let x0n : Int := if e2 > -dy then x0 + sx else x0
      let err2 : Int := if e2 < dx then err1 + dx else err1
      let y0n : Int := if e2 < dx then y0 + sy else y0
      w ++ drawLineLoop sc x1 y1 dx dy sx sy color fuel x0n y0n err2

/-- The function `DrawLine(x0, y0, x1, y1, color)`; the loop is given
`|x1 - x0| + |y1 - y0| + 1` iterations. -/
def DrawLine (sc : Screen) (x0 y0 x1 y1 : Int) (color : Nat) : List Effect :=
  let dx : Int := |x1 - x0|
  let dy : Int := |y1 - y0|
  let sx : Int := if x0 < x1 then 1 else -1
  let sy : Int := if y0 < y1 then 1 else -1
  let err : Int := dx - dy
  drawLineLoop sc x1 y1 dx dy sx sy color (dx.toNat + dy.toNat + 1) x0 y0 err

/-- The points the `while (true)` loop of `DrawLine` visits: the value of
`(x0, y0)` at the head of each iteration, whether or not it passes the bounds
test of that iteration. -/
def lineVisitLoop (x1 y1 dx dy sx sy : Int) : Nat → Int → Int → Int → List POINT
  | 0, _, _, _ => []
  | fuel + 1, x0, y0, err =>
    if x0 = x1 ∧ y0 = y1 then [{ x := x0, y := y0 }]
    else
      let e2 : Int := 2 * err
      let err1 : Int := if e2 > -dy then err - dy else err
      let x0n : Int := if e2 > -dy then x0 + sx else x0
      let err2 : Int := if e2 < dx then err1 + dx else err1
      let y0n : Int := if e2 < dx then y0 + sy else y0
      { x := x0, y := y0 } :: lineVisitLoop x1 y1 dx dy sx sy fuel x0n y0n err2

/-- The points `DrawLine(x0, y0, x1, y1, color)` visits, in order. -/
def lineVisits (x0 y0 x1 y1 : Int) : List POINT :=
  let dx : Int := |x1 - x0|
  let dy : Int := |y1 - y0|
  let sx : Int := if x0 < x1 then 1 else -1
  let sy : Int := if y0 < y1 then 1 else -1
  let err : Int := dx - dy
  lineVisitLoop x1 y1 dx dy sx sy (dx.toNat + dy.toNat + 1) x0 y0 err

/-- The loop `for (int i = 1; i < numPoints - 1; i++)` of `DrawSparks`, with
`k` iterations left at index `i`: the control points it stores, and the
divisions it executes. -/
def sparkMidLoop (m : DrawLibm) (p : Particle) (numPoints arcLength : Nat)
    (endX endY : Int) : Nat → Nat → Rng → (List POINT × List Effect) × Rng
  | 0, _, r => (([], []), r)
  | k + 1, i, r =>
    -- t goes from 0 to 1 along the line between start and end.
    let t : ℚ := (i : ℚ) / (((numPoints : Int) - 1 : Int) : ℚ)
    let baseX : Int := truncInt (p.x + t * ((endX : ℚ) - p.x))
    let baseY : Int := truncInt (p.y + t * ((endY : ℚ) - p.y))
    -- Determine a perpendicular vector to the line from start to end.
    let dx : ℚ := (endX : ℚ) - p.x
    let dy : ℚ := (endY : ℚ) - p.y
    let len : ℚ := m.sqrtf (dx * dx + dy * dy)
    let perpX : ℚ := if len ≠ 0 then -dy / len else 0
    let perpY : ℚ := if len ≠ 0 then dx / len else 0
    -- Random offset magnitude:
    let offsetMagnitude : Int :=
      ((r.val % (arcLength / 2 + 1) : Nat) : Int) - ((arcLength / 4 : Nat) : Int)
    let offsetX : Int := truncInt (perpX * (offsetMagnitude : ℚ))
    let offsetY : Int := truncInt (perpY * (offsetMagnitude : ℚ))
    let pt : POINT := { x := baseX + offsetX, y := baseY + offsetY }
    let divs : List Effect :=
      Effect.divide (((numPoints : Int) - 1 : Int) : ℚ) ::
        ((if len ≠ 0 then [Effect.divide len, Effect.divide len] else []) ++
          [Effect.divide ((arcLength / 2 + 1 : Nat) : ℚ)])
    let rest := sparkMidLoop m p numPoints arcLength endX endY k (i + 1) r.next
    ((pt :: rest.1.1, divs ++ rest.1.2), rest.2)

/-- The loop `for (int i = 0; i < numPoints - 1; i++) DrawLine(points[i], points[i + 1])`. -/
def drawPolyline (sc : Screen) (color : Nat) : List POINT → List Effect
  | a :: b :: rest =>
    DrawLine sc a.x a.y b.x b.y color ++ drawPolyline sc color (b :: rest)
  | _ => []

/-- One arm of `DrawSparks`. -/
def sparkArm (m : DrawLibm) (sc : Screen) (p : Particle) (color : Nat) (r0 : Rng) :
    List Effect × Rng :=
  let numPoints : Nat := 3 + r0.val % 4
  let r1 := r0.next
  let arcLength : Nat := 10 + r1.val % 31
  let r2 := r1.next
  let angle : ℚ := (((r2.val % 360 : Nat) : ℚ) * PI_F) / 180
  let r3 := r2.next
  let startX : Int := truncInt p.x
  let startY : Int := truncInt p.y
  let endX : Int := truncInt (p.x + (arcLength : ℚ) * m.cosf angle)
  let endY : Int := truncInt (p.y + (arcLength : ℚ) * m.sinf angle)
  let mids := sparkMidLoop m p numPoints arcLength endX endY (numPoints - 2) 1 r3
  let points : List POINT :=
    { x := startX, y := startY } :: (mids.1.1 ++ [{ x := endX, y := endY }])
  (mids.1.2 ++ drawPolyline sc color points, mids.2)

/-- The loop `for (int arm = 0; arm < numArms; arm++)` of `DrawSparks`. -/
def sparkArmLoop (m : DrawLibm) (sc : Screen) (p : Particle) (color : Nat) :
    Nat → Rng → List Effect × Rng
  | 0, r => ([], r)
  | k + 1, r =>
    let a := sparkArm m sc p color r
    let rest := sparkArmLoop m sc p color k a.2
    (a.1 ++ rest.1, rest.2)

/-- The function `DrawSparks(p)`. -/
def DrawSparks (m : DrawLibm) (sc : Screen) (p : Particle) (r0 : Rng) : List Effect × Rng :=
  let numArms : Nat := 2 + r0.val % 3
  -- Use the spark's color (with full alpha) for all arms.
  let color : Nat := (0xFF <<< 24) ||| (p.color &&& 0xFFFFFF)
  sparkArmLoop m sc p color numArms r0.next

/-- The body of the two nested loops of `DrawSmoke` at offset `(dx, dy)`.
When `radius` is `0` the float quotient `dist / radius` is a NaN (for
`dist = 0`) or an infinity, and `std::min(1.0f, std::max(0.0f, ...))` then
yields `0`, respectively `1`. -/
def smokePixel (m : DrawLibm) (sc : Screen) (p : Particle) (radius : Int)
    (dx dy : Int) (r : Rng) : List Effect × Rng :=
  let screenX : Int := truncInt p.x + dx
  let screenY : Int := truncInt p.y + dy
  -- Skip drawing if we're outside the screen.
  if onScreen sc screenX screenY then
    -- Compute the distance from the center of the puff.
    let dist : ℚ := m.sqrtf ((dx * dx + dy * dy : Int) : ℚ)
    if dist > (radius : ℚ) then ([], r)
    else
      -- Compute alpha with a squared falloff for a smoother edge.
      let alpha0 : ℚ := 1 - dist / (radius : ℚ)
      let alpha1 : ℚ := alpha0 * alpha0
      let noise : ℚ := ((r.val % 20 : Nat) : ℚ) / 100 - 1 / 10
      let alpha2 : ℚ :=
        if radius = 0 then (if dist = 0 then 0 else 1)
        else min 1 (max 0 (alpha1 + noise))
      let finalAlpha : Nat := toU32 (truncInt (alpha2 * 150))
      let color : Nat := ((finalAlpha <<< 24) % 4294967296) ||| (p.color &&& 0xFFFFFF)
      ([Effect.divide (radius : ℚ), Effect.write screenX screenY color], r.next)
  else ([], r)

/-- The function `DrawSmoke(p)`. -/
def DrawSmoke (m : DrawLibm) (sc : Screen) (p : Particle) (r0 : Rng) : List Effect × Rng :=
  let radius : Int := truncInt (p.scale * 8)
  forEachM (intRange (-radius) radius)
    (fun dy => forEachM (intRange (-radius) radius)
      (fun dx => smokePixel m sc p radius dx dy)) r0

/-- The `switch (p.type)` of `DrawParticlesToDIB`, applied to the adjusted copy. -/
def renderAdjusted (m : DrawLibm) (sc : Screen) (type : ParticleType)
    (pAdjusted : Particle) (r : Rng) : List Effect × Rng :=
  match type with
  | .HEARTS => (DrawShape m.toLibm sc pAdjusted HEART_MASK 11 10, r)
  | .STARS => (DrawShape m.toLibm sc pAdjusted STAR_MASK 16 16, r)
  | .FIRE => DrawFire m.toLibm sc pAdjusted r
  | .SPARKS => DrawSparks m sc pAdjusted r
  | .SMOKE => DrawSmoke m sc pAdjusted r
  | .SWORD => (DrawSword m.toLibm sc pAdjusted, r)

/-- The body of the loop `for (const auto &p : g_particles)` of
`DrawParticlesToDIB`. -/
def drawParticle (m : DrawLibm) (sc : Screen) (p : Particle) (r : Rng) : List Effect × Rng :=
  -- Compute adjusted coordinates.
  let adjustedX : Int := truncInt p.x - sc.g_VirtualOffsetX
  let adjustedY : Int := truncInt p.y - sc.g_VirtualOffsetY
  -- Only draw if the particle lies within the DIB.
  if adjustedX < 0 ∨ adjustedX ≥ sc.g_ScreenWidth ∨
      adjustedY < 0 ∨ adjustedY ≥ sc.g_ScreenHeight then ([], r)
  else
    -- Create a local copy of the particle with adjusted coordinates.
    let pAdjusted : Particle := { p with x := (adjustedX : ℚ), y := (adjustedY : ℚ) }
    renderAdjusted m sc p.type pAdjusted r

/-- The pixel buffer `g_pPixels`, by index. -/
abbrev Buffer := Int → Nat

/-- One effect applied to the buffer: `dst[y * g_ScreenWidth + x] = color`. -/
def applyEffect (sc : Screen) (buf : Buffer) : Effect → Buffer
  | .write x y color => fun i => if i = y * sc.g_ScreenWidth + x then color else buf i
  | .divide _ => buf

/-- A list of effects applied to the buffer, in order. -/
def applyEffects (sc : Screen) (buf : Buffer) (es : List Effect) : Buffer :=
  es.foldl (applyEffect sc) buf

/-- The call `memset(dst, 0, g_ScreenWidth * g_ScreenHeight * sizeof(unsigned int))`. -/
def clearBuffer (sc : Screen) (buf : Buffer) : Buffer :=
  fun i => if 0 ≤ i ∧ i < sc.g_ScreenWidth * sc.g_ScreenHeight then 0 else buf i

/-- The function `DrawParticlesToDIB()`: the buffer and the generator afterwards. -/
def DrawParticlesToDIB (m : DrawLibm) (sc : Screen) (s : State) (buf : Buffer) :
    Buffer × Rng :=
  if !sc.pixelsAllocated then (buf, s.rng)
  else
    let t := forEachM s.g_particles (drawParticle m sc) s.rng
    (applyEffects sc (clearBuffer sc buf) t.1, t.2)

/-! ## Specification-side definitions -/

/-- The per-kind density of the common spawn path, as the specification
tabulates it: 10 for Stars, Smoke and Sword, 4 for Fire, 2 for Sparks. -/
def specDensity : ParticleType → ℚ
  | .FIRE => 4
  | .SPARKS => 2
  | _ => 10

/-- The particle `q` is the particle `p` aged by `T` seconds: its life is
`T` shorter, and the fields no update writes are the same. -/
def Descends (T : ℚ) (p q : Particle) : Prop :=
  q.life = p.life - T ∧ q.maxLife = p.maxLife ∧ q.color = p.color ∧
    q.rotationSpeed = p.rotationSpeed ∧ q.type = p.type

/-- The store invariant `0 < life ≤ maxLife`. -/
def StoreInv (ps : List Particle) : Prop :=
  ∀ p ∈ ps, 0 < p.life ∧ p.life ≤ p.maxLife

/-- One update step of a particle that is not a heart, as the specification
words it: position integrated with the old velocity, `vx` kept, gravity
`20 * dt` on `vy` except for Fire, rotation except for Fire and Smoke, life
decreased by `dt`. -/
def NonHeartStep (dt : ℚ) (p q : Particle) : Prop :=
  q.x = p.x + p.vx * dt ∧ q.y = p.y + p.vy * dt ∧ q.vx = p.vx ∧
  (p.type = .FIRE → q.vy = p.vy) ∧
  (p.type = .STARS ∨ p.type = .SPARKS ∨ p.type = .SMOKE ∨ p.type = .SWORD →
    q.vy = p.vy + 20 * dt) ∧
  (p.type = .FIRE ∨ p.type = .SMOKE → q.angle = p.angle) ∧
  (p.type = .STARS ∨ p.type = .SPARKS ∨ p.type = .SWORD →
    q.angle = p.angle + p.rotationSpeed * dt) ∧
  q.life = p.life - dt

/-- One update step of a heart, as the specification words it: velocity
scaled and drifted first, position integrated with the new velocity, no
gravity, rotation and ageing as usual. -/
def HeartStep (dt : ℚ) (p q : Particle) : Prop :=
  (∃ d : ℚ, (d = -(1 / 10) ∨ d = -(1 / 20) ∨ d = 0 ∨ d = 1 / 20 ∨ d = 1 / 10) ∧
    q.vx = (101 / 100) * p.vx + d) ∧
  q.vy = (103 / 100) * p.vy - 5 * dt ∧
  q.x = p.x + q.vx * dt ∧ q.y = p.y + q.vy * dt ∧
  q.angle = p.angle + p.rotationSpeed * dt ∧ q.life = p.life - dt

/-- The fields an update never writes are the same in `p` and `q`. -/
def SameIdentity (p q : Particle) : Prop :=
  q.maxLife = p.maxLife ∧ q.color = p.color ∧ q.rotationSpeed = p.rotationSpeed ∧
    q.type = p.type

/-- The pixel `(x, y)` lies in the buffer: `0 ≤ x < width`, `0 ≤ y < height`,
so that the index `y * width + x` lies in `[0, width * height)`. -/
def InBuffer (sc : Screen) (x y : Int) : Prop :=
  0 ≤ x ∧ x < sc.g_ScreenWidth ∧ 0 ≤ y ∧ y < sc.g_ScreenHeight ∧
  0 ≤ y * sc.g_ScreenWidth + x ∧
  y * sc.g_ScreenWidth + x < sc.g_ScreenWidth * sc.g_ScreenHeight

/-- An effect is safe when, if it is a pixel store, it passed the bounds test. -/
def SafeEffect (sc : Screen) : Effect → Prop
  | .write x y _ => onScreen sc x y = true
  | .divide _ => True

/-- An effect is a pixel store of the value `color`, or a division. -/
def ColoredEffect (color : Nat) : Effect → Prop
  | .write _ _ c => c = color
  | .divide _ => True

/-- An effect is a division by a non-zero divisor, or a pixel store. -/
def SoundDivision : Effect → Prop
  | .write _ _ _ => True
  | .divide d => d ≠ 0

/-- The `minLife` argument each common-path spawner passes to
`SpawnParticlesCommon`: 0.1 for Sparks, 0.3 for the other kinds. -/
def specMinLife : ParticleType → ℚ
  | .SPARKS => 1 / 10
  | _ => 3 / 10

/-- The `maxLife` argument each common-path spawner passes: 0.2 for Sparks,
0.5 for the other kinds. -/
def specMaxLife : ParticleType → ℚ
  | .SPARKS => 1 / 5
  | _ => 1 / 2

/-- The `scaleMin` argument each common-path spawner passes. -/
def specScaleMin : ParticleType → ℚ
  | .STARS => 1 / 2
  | .SWORD => 1 / 2
  | _ => 1

/-- The `scaleMax` argument each common-path spawner passes. -/
def specScaleMax : ParticleType → ℚ
  | .FIRE => 11 / 10
  | .SPARKS => 2
  | .SWORD => 1 / 2
  | _ => 3 / 2

/-- The `allowRotation` argument each common-path spawner passes. -/
def specRotation : ParticleType → Bool
  | .FIRE => false
  | .SMOKE => false
  | _ => true

/-- The `upwardVelocityBias` argument each common-path spawner passes: set for
Stars, Smoke and Sword, clear for Fire and Sparks. -/
def specUpwardBias : ParticleType → Bool
  | .FIRE => false
  | .SPARKS => false
  | _ => true

/-- The colour function of each kind. -/
def kindColor : ParticleType → Rng → Nat × Rng
  | .HEARTS => RandomHeartColor
  | .STARS => starsColor
  | .FIRE => fireColor
  | .SPARKS => sparksColor
  | .SMOKE => smokeColor
  | .SWORD => swordColor

/-- The interpolation parameter `t_i = (i + 1) / (n + 1)` of the specification. -/
def spawnParam (n i : Nat) : ℚ := ((i : ℚ) + 1) / ((n : ℚ) + 1)

/-- The classification of a local point of the sword as the specification
words it: silver blade (`|lx| ≤ 3`, `-50 ≤ ly ≤ 0`), else gold guard
(`|lx| ≤ 10`, `0 ≤ ly ≤ 4`), else brown hilt (`|lx| ≤ 2`, `4 ≤ ly ≤ 14`), else
dark grey pommel (`lx² + (ly - 14)² ≤ 9`), else nothing. -/
def specSwordColor (lx ly : Int) : Option Nat :=
  if |lx| ≤ 3 ∧ -50 ≤ ly ∧ ly ≤ 0 then some 0xFFC0C0C0
  else if |lx| ≤ 10 ∧ 0 ≤ ly ∧ ly ≤ 4 then some 0xFFFFD700
  else if |lx| ≤ 2 ∧ 4 ≤ ly ∧ ly ≤ 14 then some 0xFF8B4513
  else if lx ^ 2 + (ly - 14) ^ 2 ≤ 9 then some 0xFF696969
  else none

/-- An effect is a division, or a pixel store whose alpha byte (bits 24–31) is
at most 150 and whose colour bits (0–23) are those of `color`. -/
def SmokeEffect (color : Nat) : Effect → Prop
  | .write _ _ c => c >>> 24 ≤ 150 ∧ c &&& 0xFFFFFF = color &&& 0xFFFFFF ∧ c < 4294967296
  | .divide _ => True

/-- One step of a line: `x` moves by `sx` or stays, `y` moves by `sy` or stays,
and the point moves. -/
def LineStep (sx sy : Int) (q q' : POINT) : Prop :=
  (q'.x = q.x + sx ∨ q'.x = q.x) ∧ (q'.y = q.y + sy ∨ q'.y = q.y) ∧ q' ≠ q

/-- Row `j` of a mask stored row by row, `w` cells per row: the cells
`mask[j * w + i]` for `i = 0 .. w - 1`. -/
def maskRow (mask : List Nat) (w j : Nat) : List Nat :=
  (List.range w).map fun i => mask.getD (j * w + i) 0

/-- The rows of a mask of `h` rows, top to bottom. -/
def maskRows (mask : List Nat) (w h : Nat) : List (List Nat) :=
  (List.range h).map (maskRow mask w)

/-- The test of `DrawParticlesToDIB` that lets a particle through: its
truncated centre, translated by the origin of the virtual desktop, lies in
`[0, width) × [0, height)`. -/
def centreInside (sc : Screen) (p : Particle) : Bool :=
  decide (0 ≤ truncInt p.x - sc.g_VirtualOffsetX ∧
    truncInt p.x - sc.g_VirtualOffsetX < sc.g_ScreenWidth ∧
    0 ≤ truncInt p.y - sc.g_VirtualOffsetY ∧
    truncInt p.y - sc.g_VirtualOffsetY < sc.g_ScreenHeight)

/-- An effect is a division, or a pixel store whose value has red 255 (bits
16–23), green between 80 and 199 (bits 8–15) and blue 0 (bits 0–7). -/
def FireEffect : Effect → Prop
  | .write _ _ c =>
    (c >>> 16) % 256 = 255 ∧ 80 ≤ (c >>> 8) % 256 ∧ (c >>> 8) % 256 ≤ 199 ∧ c % 256 = 0
  | .divide _ => True

/-- An effect is a division, or a pixel store of one of the four colours of
the sword: silver, gold, brown or dark grey, each with alpha 255. -/
def SwordEffect : Effect → Prop
  | .write _ _ c => c = 0xFFC0C0C0 ∨ c = 0xFFFFD700 ∨ c = 0xFF8B4513 ∨ c = 0xFF696969
  | .divide _ => True

/-! ## Binary32 arithmetic

The definitions above compute with exact rationals. Where the outcome depends
on the rounding of the `float` operations (the particle count of
`SpawnParticlesCommon`, the repeated `p.life -= dt` of `UpdateParticles`, the
life a spawner draws), the functions are embedded a second time, below, with
every `float` operation written as the exact operation followed by `roundF32`:
rounding to the nearest number with a 24-bit significand, ties to the even
significand. Each operation is rounded on its own (no fused multiply-add, no
wider intermediate format). A `float` literal is the rounded decimal,
`roundF32 (1 / 5)` for `0.2f`; literals that are binary32 numbers (`10.0f`,
`0.5f`, `180.0f`) and conversions of `rand()` values, which are below `2^24`,
are written without rounding. The exponent is unbounded: overflow and
underflow are not modelled (the difference of two `float`s does not
underflow). -/

/-- The power `2^k` for an integer `k`. -/
def pow2 (k : Int) : ℚ :=
  if 0 ≤ k then ((2 ^ k.toNat : Nat) : ℚ) else 1 / ((2 ^ (-k).toNat : Nat) : ℚ)

/-- The search for `⌊log₂ n⌋`, upwards from `k`, with `f` steps left. -/
def log2Loop (n : Nat) : Nat → Nat → Nat
  | 0, k => k
  | f + 1, k => if n < 2 ^ (k + 1) then k else log2Loop n f (k + 1)

/-- The number `⌊log₂ n⌋` for `n ≥ 1`. -/
def bitLog (n : Nat) : Nat := log2Loop n n 0

/-- The binary exponent `⌊log₂ q⌋` of a positive rational. -/
def ilog2 (q : ℚ) : Int :=
  let e0 : Int := (bitLog q.num.natAbs : Int) - (bitLog q.den : Int)
  if pow2 e0 ≤ q then e0 else e0 - 1

/-- The integer nearest to `m`; a tie goes to the even integer. -/
def roundEven (m : ℚ) : Int :=
  if m - (⌊m⌋ : ℚ) < 1 / 2 then ⌊m⌋
  else if 1 / 2 < m - (⌊m⌋ : ℚ) then ⌊m⌋ + 1
  else if ⌊m⌋ % 2 = 0 then ⌊m⌋ else ⌊m⌋ + 1

/-- Rounding to binary32: the significand `|q| / 2^(e - 23)`, which lies in
`[2^23, 2^24)` for `e = ⌊log₂ |q|⌋`, is rounded to the nearest integer, ties
to even. -/
def roundF32 (q : ℚ) : ℚ :=
  if q = 0 then 0
  else
    let ulp : ℚ := pow2 (ilog2 |q| - 23)
    let n : Int := roundEven (|q| / ulp)
    if 0 < q then (n : ℚ) * ulp else -((n : ℚ) * ulp)

/-- The search for `⌊√n⌋` bit by bit, from bit `i - 1` down, above `r`. -/
def isqrtLoop (n : Nat) : Nat → Nat → Nat
  | 0, r => r
  | i + 1, r => isqrtLoop n i (if (r + 2 ^ i) * (r + 2 ^ i) ≤ n then r + 2 ^ i else r)

/-- The integer square root `⌊√n⌋`. -/
def isqrt (n : Nat) : Nat := isqrtLoop n (bitLog n / 2 + 1) 0

/-- The function `std::sqrt` on `float`: the square root, correctly rounded to
binary32. With `s = ⌊√(q · 4^k)⌋` of at least 26 bits, the root lies in
`[s, s + 1) / 2^k`, and every number of that interval other than `s / 2^k`
rounds as its midpoint does. A negative argument (the source passes none)
gives `0`. -/
def sqrtF32 (q : ℚ) : ℚ :=
  if q ≤ 0 then 0
  else
    let k : Nat := 26 + bitLog q.den
    let x : ℚ := q * ((4 ^ k : Nat) : ℚ)
    let s : Nat := isqrt ⌊x⌋.toNat
    let c : ℚ :=
      ((s : ℚ) + (if (s : ℚ) * (s : ℚ) = x then 0 else 1 / 2)) / ((2 ^ k : Nat) : ℚ)
    roundF32 c

/-- The value of `dist` in `SpawnParticlesCommon`, as the program computes it:
`std::sqrt(dx * dx + dy * dy)` on `float`, every operation rounded. -/
def distF32 (last pt : POINT) : ℚ :=
  let dx : ℚ := roundF32 ((pt.x - last.x : Int) : ℚ)
  let dy : ℚ := roundF32 ((pt.y - last.y : Int) : ℚ)
  sqrtF32 (roundF32 (roundF32 (dx * dx) + roundF32 (dy * dy)))

/-- One iteration of the `for` loop of `SpawnParticlesCommon` in binary32: the
particle pushed at index `i`, and the generator afterwards. The parameters
`minLife`, `maxLife`, `scaleMin`, `scaleMax`, `dx` and `dy` are `float`s. -/
def spawnCommonParticleF32 (m : Libm) (type : ParticleType)
    (colorFunc : Option (Rng → Nat × Rng))
    (minLife maxLife scaleMin scaleMax : ℚ) (allowRotation upwardVelocityBias : Bool)
    (last : POINT) (dx dy : ℚ) (numParticles i : Nat) (r0 : Rng) : Particle × Rng :=
  let t : ℚ := roundF32 (roundF32 ((i : ℚ) + 1) / roundF32 ((numParticles : ℚ) + 1))
  let px : ℚ := roundF32 (roundF32 (last.x : ℚ) + roundF32 (t * dx))
  let py : ℚ := roundF32 (roundF32 (last.y : ℚ) + roundF32 (t * dy))
  -- Random angle & speed
  let angle : ℚ := roundF32 (roundF32 (((r0.val % 360 : Nat) : ℚ) / 180) * roundF32 PI_F)
  let r1 := r0.next
  let speed : ℚ := roundF32 (25 + ((r1.val % 30 : Nat) : ℚ))
  let r2 := r1.next
  let vx : ℚ := roundF32 (roundF32 (speed * m.cosf angle) * (1 / 2))
  let vy : ℚ :=
    if upwardVelocityBias then - |roundF32 (speed * m.sinf angle)|
    else roundF32 (roundF32 (speed * m.sinf angle) * (1 / 2))
  -- Use color function
  let c : Nat × Rng :=
    match colorFunc with
    | some f => f r2
    | none => (0xFFFFFF, r2)
  let r3 := c.2
  -- Life
  let lifeRange : ℚ := roundF32 (maxLife - minLife)
  let chosenLife : ℚ :=
    roundF32 (minLife + roundF32 (roundF32 ((r3.val : ℚ) / (RAND_MAX : ℚ)) * lifeRange))
  let r4 := r3.next
  -- Scale
  let chosenScale : ℚ :=
    roundF32 (scaleMin
      + roundF32 (roundF32 ((r4.val : ℚ) / (RAND_MAX : ℚ)) * roundF32 (scaleMax - scaleMin)))
  let r5 := r4.next
  -- Rotation
  let pAngle : ℚ :=
    if allowRotation then roundF32 (roundF32 (((r5.val % 360 : Nat) : ℚ) * roundF32 PI_F) / 180)
    else 0
  let pRot : ℚ :=
    if allowRotation then roundF32 ((((r5.next.val % 601 : Nat) : ℚ) - 300) / 100) else 0
  let r6 := if allowRotation then r5.next.next else r5
  ({ x := px, y := py, vx := vx, vy := vy, life := chosenLife, maxLife := chosenLife,
     color := c.1, angle := pAngle, rotationSpeed := pRot, scale := chosenScale,
     type := type }, r6)

/-- The function `SpawnParticlesCommon` in binary32. -/
def SpawnParticlesCommonF32 (m : Libm) (pt : POINT) (type : ParticleType)
    (distBetweenParticles : ℚ) (colorFunc : Option (Rng → Nat × Rng))
    (minLife maxLife scaleMin scaleMax : ℚ)
    (allowRotation upwardVelocityBias : Bool) (s : State) : State :=
  -- If first time, just store the last pos
  if isUnset s.g_lastMousePos then { s with g_lastMousePos := pt }
  else
    let dx : ℚ := roundF32 ((pt.x - s.g_lastMousePos.x : Int) : ℚ)
    let dy : ℚ := roundF32 ((pt.y - s.g_lastMousePos.y : Int) : ℚ)
    let dist : ℚ := distF32 s.g_lastMousePos pt
    let s1 :=
      if dist > 0 then
        let numParticles : Nat :=
          (max 1 (truncInt (roundF32 (dist / distBetweenParticles)))).toNat
        spawnLoop
          (spawnCommonParticleF32 m type colorFunc minLife maxLife scaleMin scaleMax
            allowRotation upwardVelocityBias s.g_lastMousePos dx dy numParticles)
          numParticles 0 s
      else s
    { s1 with g_lastMousePos := pt }

/-- The particle `SpawnHeartsOnMouseMove` builds when `dist > 5`, in binary32. -/
def spawnHeartParticleF32 (m : Libm) (pt : POINT) (r0 : Rng) : Particle × Rng :=
  let angle : ℚ :=
    roundF32 ((((r0.val % 160 : Nat) : ℚ) - 80) * roundF32 (roundF32 PI_F / 180))
  let r1 := r0.next
  let speed : ℚ := roundF32 (150 + ((r1.val % 50 : Nat) : ℚ))
  let r2 := r1.next
  let vx : ℚ := roundF32 (speed * m.cosf angle)
  let vy : ℚ := - |roundF32 (speed * m.sinf angle)|
  let px : ℚ := roundF32 (roundF32 (pt.x : ℚ) + (((r2.val % 50 : Nat) : ℚ) - 30))
  let r3 := r2.next
  let py : ℚ := roundF32 (roundF32 (pt.y : ℚ) + (((r3.val % 50 : Nat) : ℚ) - 30))
  let r4 := r3.next
  let c := RandomHeartColor r4
  let r5 := c.2
  let maxLife : ℚ := roundF32 (9 / 10)
  let scale : ℚ := roundF32 (1 + roundF32 (((r5.val % 100 : Nat) : ℚ) / 200))
  let r6 := r5.next
  let pAngle : ℚ := roundF32 (roundF32 (((r6.val % 360 : Nat) : ℚ) * roundF32 PI_F) / 180)
  let r7 := r6.next
  let pRot : ℚ := roundF32 ((((r7.val % 601 : Nat) : ℚ) - 300) / 100)
  ({ x := px, y := py, vx := vx, vy := vy, life := maxLife, maxLife := maxLife,
     color := c.1, angle := pAngle, rotationSpeed := pRot, scale := scale,
     type := .HEARTS }, r7.next)

/-- The function `SpawnHeartsOnMouseMove` in binary32. -/
def SpawnHeartsOnMouseMoveF32 (m : Libm) (pt : POINT) (s : State) : State :=
  -- First time: Just store position, don't spawn yet
  if isUnset s.g_lastMousePos then { s with g_lastMousePos := pt }
  else
    let dist : ℚ := distF32 s.g_lastMousePos pt
    let s1 :=
      if dist > 5 then
        let pr := spawnHeartParticleF32 m pt s.rng
        { s with g_particles := s.g_particles ++ [pr.1], rng := pr.2 }
      else s
    { s1 with g_lastMousePos := pt }

/-- The dispatcher `SpawnParticlesOnMouseMove` in binary32, each common-path
kind with the `float` arguments its spawner passes. -/
def SpawnParticlesOnMouseMoveF32 (m : Libm) (pt : POINT) (s : State) : State :=
  match s.g_activeParticleSystem with
  | .SMOKE =>
    SpawnParticlesCommonF32 m pt .SMOKE 10 (some smokeColor) (roundF32 (3 / 10)) (1 / 2) 1
      (3 / 2) false true s
  | .STARS =>
    SpawnParticlesCommonF32 m pt .STARS 10 (some starsColor) (roundF32 (3 / 10)) (1 / 2)
      (1 / 2) (3 / 2) true true s
  | .FIRE =>
    SpawnParticlesCommonF32 m pt .FIRE 4 (some fireColor) (roundF32 (3 / 10)) (1 / 2) 1
      (roundF32 (11 / 10)) false false s
  | .SPARKS =>
    SpawnParticlesCommonF32 m pt .SPARKS 2 (some sparksColor) (roundF32 (1 / 10))
      (roundF32 (1 / 5)) 1 2 true false s
  | .HEARTS => SpawnHeartsOnMouseMoveF32 m pt s
  | .SWORD =>
    SpawnParticlesCommonF32 m pt .SWORD 10 (some swordColor) (roundF32 (3 / 10)) (1 / 2)
      (1 / 2) (1 / 2) true true s

/-- The expression `1.0f - powf(1.0f - ratio, 3.0f)` in binary32, `powf` taken
as the correctly rounded cube. -/
def fadeFactorF32 (ratio : ℚ) : ℚ := roundF32 (1 - roundF32 (roundF32 (1 - ratio) ^ 3))

/-- The body of the `for (auto &p : g_particles)` loop of `UpdateParticles` in
binary32. -/
def updateParticleF32 (dt : ℚ) (p : Particle) (r0 : Rng) : Particle × Rng :=
  -- Special behavior for hearts
  let isHeart : Bool := decide (p.type = .HEARTS)
  let vx1 : ℚ :=
    if isHeart then
      roundF32 (roundF32 (p.vx * roundF32 (101 / 100))
        + roundF32 ((((r0.val % 5 : Nat) : ℚ) - 2) * roundF32 (5 / 100)))
    else p.vx
  let vy1 : ℚ :=
    if isHeart then roundF32 (roundF32 (p.vy * roundF32 (103 / 100)) - roundF32 (5 * dt))
    else p.vy
  let r1 := if isHeart then r0.next else r0
  -- Update position
  let x1 : ℚ := roundF32 (p.x + roundF32 (vx1 * dt))
  let y1 : ℚ := roundF32 (p.y + roundF32 (vy1 * dt))
  -- Apply gravity for other particles
  let vy2 : ℚ :=
    if p.type ≠ .FIRE ∧ p.type ≠ .HEARTS then roundF32 (vy1 + roundF32 (20 * dt)) else vy1
  -- Rotate particles unless they are fire or smoke
  let angle1 : ℚ :=
    if p.type ≠ .FIRE ∧ p.type ≠ .SMOKE then
      roundF32 (p.angle + roundF32 (p.rotationSpeed * dt))
    else p.angle
  -- Decrease life over time
  let life1 : ℚ := roundF32 (p.life - dt)
  -- Smooth fade-out effect by scaling down over time
  let ratio : ℚ := if 0 < life1 then roundF32 (life1 / p.maxLife) else 0
  let scale1 : ℚ := roundF32 (p.scale * fadeFactorF32 ratio)
  ({ p with x := x1, y := y1, vx := vx1, vy := vy2, angle := angle1, life := life1,
            scale := scale1 }, r1)

/-- The range-for loop of `UpdateParticles`, over `updateParticleF32`. -/
def updateLoopF32 (dt : ℚ) : List Particle → Rng → List Particle × Rng
  | [], r => ([], r)
  | p :: ps, r =>
    let h := updateParticleF32 dt p r
    let t := updateLoopF32 dt ps h.2
    (h.1 :: t.1, t.2)

/-- The function `UpdateParticles(float dt)` in binary32. -/
def UpdateParticlesF32 (dt : ℚ) (s : State) : State :=
  let u := updateLoopF32 dt s.g_particles s.rng
  { s with g_particles := eraseRemoveIf (fun p => decide (p.life ≤ 0)) u.1, rng := u.2 }

/-- A sequence of `UpdateParticles` calls in binary32. -/
def runUpdatesF32 (dts : List ℚ) (s : State) : State :=
  dts.foldl (fun st dt => UpdateParticlesF32 dt st) s

/-- The life of a particle after the updates `dts`, each `p.life -= dt`
rounded to binary32. -/
def lifeAfterF32 (life : ℚ) (dts : List ℚ) : ℚ :=
  dts.foldl (fun l dt => roundF32 (l - dt)) life

/-- Whether a particle of the given life is still stored after the updates
`dts`: its rounded life was positive after each of them. -/
def survivesF32 : ℚ → List ℚ → Bool
  | _, [] => true
  | life, dt :: dts =>
    decide (0 < roundF32 (life - dt)) && survivesF32 (roundF32 (life - dt)) dts

/-- The particle `q` is the particle `p` after the updates `dts`: its life is
the rounded life, and the fields no update writes are the same. -/
def DescendsF32 (dts : List ℚ) (p q : Particle) : Prop :=
  q.life = lifeAfterF32 p.life dts ∧ q.maxLife = p.maxLife ∧ q.color = p.color ∧
    q.rotationSpeed = p.rotationSpeed ∧ q.type = p.type

/-! ## Sample data used to instantiate the theorems -/

/-- A stand-in for the math library: the values of `cosf` and `sinf` at `0`. -/
def sampleLibm : Libm := { cosf := fun _ => 1, sinf := fun _ => 0 }

/-- A sample stream for `rand()`. -/
def sampleRng : Rng := { seq := fun n => 7919 * n + 13, pos := 0 }

/-- A state with a recorded pointer position at `(100, 100)`, an empty store
and the given active kind. -/
def sampleState (k : ParticleType) : State :=
  { g_particles := [], g_activeParticleSystem := k,
    g_lastMousePos := { x := 100, y := 100 }, rng := sampleRng }

/-- A Stars particle as the spawner can create it. -/
def sampleStar : Particle :=
  { x := 110, y := 100, vx := 20, vy := -10, life := 2 / 5, maxLife := 2 / 5,
    color := 0xC8C8B4, angle := 0, rotationSpeed := 1, scale := 1, type := .STARS }

/-- A store holding the sample star and a second, longer-lived Smoke particle. -/
def sampleStore : State :=
  { g_particles := [sampleStar,
      { sampleStar with life := 1 / 2, maxLife := 1 / 2, type := .SMOKE, rotationSpeed := 0 }],
    g_activeParticleSystem := .STARS,
    g_lastMousePos := { x := 120, y := 100 }, rng := sampleRng }

/-- A short session: Sparks selected, two pointer samples, a frame, a third
pointer sample, Hearts selected, a pointer sample, another frame. -/
def sampleEvents : List Event :=
  [.select 4, .spawn { x := 10, y := 10 }, .spawn { x := 30, y := 10 }, .update (1 / 20),
   .spawn { x := 40, y := 40 }, .select 5, .spawn { x := 60, y := 40 }, .update (1 / 60)]

/-- A 100 × 100 overlay whose virtual-desktop origin is `(-1920, -200)`. -/
def sampleScreen : Screen :=
  { g_ScreenWidth := 100, g_ScreenHeight := 100, g_VirtualOffsetX := -1920,
    g_VirtualOffsetY := -200, pixelsAllocated := true }

/-- A stand-in for the math library of the renderers: `sqrtf` rounds down to
an integer. -/
def sampleDrawLibm : DrawLibm :=
  { toLibm := sampleLibm, sqrtf := fun q => ((Nat.sqrt ⌊q⌋.toNat : Nat) : ℚ) }

/-- The sample star, moved to the buffer-local position `(50, 50)`. -/
def sampleStarAt50 : Particle := { sampleStar with x := 50, y := 50 }

/-- A Hearts particle at the buffer-local position `(50, 50)`, angle 0, scale 1. -/
def sampleHeartAt50 : Particle :=
  { sampleStar with x := 50, y := 50, color := RGB 230 60 180, type := .HEARTS }

/-- A Smoke particle near the end of its life, shrunk to scale `0.1`, at the
buffer-local position `(5, 5)`. -/
def sampleFaintSmoke : Particle :=
  { x := 5, y := 5, vx := 0, vy := -3, life := 1 / 100, maxLife := 2 / 5,
    color := RGB 150 150 150, angle := 0, rotationSpeed := 0, scale := 1 / 10,
    type := .SMOKE }

/-- A Sparks particle with the colour `RGB(0, 100, 200)` at the buffer-local
position `(50, 50)`. -/
def sampleSpark : Particle :=
  { x := 50, y := 50, vx := 10, vy := 5, life := 3 / 20, maxLife := 3 / 20,
    color := RGB 0 100 200, angle := 1, rotationSpeed := 2, scale := 3 / 2,
    type := .SPARKS }

/-- A Hearts particle as the spawner can create it. -/
def sampleHeart : Particle :=
  { x := 300, y := 200, vx := 160, vy := -40, life := 9 / 10, maxLife := 9 / 10,
    color := RGB 230 60 180, angle := 1, rotationSpeed := 2, scale := 5 / 4,
    type := .HEARTS }

/-- The values `cosf` and `sinf` take at a quarter turn: an emission angle
whose sine is 1. -/
def quarterTurnLibm : Libm := { cosf := fun _ => 0, sinf := fun _ => 1 }

/-- A stream for `rand()` whose first draw is 90 (the angle, in degrees) and
whose later draws are 29 (the largest speed offset). -/
def steepRng : Rng := { seq := fun n => if n = 0 then 90 else 29, pos := 0 }

/-- A stream for `rand()` that always returns `RAND_MAX`. -/
def maxRng : Rng := { seq := fun _ => 32767, pos := 0 }

/-- The sample state of kind `k` with the given stream for `rand()`. -/
def sampleStateWith (k : ParticleType) (r : Rng) : State :=
  { g_particles := [], g_activeParticleSystem := k,
    g_lastMousePos := { x := 100, y := 100 }, rng := r }

/-- A Smoke particle of scale `0.125` (radius 1) at the buffer-local position
`(5, 5)`. -/
def sampleSmokePuff : Particle :=
  { x := 5, y := 5, vx := 0, vy := -3, life := 3 / 10, maxLife := 2 / 5,
    color := RGB 150 150 150, angle := 0, rotationSpeed := 0, scale := 1 / 8,
    type := .SMOKE }

/-- The smoke puff of radius 1, centred one pixel left of the sample overlay:
at the desktop position `(-1921, -195)`, which translates to `(-1, 5)`. -/
def sampleSmokeLeft : Particle := { sampleSmokePuff with x := -1921, y := -195 }

/-- A Fire particle at the buffer-local position `(50, 50)`, scale 1. -/
def sampleFlame : Particle :=
  { x := 50, y := 50, vx := 10, vy := -5, life := 2 / 5, maxLife := 2 / 5,
    color := RGB 230 90 0, angle := 0, rotationSpeed := 0, scale := 1, type := .FIRE }

/-- A Hearts particle as the program creates it: `life = maxLife = 0.9f`, the
binary32 number `7549747 / 2^23`. -/
def sampleHeartF32 : Particle :=
  { sampleHeart with life := 7549747 / 8388608, maxLife := 7549747 / 8388608 }

/-- The frame time `1 / 60` as a `float`: the binary32 number `8947849 / 2^29`. -/
def frameTimeF32 : ℚ := 8947849 / 536870912

/-! ## Lemmas: exact square roots -/

theorem sqrtGt_iff (sq : Nat) (c : ℚ) :
    sqrtGt sq c = true ↔ (c : ℝ) < Real.sqrt (sq : ℝ) := by
  unfold sqrtGt
  by_cases hc : c < 0
  · have h1 : (c : ℝ) < 0 := by exact_mod_cast hc
    simp only [hc, if_true, true_iff]
    exact lt_of_lt_of_le h1 (Real.sqrt_nonneg _)
  · have h0 : (0 : ℝ) ≤ (c : ℝ) := by exact_mod_cast (not_lt.mp hc)
    simp only [hc, if_false, decide_eq_true_eq]
    rw [Real.lt_sqrt h0]
    constructor
    · intro h
      have h2 : ((c * c : ℚ) : ℝ) < (((sq : ℚ)) : ℝ) := by exact_mod_cast h
      push_cast at h2
      nlinarith [h2]
    · intro h
      have h2 : ((c * c : ℚ) : ℝ) < (((sq : ℚ)) : ℝ) := by
        push_cast
        nlinarith [h]
      exact_mod_cast h2

theorem sqrtDivTrunc_eq (sq : Nat) (d : ℚ) (hd : 0 < d) :
    sqrtDivTrunc sq d = ⌊Real.sqrt (sq : ℝ) / (d : ℝ)⌋₊ := by
  unfold sqrtDivTrunc
  rw [if_pos hd]
  have hnum : 0 < d.num := Rat.num_pos.mpr hd
  have hden : (0 : ℝ) < (d.den : ℝ) := by exact_mod_cast d.den_pos
  obtain ⟨a, ha⟩ : ∃ a : Nat, d.num = (a : Int) := ⟨d.num.toNat, (Int.toNat_of_nonneg hnum.le).symm⟩
  have hapos : (0 : ℝ) < (a : ℝ) := by
    have : (0 : Int) < (a : Int) := ha ▸ hnum
    exact_mod_cast this
  have hdr : (d : ℝ) = (a : ℝ) / (d.den : ℝ) := by
    have h1 : (d : ℝ) = ((d.num : ℝ)) / (d.den : ℝ) := by
      exact_mod_cast (Rat.cast_def (K := ℝ) d)
    rw [h1, ha, Int.cast_natCast]
  have hroot : Real.sqrt (((sq * d.den ^ 2 : Nat)) : ℝ) = Real.sqrt (sq : ℝ) * (d.den : ℝ) := by
    push_cast
    rw [Real.sqrt_mul (by positivity), Real.sqrt_sq hden.le]
  have hquot : Real.sqrt (sq : ℝ) / (d : ℝ)
      = Real.sqrt (((sq * d.den ^ 2 : Nat)) : ℝ) / (a : ℝ) := by
    rw [hroot, hdr]
    field_simp
  rw [hquot, Nat.floor_div_nat, Real.nat_floor_real_sqrt_eq_nat_sqrt, ha]
  simp

/-- The number under the root, as an integer expression. -/
theorem distSq_cast (last pt : POINT) :
    ((distSq last pt : Nat) : ℝ) = (((pt.x - last.x) ^ 2 + (pt.y - last.y) ^ 2 : Int) : ℝ) := by
  unfold distSq
  have h : (0 : Int) ≤ (pt.x - last.x) * (pt.x - last.x) + (pt.y - last.y) * (pt.y - last.y) := by
    nlinarith [mul_self_nonneg (pt.x - last.x), mul_self_nonneg (pt.y - last.y)]
  have h2 : (((((pt.x - last.x) * (pt.x - last.x) + (pt.y - last.y) * (pt.y - last.y)).toNat : Nat)
      : Int)) = (pt.x - last.x) * (pt.x - last.x) + (pt.y - last.y) * (pt.y - last.y) :=
    Int.toNat_of_nonneg h
  have h3 : ((((((pt.x - last.x) * (pt.x - last.x) + (pt.y - last.y) * (pt.y - last.y)).toNat
      : Nat) : Int)) : ℝ) = (((pt.x - last.x) * (pt.x - last.x)
        + (pt.y - last.y) * (pt.y - last.y) : Int) : ℝ) := by rw [h2]
  rw [Int.cast_natCast] at h3
  rw [h3]
  push_cast
  ring

theorem isUnset_false_iff (p : POINT) :
    isUnset p = false ↔ p ≠ { x := -1, y := -1 } := by
  cases p with
  | mk a b =>
    simp only [isUnset, ne_eq, POINT.mk.injEq, Bool.and_eq_false_iff, decide_eq_false_iff_not]
    tauto

theorem isUnset_true_iff (p : POINT) :
    isUnset p = true ↔ p = { x := -1, y := -1 } := by
  cases p with
  | mk a b => simp [isUnset]

/-! ## Lemmas: the spawners -/

theorem Rng.val_le (r : Rng) : r.val ≤ RAND_MAX := by
  unfold Rng.val
  exact Nat.lt_succ_iff.mp (Nat.mod_lt _ (Nat.succ_pos _))

/-- The loop appends exactly `k` particles, each one produced by the body, and
touches neither the tracked position nor the active kind. -/
theorem spawnLoop_spec (body : Nat → Rng → Particle × Rng) (P : Particle → Prop)
    (hP : ∀ i r, P (body i r).1) :
    ∀ (k i : Nat) (s : State), ∃ new : List Particle,
      (spawnLoop body k i s).g_particles = s.g_particles ++ new ∧ new.length = k ∧
      (∀ p ∈ new, P p) ∧
      (spawnLoop body k i s).g_lastMousePos = s.g_lastMousePos ∧
      (spawnLoop body k i s).g_activeParticleSystem = s.g_activeParticleSystem := by
  intro k
  induction k with
  | zero =>
    intro i s
    exact ⟨[], by simp [spawnLoop], rfl, by simp, rfl, rfl⟩
  | succ k ih =>
    intro i s
    obtain ⟨new, h1, h2, h3, h4, h5⟩ :=
      ih (i + 1) { s with g_particles := s.g_particles ++ [(body i s.rng).1],
                          rng := (body i s.rng).2 }
    refine ⟨(body i s.rng).1 :: new, ?_, ?_, ?_, ?_, ?_⟩
    · simp only [spawnLoop]
      rw [h1]
      simp
    · simp [h2]
    · intro p hp
      rcases List.mem_cons.mp hp with rfl | hp
      · exact hP i s.rng
      · exact h3 p hp
    · simp only [spawnLoop]
      exact h4
    · simp only [spawnLoop]
      exact h5

/-- What `SpawnParticlesCommon` does once a previous position is recorded. -/
theorem SpawnParticlesCommon_spec (m : Libm) (pt : POINT) (type : ParticleType)
    (d : ℚ) (colorFunc : Option (Rng → Nat × Rng)) (minLife maxLife scaleMin scaleMax : ℚ)
    (rot up : Bool) (s : State) (P : Particle → Prop)
    (hP : ∀ last dx dy n i r, P (spawnCommonParticle m type colorFunc minLife maxLife
      scaleMin scaleMax rot up last dx dy n i r).1)
    (hrec : isUnset s.g_lastMousePos = false) :
    ∃ new : List Particle,
      (SpawnParticlesCommon m pt type d colorFunc minLife maxLife scaleMin scaleMax rot up
        s).g_particles = s.g_particles ++ new ∧
      new.length = (if sqrtGt (distSq s.g_lastMousePos pt) 0
        then max 1 (sqrtDivTrunc (distSq s.g_lastMousePos pt) d) else 0) ∧
      (∀ p ∈ new, P p) ∧
      (SpawnParticlesCommon m pt type d colorFunc minLife maxLife scaleMin scaleMax rot up
        s).g_lastMousePos = pt ∧
      (SpawnParticlesCommon m pt type d colorFunc minLife maxLife scaleMin scaleMax rot up
        s).g_activeParticleSystem = s.g_activeParticleSystem := by
  unfold SpawnParticlesCommon
  simp only [hrec, Bool.false_eq_true, if_false]
  by_cases hg : sqrtGt (distSq s.g_lastMousePos pt) 0 = true
  · simp only [hg, if_true]
    obtain ⟨new, h1, h2, h3, _, h5⟩ := spawnLoop_spec
      (spawnCommonParticle m type colorFunc minLife maxLife scaleMin scaleMax rot up
        s.g_lastMousePos ((pt.x - s.g_lastMousePos.x : Int) : ℚ)
        ((pt.y - s.g_lastMousePos.y : Int) : ℚ)
        (max 1 (sqrtDivTrunc (distSq s.g_lastMousePos pt) d)))
      P (fun i r => hP _ _ _ _ i r)
      (max 1 (sqrtDivTrunc (distSq s.g_lastMousePos pt) d)) 0 s
    exact ⟨new, h1, h2, h3, trivial, h5⟩
  · simp only [hg, Bool.false_eq_true, if_false]
    exact ⟨[], by simp, rfl, by simp, trivial, trivial⟩

/-- The fields every common-path particle is created with. -/
theorem spawnCommonParticle_fields (m : Libm) (type : ParticleType)
    (colorFunc : Option (Rng → Nat × Rng)) (minLife maxLife scaleMin scaleMax : ℚ)
    (rot up : Bool) (last : POINT) (dx dy : ℚ) (n i : Nat) (r : Rng) :
    (spawnCommonParticle m type colorFunc minLife maxLife scaleMin scaleMax rot up
      last dx dy n i r).1.type = type ∧
    (spawnCommonParticle m type colorFunc minLife maxLife scaleMin scaleMax rot up
      last dx dy n i r).1.life =
      (spawnCommonParticle m type colorFunc minLife maxLife scaleMin scaleMax rot up
        last dx dy n i r).1.maxLife ∧
    ∃ v : Nat, v ≤ RAND_MAX ∧
      (spawnCommonParticle m type colorFunc minLife maxLife scaleMin scaleMax rot up
        last dx dy n i r).1.life = minLife + ((v : ℚ) / (RAND_MAX : ℚ)) * (maxLife - minLife) :=
  ⟨rfl, rfl, _, Rng.val_le _, rfl⟩

/-- A life drawn as `minLife + (v / RAND_MAX) * (maxLife - minLife)` lies in
the closed range `[minLife, maxLife]`. -/
theorem chosenLife_range (minLife maxLife : ℚ) (v : Nat) (hv : v ≤ RAND_MAX)
    (hle : minLife ≤ maxLife) :
    minLife ≤ minLife + ((v : ℚ) / (RAND_MAX : ℚ)) * (maxLife - minLife) ∧
    minLife + ((v : ℚ) / (RAND_MAX : ℚ)) * (maxLife - minLife) ≤ maxLife := by
  have hR : (0 : ℚ) < (RAND_MAX : ℚ) := by norm_num [RAND_MAX]
  have h0 : (0 : ℚ) ≤ (v : ℚ) / (RAND_MAX : ℚ) := by positivity
  have h1 : (v : ℚ) / (RAND_MAX : ℚ) ≤ 1 := by
    rw [div_le_one hR]
    exact_mod_cast hv
  constructor
  · nlinarith
  · nlinarith

/-- What `SpawnHeartsOnMouseMove` does once a previous position is recorded. -/
theorem SpawnHeartsOnMouseMove_spec (m : Libm) (pt : POINT) (s : State)
    (hrec : isUnset s.g_lastMousePos = false) :
    (SpawnHeartsOnMouseMove m pt s).g_particles =
      (if sqrtGt (distSq s.g_lastMousePos pt) 5
        then s.g_particles ++ [(spawnHeartParticle m pt s.rng).1] else s.g_particles) ∧
    (SpawnHeartsOnMouseMove m pt s).g_lastMousePos = pt ∧
    (SpawnHeartsOnMouseMove m pt s).g_activeParticleSystem = s.g_activeParticleSystem := by
  unfold SpawnHeartsOnMouseMove
  simp only [hrec, Bool.false_eq_true, if_false]
  by_cases hg : sqrtGt (distSq s.g_lastMousePos pt) 5 = true
  · simp [hg]
  · simp [hg]

/-- The unset branch, common to every spawner. -/
theorem spawn_unset (m : Libm) (pt : POINT) (s : State)
    (h : isUnset s.g_lastMousePos = true) :
    SpawnParticlesOnMouseMove m pt s = { s with g_lastMousePos := pt } := by
  unfold SpawnParticlesOnMouseMove
  cases hk : s.g_activeParticleSystem <;>
    simp [SpawnHeartsOnMouseMove, SpawnStarsOnMouseMove, SpawnFireOnMouseMove,
      SpawnSparksOnMouseMove, SpawnSmokeOnMouseMove, SpawnSwordOnMouseMove,
      SpawnParticlesCommon, h, hk]

/-- The common path behind the dispatcher, for the five kinds that use it: the
tick appends `new`, whose length is decided by the displacement and the
density of the kind, and every appended particle satisfies whatever holds of
all particles the body can build. -/
theorem spawn_tick_common (m : Libm) (pt : POINT) (s : State)
    (P : Particle → Prop)
    (hP : ∀ type cf minLife maxLife scaleMin scaleMax rot up last dx dy n i r,
      type = s.g_activeParticleSystem →
      (type = .SPARKS → minLife = 1 / 10 ∧ maxLife = 1 / 5) →
      (type ≠ .SPARKS → minLife = 3 / 10 ∧ maxLife = 1 / 2) →
      P (spawnCommonParticle m type cf minLife maxLife scaleMin scaleMax rot up
        last dx dy n i r).1)
    (hkind : s.g_activeParticleSystem ≠ .HEARTS)
    (hrec : isUnset s.g_lastMousePos = false) :
    ∃ new : List Particle,
      (SpawnParticlesOnMouseMove m pt s).g_particles = s.g_particles ++ new ∧
      new.length = (if sqrtGt (distSq s.g_lastMousePos pt) 0
        then max 1 (sqrtDivTrunc (distSq s.g_lastMousePos pt)
          (specDensity s.g_activeParticleSystem)) else 0) ∧
      (∀ p ∈ new, P p) ∧
      (SpawnParticlesOnMouseMove m pt s).g_lastMousePos = pt ∧
      (SpawnParticlesOnMouseMove m pt s).g_activeParticleSystem
        = s.g_activeParticleSystem := by
  unfold SpawnParticlesOnMouseMove
  cases hk : s.g_activeParticleSystem with
  | HEARTS => exact absurd hk hkind
  | STARS =>
    have h := SpawnParticlesCommon_spec m pt .STARS 10 (some starsColor) (3 / 10) (1 / 2)
      (1 / 2) (3 / 2) true true s P
      (fun last dx dy n i r => hP _ _ _ _ _ _ _ _ last dx dy n i r hk.symm
        (fun h => by cases h) (fun _ => ⟨rfl, rfl⟩)) hrec
    simpa only [SpawnStarsOnMouseMove, specDensity, hk] using h
  | FIRE =>
    have h := SpawnParticlesCommon_spec m pt .FIRE 4 (some fireColor) (3 / 10) (1 / 2)
      1 (11 / 10) false false s P
      (fun last dx dy n i r => hP _ _ _ _ _ _ _ _ last dx dy n i r hk.symm
        (fun h => by cases h) (fun _ => ⟨rfl, rfl⟩)) hrec
    simpa only [SpawnFireOnMouseMove, specDensity, hk] using h
  | SPARKS =>
    have h := SpawnParticlesCommon_spec m pt .SPARKS 2 (some sparksColor) (1 / 10) (1 / 5)
      1 2 true false s P
      (fun last dx dy n i r => hP _ _ _ _ _ _ _ _ last dx dy n i r hk.symm
        (fun _ => ⟨rfl, rfl⟩) (fun h => absurd rfl h)) hrec
    simpa only [SpawnSparksOnMouseMove, specDensity, hk] using h
  | SMOKE =>
    have h := SpawnParticlesCommon_spec m pt .SMOKE 10 (some smokeColor) (3 / 10) (1 / 2)
      1 (3 / 2) false true s P
      (fun last dx dy n i r => hP _ _ _ _ _ _ _ _ last dx dy n i r hk.symm
        (fun h => by cases h) (fun _ => ⟨rfl, rfl⟩)) hrec
    simpa only [SpawnSmokeOnMouseMove, specDensity, hk] using h
  | SWORD =>
    have h := SpawnParticlesCommon_spec m pt .SWORD 10 (some swordColor) (3 / 10) (1 / 2)
      (1 / 2) (1 / 2) true true s P
      (fun last dx dy n i r => hP _ _ _ _ _ _ _ _ last dx dy n i r hk.symm
        (fun h => by cases h) (fun _ => ⟨rfl, rfl⟩)) hrec
    simpa only [SpawnSwordOnMouseMove, specDensity, hk] using h

/-! ## Lemmas: the lifecycle update -/

theorem eraseRemoveIf_eq_filter (pred : Particle → Bool) (l : List Particle) :
    eraseRemoveIf pred l = l.filter (fun p => !pred p) := by
  induction l with
  | nil => rfl
  | cons p ps ih =>
    by_cases hp : pred p = true
    · simp [eraseRemoveIf, hp, ih]
    · simp [eraseRemoveIf, hp, ih]

theorem updateParticle_descends (dt : ℚ) (p : Particle) (r : Rng) :
    Descends dt p (updateParticle dt p r).1 :=
  ⟨rfl, rfl, rfl, rfl, rfl⟩

theorem updateLoop_descends (dt : ℚ) :
    ∀ (ps : List Particle) (r : Rng),
      List.Forall₂ (Descends dt) ps (updateLoop dt ps r).1 := by
  intro ps
  induction ps with
  | nil => intro r; exact List.Forall₂.nil
  | cons p ps ih =>
    intro r
    exact List.Forall₂.cons (updateParticle_descends dt p r) (ih _)

theorem updateLoop_lives (dt : ℚ) :
    ∀ (ps : List Particle) (r : Rng),
      (updateLoop dt ps r).1.map (fun p => p.life) = ps.map (fun p => p.life - dt) := by
  intro ps
  induction ps with
  | nil => intro r; rfl
  | cons p ps ih =>
    intro r
    simp only [updateLoop, List.map_cons, ih]
    rfl

/-- Related lists stay related under filters that agree on related elements. -/
theorem forall₂_filter_of_agree {R : Particle → Particle → Prop} (f g : Particle → Bool)
    (hfg : ∀ a b, R a b → f a = g b) :
    ∀ {l1 l2 : List Particle}, List.Forall₂ R l1 l2 →
      List.Forall₂ R (l1.filter f) (l2.filter g) := by
  intro l1 l2 h
  induction h with
  | nil => exact List.Forall₂.nil
  | @cons a b l1 l2 hab _ ih =>
    have e := hfg a b hab
    by_cases hb : g b = true
    · rw [List.filter_cons_of_pos (e.trans hb), List.filter_cons_of_pos hb]
      exact List.Forall₂.cons hab ih
    · have hb2 : ¬ f a = true := by rw [e]; exact hb
      rw [List.filter_cons_of_neg hb2, List.filter_cons_of_neg hb]
      exact ih

/-- Ageing by `T1` and then by `T2` is ageing by `T1 + T2`. -/
theorem forall₂_descends_trans (T1 T2 : ℚ) :
    ∀ {l1 l2 l3 : List Particle}, List.Forall₂ (Descends T1) l1 l2 →
      List.Forall₂ (Descends T2) l2 l3 → List.Forall₂ (Descends (T1 + T2)) l1 l3 := by
  intro l1 l2 l3 h12
  induction h12 generalizing l3 with
  | nil =>
    intro h23
    cases h23
    exact List.Forall₂.nil
  | cons hab _ ih =>
    intro h23
    cases h23 with
    | cons hbc htl =>
      refine List.Forall₂.cons ?_ (ih htl)
      obtain ⟨a1, a2, a3, a4, a5⟩ := hab
      obtain ⟨b1, b2, b3, b4, b5⟩ := hbc
      refine ⟨?_, b2.trans a2, b3.trans a3, b4.trans a4, b5.trans a5⟩
      rw [b1, a1]
      ring

/-- One `UpdateParticles(dt)`: the survivors are, in order, the aged copies of
the particles whose life exceeded `dt`. -/
theorem UpdateParticles_descends (dt : ℚ) (s : State) :
    List.Forall₂ (Descends dt) (s.g_particles.filter (fun p => decide (dt < p.life)))
      (UpdateParticles dt s).g_particles := by
  unfold UpdateParticles
  simp only [eraseRemoveIf_eq_filter]
  refine forall₂_filter_of_agree _ _ ?_ (updateLoop_descends dt s.g_particles s.rng)
  intro a b hab
  have hlife : b.life = a.life - dt := hab.1
  by_cases h : dt < a.life
  · have h2 : ¬ b.life ≤ 0 := by rw [hlife]; linarith
    simp [h, h2]
  · have h2 : b.life ≤ 0 := by rw [hlife]; linarith
    simp [h, h2]

theorem UpdateParticles_life_pos (dt : ℚ) (s : State) :
    ∀ p ∈ (UpdateParticles dt s).g_particles, 0 < p.life := by
  intro p hp
  unfold UpdateParticles at hp
  simp only [eraseRemoveIf_eq_filter, List.mem_filter] at hp
  simpa using hp.2

/-- Every element of the right list of a `Forall₂` has a partner on the left. -/
theorem forall₂_mem_right {R : Particle → Particle → Prop} :
    ∀ {l1 l2 : List Particle}, List.Forall₂ R l1 l2 → ∀ b ∈ l2, ∃ a ∈ l1, R a b := by
  intro l1 l2 h
  induction h with
  | nil => intro b hb; cases hb
  | cons hab _ ih =>
    intro b hb
    rcases List.mem_cons.mp hb with rfl | hb
    · exact ⟨_, List.mem_cons_self _ _, hab⟩
    · obtain ⟨a, ha, hr⟩ := ih b hb
      exact ⟨a, List.mem_cons_of_mem _ ha, hr⟩

/-! ## Lemmas: the store invariant -/

theorem SetActiveParticleSystem_particles (systemId : Int) (s : State) :
    (SetActiveParticleSystem systemId s).g_particles = s.g_particles := by
  unfold SetActiveParticleSystem
  repeat' split
  all_goals rfl

theorem storeInv_append {ps qs : List Particle} (hp : StoreInv ps) (hq : StoreInv qs) :
    StoreInv (ps ++ qs) := by
  intro p hmem
  rcases List.mem_append.mp hmem with h | h
  · exact hp p h
  · exact hq p h

theorem spawnHeartParticle_life (m : Libm) (pt : POINT) (r : Rng) :
    (spawnHeartParticle m pt r).1.life = 9 / 10 ∧
    (spawnHeartParticle m pt r).1.maxLife = 9 / 10 ∧
    (spawnHeartParticle m pt r).1.type = .HEARTS :=
  ⟨rfl, rfl, rfl⟩

/-- A spawn tick keeps `0 < life ≤ maxLife`. -/
theorem spawn_preserves_inv (m : Libm) (pt : POINT) (s : State)
    (h : StoreInv s.g_particles) : StoreInv (SpawnParticlesOnMouseMove m pt s).g_particles := by
  by_cases hu : isUnset s.g_lastMousePos = true
  · rw [spawn_unset m pt s hu]
    exact h
  · have hrec : isUnset s.g_lastMousePos = false := by simpa using hu
    by_cases hk : s.g_activeParticleSystem = .HEARTS
    · have hdisp : SpawnParticlesOnMouseMove m pt s = SpawnHeartsOnMouseMove m pt s := by
        unfold SpawnParticlesOnMouseMove
        rw [hk]
      rw [hdisp, (SpawnHeartsOnMouseMove_spec m pt s hrec).1]
      split
      · refine storeInv_append h ?_
        intro p hp
        rw [List.mem_singleton.mp hp, (spawnHeartParticle_life m pt s.rng).1,
          (spawnHeartParticle_life m pt s.rng).2.1]
        norm_num
      · exact h
    · obtain ⟨new, h1, -, h3, -, -⟩ := spawn_tick_common m pt s
        (fun p => 0 < p.life ∧ p.life ≤ p.maxLife)
        (fun type cf minLife maxLife scaleMin scaleMax rot up last dx dy n i r _ hs hn => by
          obtain ⟨-, hlm, v, hv, hl⟩ := spawnCommonParticle_fields m type cf minLife maxLife
            scaleMin scaleMax rot up last dx dy n i r
          refine ⟨?_, le_of_eq hlm⟩
          rw [hl]
          by_cases ht : type = .SPARKS
          · obtain ⟨e1, e2⟩ := hs ht
            have := (chosenLife_range minLife maxLife v hv (by rw [e1, e2]; norm_num)).1
            rw [e1] at this ⊢
            linarith
          · obtain ⟨e1, e2⟩ := hn ht
            have := (chosenLife_range minLife maxLife v hv (by rw [e1, e2]; norm_num)).1
            rw [e1] at this ⊢
            linarith)
        hk hrec
      rw [h1]
      exact storeInv_append h h3

/-- An update with `dt ≥ 0` keeps `0 < life ≤ maxLife`. -/
theorem update_preserves_inv (dt : ℚ) (hdt : 0 ≤ dt) (s : State)
    (h : StoreInv s.g_particles) : StoreInv (UpdateParticles dt s).g_particles := by
  intro q hq
  obtain ⟨a, ha, hd⟩ := forall₂_mem_right (UpdateParticles_descends dt s) q hq
  have ha2 : a ∈ s.g_particles := (List.mem_filter.mp ha).1
  obtain ⟨-, hle⟩ := h a ha2
  refine ⟨UpdateParticles_life_pos dt s q hq, ?_⟩
  rw [hd.1, hd.2.1]
  linarith

/-- Any run whose update steps have `dt ≥ 0` keeps `0 < life ≤ maxLife`. -/
theorem run_preserves_inv (m : Libm) :
    ∀ (es : List Event) (s : State), (∀ dt, Event.update dt ∈ es → 0 ≤ dt) →
      StoreInv s.g_particles → StoreInv (run m s es).g_particles := by
  intro es
  induction es with
  | nil => intro s _ h; exact h
  | cons e es ih =>
    intro s hdt h
    have hrest : ∀ dt, Event.update dt ∈ es → 0 ≤ dt :=
      fun dt hm => hdt dt (List.mem_cons_of_mem _ hm)
    show StoreInv (run m (step m s e) es).g_particles
    apply ih _ hrest
    cases e with
    | select systemId =>
      show StoreInv (SetActiveParticleSystem systemId s).g_particles
      rw [SetActiveParticleSystem_particles]
      exact h
    | spawn pt => exact spawn_preserves_inv m pt s h
    | update dt => exact update_preserves_inv dt (hdt dt (List.mem_cons_self _ _)) s h

/-! ## Lemmas: expiry -/

theorem runUpdates_cons (dt : ℚ) (dts : List ℚ) (s : State) :
    runUpdates (dt :: dts) s = runUpdates dts (UpdateParticles dt s) := rfl

/-- After updates of total duration `T` (each `dt ≥ 0`), the store holds, in
order, the aged copies of exactly the particles whose life exceeded `T`. -/
theorem runUpdates_descends :
    ∀ (dts : List ℚ) (s : State), (∀ dt ∈ dts, 0 ≤ dt) →
      (dts ≠ [] ∨ ∀ p ∈ s.g_particles, 0 < p.life) →
      List.Forall₂ (Descends dts.sum)
        (s.g_particles.filter (fun p => decide (dts.sum < p.life)))
        (runUpdates dts s).g_particles := by
  intro dts
  induction dts with
  | nil =>
    intro s _ h
    have hpos : ∀ p ∈ s.g_particles, 0 < p.life := by
      rcases h with h | h
      · exact absurd rfl h
      · exact h
    have hfil : s.g_particles.filter (fun p => decide (([] : List ℚ).sum < p.life))
        = s.g_particles := by
      rw [List.filter_eq_self]
      intro p hp
      simpa using hpos p hp
    rw [hfil]
    show List.Forall₂ (Descends ([] : List ℚ).sum) s.g_particles s.g_particles
    have hrefl : ∀ l : List Particle, List.Forall₂ (Descends ([] : List ℚ).sum) l l := by
      intro l
      induction l with
      | nil => exact List.Forall₂.nil
      | cons a l ihl =>
        exact List.Forall₂.cons ⟨by simp, rfl, rfl, rfl, rfl⟩ ihl
    exact hrefl _
  | cons dt dts ih =>
    intro s hnn _
    have hdt : 0 ≤ dt := hnn dt (List.mem_cons_self _ _)
    have hrest : ∀ d ∈ dts, 0 ≤ d := fun d hd => hnn d (List.mem_cons_of_mem _ hd)
    have hsum : 0 ≤ dts.sum := List.sum_nonneg hrest
    have h1 := UpdateParticles_descends dt s
    have h2 := ih (UpdateParticles dt s) hrest (Or.inr (UpdateParticles_life_pos dt s))
    have h3 := forall₂_filter_of_agree
      (fun p => decide (dt + dts.sum < p.life)) (fun q => decide (dts.sum < q.life))
      (fun a b hab => by
        have hl : b.life = a.life - dt := hab.1
        by_cases hc : dt + dts.sum < a.life
        · have hc2 : dts.sum < b.life := by rw [hl]; linarith
          simp [hc, hc2]
        · have hc2 : ¬ dts.sum < b.life := by rw [hl]; linarith
          simp [hc, hc2]) h1
    have hff : (s.g_particles.filter (fun p => decide (dt < p.life))).filter
        (fun p => decide (dt + dts.sum < p.life))
        = s.g_particles.filter (fun p => decide (dt + dts.sum < p.life)) := by
      rw [List.filter_filter]
      apply List.filter_congr
      intro p _
      by_cases hc : dt + dts.sum < p.life
      · have hc2 : dt < p.life := by linarith
        simp [hc, hc2]
      · simp [hc]
    rw [hff] at h3
    rw [runUpdates_cons, List.sum_cons]
    exact forall₂_descends_trans dt dts.sum h3 h2

/-- What a Sparks tick appends lives at most `0.2` seconds. -/
theorem sparks_tick_short_lived (m : Libm) (pt : POINT) (s : State)
    (hk : s.g_activeParticleSystem = .SPARKS) :
    ∃ new : List Particle,
      (SpawnParticlesOnMouseMove m pt s).g_particles = s.g_particles ++ new ∧
      ∀ p ∈ new, p.type = .SPARKS ∧ p.life ≤ 1 / 5 := by
  by_cases hu : isUnset s.g_lastMousePos = true
  · rw [spawn_unset m pt s hu]
    exact ⟨[], by simp, by simp⟩
  · have hrec : isUnset s.g_lastMousePos = false := by simpa using hu
    obtain ⟨new, h1, -, h3, -, -⟩ := spawn_tick_common m pt s
      (fun p => p.type = .SPARKS ∧ p.life ≤ 1 / 5)
      (fun type cf minLife maxLife scaleMin scaleMax rot up last dx dy n i r ht hs _ => by
        obtain ⟨hty, -, v, hv, hl⟩ := spawnCommonParticle_fields m type cf minLife maxLife
          scaleMin scaleMax rot up last dx dy n i r
        have hts : type = .SPARKS := ht.trans hk
        obtain ⟨e1, e2⟩ := hs hts
        refine ⟨hty.trans hts, ?_⟩
        rw [hl]
        exact ((chosenLife_range minLife maxLife v hv (by rw [e1, e2]; norm_num)).2).trans
          (le_of_eq e2))
      (by rw [hk]; decide) hrec
    exact ⟨new, h1, h3⟩

/-! ## Lemmas: the tracked pointer position -/

/-- Every spawn tick leaves the observed position in `g_lastMousePos`. -/
theorem spawn_lastMousePos (m : Libm) (pt : POINT) (s : State) :
    (SpawnParticlesOnMouseMove m pt s).g_lastMousePos = pt := by
  by_cases hu : isUnset s.g_lastMousePos = true
  · rw [spawn_unset m pt s hu]
  · have hrec : isUnset s.g_lastMousePos = false := by simpa using hu
    by_cases hk : s.g_activeParticleSystem = .HEARTS
    · have hdisp : SpawnParticlesOnMouseMove m pt s = SpawnHeartsOnMouseMove m pt s := by
        unfold SpawnParticlesOnMouseMove
        rw [hk]
      rw [hdisp]
      exact (SpawnHeartsOnMouseMove_spec m pt s hrec).2.1
    · obtain ⟨_, -, -, -, h4, -⟩ := spawn_tick_common m pt s (fun _ => True)
        (fun _ _ _ _ _ _ _ _ _ _ _ _ _ _ _ _ _ => trivial) hk hrec
      exact h4

/-- A spawn tick does not change the active kind. -/
theorem spawn_activeKind (m : Libm) (pt : POINT) (s : State) :
    (SpawnParticlesOnMouseMove m pt s).g_activeParticleSystem
      = s.g_activeParticleSystem := by
  by_cases hu : isUnset s.g_lastMousePos = true
  · rw [spawn_unset m pt s hu]
  · have hrec : isUnset s.g_lastMousePos = false := by simpa using hu
    by_cases hk : s.g_activeParticleSystem = .HEARTS
    · have hdisp : SpawnParticlesOnMouseMove m pt s = SpawnHeartsOnMouseMove m pt s := by
        unfold SpawnParticlesOnMouseMove
        rw [hk]
      rw [hdisp]
      exact (SpawnHeartsOnMouseMove_spec m pt s hrec).2.2
    · obtain ⟨_, -, -, -, -, h5⟩ := spawn_tick_common m pt s (fun _ => True)
        (fun _ _ _ _ _ _ _ _ _ _ _ _ _ _ _ _ _ => trivial) hk hrec
      exact h5

/-! ## Lemmas: one update step -/

theorem updateParticle_sameIdentity (dt : ℚ) (p : Particle) (r : Rng) :
    SameIdentity p (updateParticle dt p r).1 :=
  ⟨rfl, rfl, rfl, rfl⟩

theorem updateParticle_nonHeart (dt : ℚ) (p : Particle) (r : Rng)
    (h : p.type ≠ .HEARTS) :
    NonHeartStep dt p (updateParticle dt p r).1 ∧ (updateParticle dt p r).2 = r := by
  unfold NonHeartStep updateParticle
  cases hk : p.type <;> simp_all

theorem updateParticle_heart (dt : ℚ) (p : Particle) (r : Rng)
    (h : p.type = .HEARTS) :
    HeartStep dt p (updateParticle dt p r).1 ∧ (updateParticle dt p r).2 = r.next := by
  have hmod : r.val % 5 < 5 := Nat.mod_lt _ (by decide)
  have hvx : (updateParticle dt p r).1.vx
      = (101 / 100) * p.vx + (((r.val % 5 : Nat) : ℚ) - 2) * (5 / 100) := by
    simp only [updateParticle, h, decide_True, if_true]
    ring
  have hvy : (updateParticle dt p r).1.vy = (103 / 100) * p.vy - 5 * dt := by
    simp only [updateParticle, h, decide_True, if_true, ne_eq, not_true_eq_false,
      and_false, if_false]
    ring
  have hx : (updateParticle dt p r).1.x = p.x + (updateParticle dt p r).1.vx * dt := by
    simp only [updateParticle, h, decide_True, if_true]
  have hy : (updateParticle dt p r).1.y = p.y + (updateParticle dt p r).1.vy * dt := by
    simp only [updateParticle, h, decide_True, if_true, ne_eq, not_true_eq_false,
      and_false, if_false]
  have hang : (updateParticle dt p r).1.angle = p.angle + p.rotationSpeed * dt := by
    simp [updateParticle, h]
  have hr : (updateParticle dt p r).2 = r.next := by
    simp [updateParticle, h]
  refine ⟨⟨⟨(((r.val % 5 : Nat) : ℚ) - 2) * (5 / 100), ?_, hvx⟩, hvy, hx, hy, hang, rfl⟩, hr⟩
  interval_cases (r.val % 5) <;> norm_num

/-- A relation that holds between a particle and its updated copy, for every
state of the generator, holds along the whole update loop. -/
theorem updateLoop_forall₂ (dt : ℚ) (R : Particle → Particle → Prop)
    (hR : ∀ p r, R p (updateParticle dt p r).1) :
    ∀ (ps : List Particle) (r : Rng), List.Forall₂ R ps (updateLoop dt ps r).1 := by
  intro ps
  induction ps with
  | nil => intro r; exact List.Forall₂.nil
  | cons p ps ih =>
    intro r
    exact List.Forall₂.cons (hR p r) (ih _)

/-! ## Lemmas: traces of the renderers -/

theorem onScreen_iff (sc : Screen) (x y : Int) :
    onScreen sc x y = true ↔
      0 ≤ x ∧ x < sc.g_ScreenWidth ∧ 0 ≤ y ∧ y < sc.g_ScreenHeight := by
  simp [onScreen, and_assoc]

theorem inBuffer_of_onScreen (sc : Screen) (x y : Int) (h : onScreen sc x y = true) :
    InBuffer sc x y := by
  obtain ⟨h1, h2, h3, h4⟩ := (onScreen_iff sc x y).mp h
  refine ⟨h1, h2, h3, h4, ?_, ?_⟩
  · have : 0 ≤ y * sc.g_ScreenWidth := mul_nonneg h3 (by linarith)
    linarith
  · have hy : y + 1 ≤ sc.g_ScreenHeight := h4
    have hw : 0 ≤ sc.g_ScreenWidth := by linarith
    have : (y + 1) * sc.g_ScreenWidth ≤ sc.g_ScreenHeight * sc.g_ScreenWidth :=
      mul_le_mul_of_nonneg_right hy hw
    nlinarith

/-- A property of every effect of every iteration holds of the whole loop. -/
theorem forEachM_all {α : Type} (P : Effect → Prop) (body : α → Rng → List Effect × Rng)
    (hbody : ∀ a r, ∀ e ∈ (body a r).1, P e) :
    ∀ (xs : List α) (r : Rng), ∀ e ∈ (forEachM xs body r).1, P e := by
  intro xs
  induction xs with
  | nil => intro r e he; cases he
  | cons a rest ih =>
    intro r e he
    simp only [forEachM, List.mem_append] at he
    rcases he with he | he
    · exact hbody a r e he
    · exact ih _ e he

theorem DrawShape_all (m : Libm) (sc : Screen) (p : Particle) (mask : List Nat)
    (w h : Nat) :
    ∀ e ∈ DrawShape m sc p mask w h,
      SafeEffect sc e ∧ ColoredEffect ((0xFF <<< 24) ||| (p.color &&& 0xFFFFFF)) e ∧
        SoundDivision e := by
  intro e he
  simp only [DrawShape, List.mem_flatMap] at he
  obtain ⟨j, -, i, -, he⟩ := he
  split at he
  · split at he
    · rename_i hon
      rcases List.mem_cons.mp he with rfl | he
      · exact ⟨hon, rfl, trivial⟩
      · simp only [List.mem_flatMap] at he
        obtain ⟨dx, -, dy, -, he⟩ := he
        split at he
        · rename_i hon2
          rw [List.mem_singleton.mp he]
          exact ⟨hon2, rfl, trivial⟩
        · cases he
    · cases he
  · cases he

theorem DrawSword_all (m : Libm) (sc : Screen) (p : Particle) :
    ∀ e ∈ DrawSword m sc p, SafeEffect sc e ∧ SoundDivision e := by
  intro e he
  simp only [DrawSword, List.mem_flatMap] at he
  obtain ⟨ly, -, lx, -, he⟩ := he
  split at he
  · rename_i hon
    repeat' split at he
    all_goals first
      | (rw [List.mem_singleton.mp he]; exact ⟨hon, trivial⟩)
      | cases he
  · cases he

theorem fireTriangle_all (m : Libm) (sc : Screen) (p : Particle)
    (tx ty baseWidth height : Int) (color : Nat)
    (hdy : ty - (ty - height) ≠ 0) :
    ∀ e ∈ fireTriangle m sc p tx ty baseWidth height color,
      SafeEffect sc e ∧ SoundDivision e := by
  intro e he
  simp only [fireTriangle, List.mem_flatMap] at he
  obtain ⟨y, -, he⟩ := he
  rcases List.mem_cons.mp he with rfl | he
  · refine ⟨trivial, ?_⟩
    show ((ty - (ty - height) : Int) : ℚ) ≠ 0
    exact_mod_cast hdy
  · simp only [List.mem_flatMap] at he
    obtain ⟨x, -, he⟩ := he
    split at he
    · rename_i hon
      rw [List.mem_singleton.mp he]
      exact ⟨hon, trivial⟩
    · cases he

theorem fireLoop_all (m : Libm) (sc : Screen) (p : Particle) :
    ∀ (k : Nat) (r : Rng), ∀ e ∈ (fireLoop m sc p k r).1,
      SafeEffect sc e ∧ SoundDivision e := by
  intro k
  induction k with
  | zero => intro r e he; cases he
  | succ k ih =>
    intro r e he
    simp only [fireLoop] at he
    split at he
    · cases he
    · rename_i hdy
      rcases List.mem_append.mp he with he | he
      · exact fireTriangle_all m sc p _ _ _ _ _ hdy e he
      · exact ih _ e he

theorem DrawFire_all (m : Libm) (sc : Screen) (p : Particle) (r : Rng) :
    ∀ e ∈ (DrawFire m sc p r).1, SafeEffect sc e ∧ SoundDivision e := by
  intro e he
  unfold DrawFire at he
  split at he
  · cases he
  · exact fireLoop_all m sc p _ _ e he

theorem drawLineLoop_all (sc : Screen) (x1 y1 dx dy sx sy : Int) (color : Nat) :
    ∀ (fuel : Nat) (x0 y0 err : Int),
      ∀ e ∈ drawLineLoop sc x1 y1 dx dy sx sy color fuel x0 y0 err,
        SafeEffect sc e ∧ ColoredEffect color e ∧ SoundDivision e := by
  intro fuel
  induction fuel with
  | zero => intro x0 y0 err e he; cases he
  | succ fuel ih =>
    intro x0 y0 err e he
    have hw : ∀ e ∈ (if onScreen sc x0 y0 = true then [Effect.write x0 y0 color] else []),
        SafeEffect sc e ∧ ColoredEffect color e ∧ SoundDivision e := by
      intro e he
      split at he
      · rename_i hon
        rw [List.mem_singleton.mp he]
        exact ⟨hon, rfl, trivial⟩
      · cases he
    simp only [drawLineLoop] at he
    split at he
    · exact hw e he
    · rcases List.mem_append.mp he with he | he
      · exact hw e he
      · exact ih _ _ _ e he

theorem DrawLine_all (sc : Screen) (x0 y0 x1 y1 : Int) (color : Nat) :
    ∀ e ∈ DrawLine sc x0 y0 x1 y1 color,
      SafeEffect sc e ∧ ColoredEffect color e ∧ SoundDivision e :=
  fun e he => drawLineLoop_all sc _ _ _ _ _ _ color _ _ _ _ e he

theorem drawPolyline_all (sc : Screen) (color : Nat) :
    ∀ (pts : List POINT), ∀ e ∈ drawPolyline sc color pts,
      SafeEffect sc e ∧ ColoredEffect color e ∧ SoundDivision e := by
  intro pts
  induction pts with
  | nil => intro e he; cases he
  | cons a rest ih =>
    intro e he
    cases rest with
    | nil => cases he
    | cons b rest =>
      simp only [drawPolyline] at he
      rcases List.mem_append.mp he with he | he
      · exact DrawLine_all sc _ _ _ _ color e he
      · exact ih e he

theorem sparkMidLoop_all (m : DrawLibm) (sc : Screen) (p : Particle)
    (numPoints arcLength : Nat) (endX endY : Int) (color : Nat) (hn : 2 ≤ numPoints) :
    ∀ (k i : Nat) (r : Rng),
      ∀ e ∈ (sparkMidLoop m p numPoints arcLength endX endY k i r).1.2,
        SafeEffect sc e ∧ ColoredEffect color e ∧ SoundDivision e := by
  intro k
  induction k with
  | zero => intro i r e he; cases he
  | succ k ih =>
    intro i r e he
    simp only [sparkMidLoop, List.mem_append, List.mem_cons] at he
    rcases he with (rfl | he | he) | he
    · refine ⟨trivial, trivial, ?_⟩
      show (((numPoints : Int) - 1 : Int) : ℚ) ≠ 0
      have : ((numPoints : Int) - 1 : Int) ≠ 0 := by omega
      exact_mod_cast this
    · split at he
      · rename_i hlen
        simp only [List.mem_cons, List.mem_singleton, List.not_mem_nil, or_false,
          or_self] at he
        rw [he]
        exact ⟨trivial, trivial, hlen⟩
      · cases he
    · simp only [List.mem_singleton, List.not_mem_nil, or_false] at he
      rw [he]
      refine ⟨trivial, trivial, ?_⟩
      show ((arcLength / 2 + 1 : Nat) : ℚ) ≠ 0
      have : (arcLength / 2 + 1 : Nat) ≠ 0 := Nat.succ_ne_zero _
      exact_mod_cast this
    · exact ih _ _ e he

theorem sparkArm_all (m : DrawLibm) (sc : Screen) (p : Particle) (color : Nat) (r : Rng) :
    ∀ e ∈ (sparkArm m sc p color r).1,
      SafeEffect sc e ∧ ColoredEffect color e ∧ SoundDivision e := by
  intro e he
  simp only [sparkArm, List.mem_append] at he
  rcases he with he | he
  · exact sparkMidLoop_all m sc p _ _ _ _ color (by omega) _ _ _ e he
  · exact drawPolyline_all sc color _ e he

theorem sparkArmLoop_all (m : DrawLibm) (sc : Screen) (p : Particle) (color : Nat) :
    ∀ (k : Nat) (r : Rng), ∀ e ∈ (sparkArmLoop m sc p color k r).1,
      SafeEffect sc e ∧ ColoredEffect color e ∧ SoundDivision e := by
  intro k
  induction k with
  | zero => intro r e he; cases he
  | succ k ih =>
    intro r e he
    simp only [sparkArmLoop, List.mem_append] at he
    rcases he with he | he
    · exact sparkArm_all m sc p color r e he
    · exact ih _ e he

theorem DrawSparks_all (m : DrawLibm) (sc : Screen) (p : Particle) (r : Rng) :
    ∀ e ∈ (DrawSparks m sc p r).1,
      SafeEffect sc e ∧ ColoredEffect ((0xFF <<< 24) ||| (p.color &&& 0xFFFFFF)) e ∧
        SoundDivision e :=
  fun e he => sparkArmLoop_all m sc p _ _ _ e he

theorem smokePixel_all (m : DrawLibm) (sc : Screen) (p : Particle) (radius dx dy : Int)
    (r : Rng) : ∀ e ∈ (smokePixel m sc p radius dx dy r).1, SafeEffect sc e := by
  intro e he
  by_cases hon : onScreen sc (truncInt p.x + dx) (truncInt p.y + dy) = true
  · by_cases hd : m.sqrtf ((dx * dx + dy * dy : Int) : ℚ) > (radius : ℚ)
    · simp only [smokePixel, hon, hd, if_true] at he
      cases he
    · simp only [smokePixel, hon, hd, if_true, if_false, List.mem_cons, List.mem_singleton,
        List.not_mem_nil, or_false] at he
      rcases he with rfl | rfl
      · trivial
      · exact hon
  · simp only [smokePixel, hon, Bool.false_eq_true, if_false] at he
    cases he

theorem DrawSmoke_all (m : DrawLibm) (sc : Screen) (p : Particle) (r : Rng) :
    ∀ e ∈ (DrawSmoke m sc p r).1, SafeEffect sc e := by
  unfold DrawSmoke
  apply forEachM_all
  intro dy r1
  apply forEachM_all
  intro dx r2
  exact smokePixel_all m sc p _ dx dy r2

theorem renderAdjusted_all (m : DrawLibm) (sc : Screen) (type : ParticleType)
    (p : Particle) (r : Rng) :
    ∀ e ∈ (renderAdjusted m sc type p r).1, SafeEffect sc e := by
  intro e he
  cases type with
  | HEARTS => exact (DrawShape_all m.toLibm sc p HEART_MASK 11 10 e he).1
  | STARS => exact (DrawShape_all m.toLibm sc p STAR_MASK 16 16 e he).1
  | FIRE => exact (DrawFire_all m.toLibm sc p r e he).1
  | SPARKS => exact (DrawSparks_all m sc p r e he).1
  | SMOKE => exact DrawSmoke_all m sc p r e he
  | SWORD => exact (DrawSword_all m.toLibm sc p e he).1

theorem drawParticle_all (m : DrawLibm) (sc : Screen) (p : Particle) (r : Rng) :
    ∀ e ∈ (drawParticle m sc p r).1, SafeEffect sc e := by
  intro e he
  by_cases hout : truncInt p.x - sc.g_VirtualOffsetX < 0 ∨
      truncInt p.x - sc.g_VirtualOffsetX ≥ sc.g_ScreenWidth ∨
      truncInt p.y - sc.g_VirtualOffsetY < 0 ∨
      truncInt p.y - sc.g_VirtualOffsetY ≥ sc.g_ScreenHeight
  · simp only [drawParticle, hout, if_true] at he
    cases he
  · simp only [drawParticle, hout, if_false] at he
    exact renderAdjusted_all m sc _ _ r e he

/-! ## Lemmas: the buffer -/

theorem truncInt_intCast (z : Int) : truncInt (z : ℚ) = z := by
  unfold truncInt
  split
  · exact Int.floor_intCast z
  · exact Int.ceil_intCast z

/-! ## Lemmas: the first pixel of a spark -/

theorem drawLineLoop_first (sc : Screen) (x1 y1 dx dy sx sy : Int) (color : Nat)
    (fuel : Nat) (x0 y0 err : Int) (hon : onScreen sc x0 y0 = true) :
    Effect.write x0 y0 color ∈
      drawLineLoop sc x1 y1 dx dy sx sy color (fuel + 1) x0 y0 err := by
  simp only [drawLineLoop, hon, if_true]
  split
  · exact List.mem_singleton.mpr rfl
  · exact List.mem_append_left _ (List.mem_singleton.mpr rfl)

theorem sparkArm_first (m : DrawLibm) (sc : Screen) (p : Particle) (color : Nat) (r : Rng)
    (hon : onScreen sc (truncInt p.x) (truncInt p.y) = true) :
    Effect.write (truncInt p.x) (truncInt p.y) color ∈ (sparkArm m sc p color r).1 := by
  simp only [sparkArm]
  apply List.mem_append_right
  generalize (sparkMidLoop m p (3 + r.val % 4) (10 + r.next.val % 31)
    (truncInt (p.x + ((10 + r.next.val % 31 : Nat) : ℚ)
      * m.cosf ((((r.next.next.val % 360 : Nat) : ℚ) * PI_F) / 180)))
    (truncInt (p.y + ((10 + r.next.val % 31 : Nat) : ℚ)
      * m.sinf ((((r.next.next.val % 360 : Nat) : ℚ) * PI_F) / 180)))
    (3 + r.val % 4 - 2) 1 r.next.next.next).1.1 = mids
  cases mids with
  | nil =>
    simp only [List.nil_append, drawPolyline, List.append_nil]
    exact drawLineLoop_first sc _ _ _ _ _ _ color _ _ _ _ hon
  | cons b rest =>
    simp only [List.cons_append, drawPolyline]
    exact List.mem_append_left _ (drawLineLoop_first sc _ _ _ _ _ _ color _ _ _ _ hon)

theorem DrawSparks_first (m : DrawLibm) (sc : Screen) (p : Particle) (r : Rng)
    (hon : onScreen sc (truncInt p.x) (truncInt p.y) = true) :
    Effect.write (truncInt p.x) (truncInt p.y) ((0xFF <<< 24) ||| (p.color &&& 0xFFFFFF))
      ∈ (DrawSparks m sc p r).1 := by
  have h : 2 + r.val % 3 = (1 + r.val % 3) + 1 := by omega
  simp only [DrawSparks, h, sparkArmLoop]
  exact List.mem_append_left _ (sparkArm_first m sc p _ _ hon)

/-! ## Lemmas: an upright, unscaled masked shape -/

/-- Truncation of `z - w/2` for a non-negative result: `z - ⌈w/2⌉`. -/
theorem truncInt_sub_half (z : Int) (w : Nat) (h : 0 ≤ z - (((w + 1) / 2 : Nat) : Int)) :
    truncInt ((z : ℚ) - (w : ℚ) / 2) = z - (((w + 1) / 2 : Nat) : Int) := by
  rcases Nat.even_or_odd' w with ⟨k, rfl | rfl⟩
  · have hk : (2 * k + 1) / 2 = k := by omega
    rw [hk]
    have : (z : ℚ) - ((2 * k : Nat) : ℚ) / 2 = ((z - (k : Int) : Int) : ℚ) := by
      push_cast
      ring
    rw [this, truncInt_intCast]
  · have hk : (2 * k + 1 + 1) / 2 = k + 1 := by omega
    rw [hk] at h ⊢
    have hq : (z : ℚ) - ((2 * k + 1 : Nat) : ℚ) / 2 = ((z - ((k + 1 : Nat) : Int) : Int) : ℚ) + 1 / 2 := by
      push_cast
      ring
    have hz : (0 : ℚ) ≤ ((z - ((k + 1 : Nat) : Int) : Int) : ℚ) := by exact_mod_cast h
    unfold truncInt
    rw [hq, if_pos (by linarith)]
    rw [Int.floor_eq_iff]
    constructor
    · linarith
    · linarith

/-- The pixels `DrawShape` stores when `cosf(angle) = 1`, `sinf(angle) = 0`, the
scale is 1, the centre is the integer point `(px, py)` and the dilated cells
all lie in the buffer. -/
theorem DrawShape_upright_iff (m : Libm) (sc : Screen) (p : Particle) (mask : List Nat)
    (w h : Nat) (px py : Int)
    (hcos : m.cosf p.angle = 1) (hsin : m.sinf p.angle = 0) (hscale : p.scale = 1)
    (hx : p.x = (px : ℚ)) (hy : p.y = (py : ℚ))
    (hin : ∀ i j : Nat, i < w → j < h → mask.getD (j * w + i) 0 = 1 →
      1 ≤ px - (((w + 1) / 2 : Nat) : Int) + i ∧
      px - (((w + 1) / 2 : Nat) : Int) + i + 1 < sc.g_ScreenWidth ∧
      1 ≤ py - (((h + 1) / 2 : Nat) : Int) + j ∧
      py - (((h + 1) / 2 : Nat) : Int) + j + 1 < sc.g_ScreenHeight)
    (x y : Int) (c : Nat) :
    Effect.write x y c ∈ DrawShape m sc p mask w h ↔
      c = (0xFF <<< 24) ||| (p.color &&& 0xFFFFFF) ∧
      ∃ i j : Nat, i < w ∧ j < h ∧ mask.getD (j * w + i) 0 = 1 ∧
        ∃ u v : Int, (u = -1 ∨ u = 0 ∨ u = 1) ∧ (v = -1 ∨ v = 0 ∨ v = 1) ∧
          x = px - (((w + 1) / 2 : Nat) : Int) + i + u ∧
          y = py - (((h + 1) / 2 : Nat) : Int) + j + v := by
  have hsx : ∀ i j : Nat, 0 ≤ px - (((w + 1) / 2 : Nat) : Int) + i →
      truncInt (p.x + (((i : ℚ) - (w : ℚ) / 2) * p.scale * m.cosf p.angle
        - ((j : ℚ) - (h : ℚ) / 2) * p.scale * m.sinf p.angle))
        = px - (((w + 1) / 2 : Nat) : Int) + i := by
    intro i j h0
    have e : p.x + (((i : ℚ) - (w : ℚ) / 2) * p.scale * m.cosf p.angle
        - ((j : ℚ) - (h : ℚ) / 2) * p.scale * m.sinf p.angle)
        = ((px + (i : Int) : Int) : ℚ) - (w : ℚ) / 2 := by
      rw [hcos, hsin, hscale, hx]
      push_cast
      ring
    rw [e, truncInt_sub_half _ _ (by omega)]
    ring
  have hsy : ∀ i j : Nat, 0 ≤ py - (((h + 1) / 2 : Nat) : Int) + j →
      truncInt (p.y + (((i : ℚ) - (w : ℚ) / 2) * p.scale * m.sinf p.angle
        + ((j : ℚ) - (h : ℚ) / 2) * p.scale * m.cosf p.angle))
        = py - (((h + 1) / 2 : Nat) : Int) + j := by
    intro i j h0
    have e : p.y + (((i : ℚ) - (w : ℚ) / 2) * p.scale * m.sinf p.angle
        + ((j : ℚ) - (h : ℚ) / 2) * p.scale * m.cosf p.angle)
        = ((py + (j : Int) : Int) : ℚ) - (h : ℚ) / 2 := by
      rw [hcos, hsin, hscale, hy]
      push_cast
      ring
    rw [e, truncInt_sub_half _ _ (by omega)]
    ring
  simp only [DrawShape, List.mem_flatMap, List.mem_range]
  constructor
  · rintro ⟨j, hj, i, hi, he⟩
    by_cases hon : mask.getD (j * w + i) 0 = 1
    · obtain ⟨b1, b2, b3, b4⟩ := hin i j hi hj hon
      rw [if_pos hon, hsx i j (by omega), hsy i j (by omega)] at he
      have hons : onScreen sc (px - (((w + 1) / 2 : Nat) : Int) + i)
          (py - (((h + 1) / 2 : Nat) : Int) + j) = true :=
        (onScreen_iff _ _ _).mpr ⟨by omega, by omega, by omega, by omega⟩
      rw [if_pos hons] at he
      rcases List.mem_cons.mp he with h0 | he
      · obtain ⟨e1, e2, e3⟩ := Effect.write.inj h0
        exact ⟨e3, i, j, hi, hj, hon, 0, 0, Or.inr (Or.inl rfl), Or.inr (Or.inl rfl),
          by omega, by omega⟩
      · simp only [List.mem_flatMap] at he
        obtain ⟨dx, hdx, dy, hdy, he⟩ := he
        have hdx2 : dx = -1 ∨ dx = 0 ∨ dx = 1 := by simpa using hdx
        have hdy2 : dy = -1 ∨ dy = 0 ∨ dy = 1 := by simpa using hdy
        have hons2 : onScreen sc (px - (((w + 1) / 2 : Nat) : Int) + i + dx)
            (py - (((h + 1) / 2 : Nat) : Int) + j + dy) = true :=
          (onScreen_iff _ _ _).mpr ⟨by omega, by omega, by omega, by omega⟩
        rw [if_pos hons2] at he
        obtain ⟨e1, e2, e3⟩ := Effect.write.inj (List.mem_singleton.mp he)
        exact ⟨e3, i, j, hi, hj, hon, dx, dy, hdx2, hdy2, e1, e2⟩
    · rw [if_neg hon] at he
      cases he
  · rintro ⟨hc, i, j, hi, hj, hon, u, v, hu, hv, hxe, hye⟩
    obtain ⟨b1, b2, b3, b4⟩ := hin i j hi hj hon
    refine ⟨j, hj, i, hi, ?_⟩
    have hons : onScreen sc (px - (((w + 1) / 2 : Nat) : Int) + i)
        (py - (((h + 1) / 2 : Nat) : Int) + j) = true :=
      (onScreen_iff _ _ _).mpr ⟨by omega, by omega, by omega, by omega⟩
    have hons2 : onScreen sc (px - (((w + 1) / 2 : Nat) : Int) + i + u)
        (py - (((h + 1) / 2 : Nat) : Int) + j + v) = true :=
      (onScreen_iff _ _ _).mpr ⟨by omega, by omega, by omega, by omega⟩
    rw [if_pos hon, hsx i j (by omega), hsy i j (by omega), if_pos hons]
    apply List.mem_cons_of_mem
    simp only [List.mem_flatMap]
    refine ⟨u, by rcases hu with rfl | rfl | rfl <;> simp, v,
      by rcases hv with rfl | rfl | rfl <;> simp, ?_⟩
    rw [if_pos hons2, hxe, hye, hc]
    exact List.mem_singleton.mpr rfl

/-! ## Lemmas: the loop of `DrawLine` stops -/

/-- One iteration of the loop of `DrawLine` away from the end point. -/
theorem drawLineLoop_succ (sc : Screen) (x1 y1 dx dy sx sy : Int) (color : Nat)
    (fuel : Nat) (x0 y0 err : Int) (hne : ¬ (x0 = x1 ∧ y0 = y1)) :
    drawLineLoop sc x1 y1 dx dy sx sy color (fuel + 1) x0 y0 err
      = (if onScreen sc x0 y0 then [Effect.write x0 y0 color] else []) ++
        drawLineLoop sc x1 y1 dx dy sx sy color fuel
          (if 2 * err > -dy then x0 + sx else x0)
          (if 2 * err < dx then y0 + sy else y0)
          (if 2 * err < dx then (if 2 * err > -dy then err - dy else err) + dx
            else (if 2 * err > -dy then err - dy else err)) := by
  simp only [drawLineLoop, hne, if_false]

/-- The iteration of the loop of `DrawLine` at the end point: the last one. -/
theorem drawLineLoop_end (sc : Screen) (x1 y1 dx dy sx sy : Int) (color : Nat)
    (fuel : Nat) (err : Int) :
    drawLineLoop sc x1 y1 dx dy sx sy color (fuel + 1) x1 y1 err
      = (if onScreen sc x1 y1 then [Effect.write x1 y1 color] else []) := by
  simp only [drawLineLoop, and_self, if_true]

/-- After `a` steps in `x` and `b` steps in `y` the loop of `DrawLine` stops
within `(dx - a) + (dy - b) + 1` iterations: more fuel changes nothing. -/
theorem drawLineLoop_fuel_stable (sc : Screen) (xs ys x1 y1 dx dy sx sy : Int) (color : Nat)
    (hdx : 0 ≤ dx) (hdy : 0 ≤ dy) (hsx : sx = 1 ∨ sx = -1) (hsy : sy = 1 ∨ sy = -1)
    (hx1 : x1 = xs + dx * sx) (hy1 : y1 = ys + dy * sy) :
    ∀ (fuel : Nat) (a b : Int) (extra : Nat), 0 ≤ a → a ≤ dx → 0 ≤ b → b ≤ dy →
      (dx - a) + (dy - b) + 1 ≤ (fuel : Int) →
      drawLineLoop sc x1 y1 dx dy sx sy color (fuel + extra) (xs + a * sx) (ys + b * sy)
          (dx - dy - a * dy + b * dx)
        = drawLineLoop sc x1 y1 dx dy sx sy color fuel (xs + a * sx) (ys + b * sy)
          (dx - dy - a * dy + b * dx) := by
  intro fuel
  induction fuel with
  | zero =>
    intro a b extra h0 h1 h2 h3 h4
    exfalso
    have : (dx - a) + (dy - b) + 1 ≤ 0 := by exact_mod_cast h4
    omega
  | succ n ih =>
    intro a b extra h0 h1 h2 h3 h4
    have hn : (dx - a) + (dy - b) + 1 ≤ (n : Int) + 1 := by exact_mod_cast h4
    have hfuel : n + 1 + extra = (n + extra) + 1 := by omega
    rw [hfuel]
    have hxeq : xs + a * sx = x1 ↔ a = dx := by
      rw [hx1]
      constructor
      · intro h
        have : (a - dx) * sx = 0 := by linarith
        rcases hsx with rfl | rfl <;> linarith
      · intro h; rw [h]
    have hyeq : ys + b * sy = y1 ↔ b = dy := by
      rw [hy1]
      constructor
      · intro h
        have : (b - dy) * sy = 0 := by linarith
        rcases hsy with rfl | rfl <;> linarith
      · intro h; rw [h]
    by_cases hend : xs + a * sx = x1 ∧ ys + b * sy = y1
    · rw [hend.1, hend.2, drawLineLoop_end, drawLineLoop_end]
    · rw [drawLineLoop_succ _ _ _ _ _ _ _ _ _ _ _ _ hend,
        drawLineLoop_succ _ _ _ _ _ _ _ _ _ _ _ _ hend]
      congr 1
      have hnot : ¬ (a = dx ∧ b = dy) := by
        rw [← hxeq, ← hyeq]; exact hend
      by_cases c1 : 2 * (dx - dy - a * dy + b * dx) > -dy
      · have ha1 : a + 1 ≤ dx := by
          by_contra hcon
          have hadx : a = dx := by omega
          have hb : b + 1 ≤ dy := by
            by_contra hb
            exact hnot ⟨hadx, by omega⟩
          rw [hadx] at c1
          nlinarith [mul_nonneg hdx (by linarith : (0 : Int) ≤ dy - 1 - b)]
        by_cases c2 : 2 * (dx - dy - a * dy + b * dx) < dx
        · have hb1 : b + 1 ≤ dy := by
            by_contra hcon
            have hbdy : b = dy := by omega
            rw [hbdy] at c2
            nlinarith [mul_nonneg hdy (by linarith : (0 : Int) ≤ dx - 1 - a)]
          simp only [c1, c2, if_true]
          have e1 : xs + a * sx + sx = xs + (a + 1) * sx := by ring
          have e2 : ys + b * sy + sy = ys + (b + 1) * sy := by ring
          have e3 : dx - dy - a * dy + b * dx - dy + dx
              = dx - dy - (a + 1) * dy + (b + 1) * dx := by ring
          rw [e1, e2, e3]
          exact ih (a + 1) (b + 1) extra (by omega) ha1 (by omega) hb1 (by omega)
        · simp only [c1, c2, if_true, if_false]
          have e1 : xs + a * sx + sx = xs + (a + 1) * sx := by ring
          have e3 : dx - dy - a * dy + b * dx - dy = dx - dy - (a + 1) * dy + b * dx := by ring
          rw [e1, e3]
          exact ih (a + 1) b extra (by omega) ha1 h2 h3 (by omega)
      · by_cases c2 : 2 * (dx - dy - a * dy + b * dx) < dx
        · have hb1 : b + 1 ≤ dy := by
            by_contra hcon
            have hbdy : b = dy := by omega
            have ha : a + 1 ≤ dx := by
              by_contra ha
              exact hnot ⟨by omega, hbdy⟩
            rw [hbdy] at c2
            nlinarith [mul_nonneg hdy (by linarith : (0 : Int) ≤ dx - 1 - a)]
          simp only [c1, c2, if_true, if_false]
          have e2 : ys + b * sy + sy = ys + (b + 1) * sy := by ring
          have e3 : dx - dy - a * dy + b * dx + dx = dx - dy - a * dy + (b + 1) * dx := by ring
          rw [e2, e3]
          exact ih a (b + 1) extra h0 h1 (by omega) hb1 (by omega)
        · exfalso
          have hz : dx = 0 ∧ dy = 0 := by
            constructor <;> linarith
          exact hnot ⟨by omega, by omega⟩

/-- The iterations `DrawLine` is given are enough: its `while (true)` loop has
reached `(x1, y1)` and stopped before they run out. -/
theorem DrawLine_fuel_enough (sc : Screen) (x0 y0 x1 y1 : Int) (color extra : Nat) :
    drawLineLoop sc x1 y1 |x1 - x0| |y1 - y0| (if x0 < x1 then 1 else -1)
        (if y0 < y1 then 1 else -1) color
        ((|x1 - x0|).toNat + (|y1 - y0|).toNat + 1 + extra) x0 y0 (|x1 - x0| - |y1 - y0|)
      = DrawLine sc x0 y0 x1 y1 color := by
  have hdx : 0 ≤ |x1 - x0| := abs_nonneg _
  have hdy : 0 ≤ |y1 - y0| := abs_nonneg _
  have hsx : (if x0 < x1 then (1 : Int) else -1) = 1 ∨ (if x0 < x1 then (1 : Int) else -1) = -1 := by
    split
    · exact Or.inl rfl
    · exact Or.inr rfl
  have hsy : (if y0 < y1 then (1 : Int) else -1) = 1 ∨ (if y0 < y1 then (1 : Int) else -1) = -1 := by
    split
    · exact Or.inl rfl
    · exact Or.inr rfl
  have hx1 : x1 = x0 + |x1 - x0| * (if x0 < x1 then (1 : Int) else -1) := by
    split
    · rw [abs_of_pos (by linarith)]; ring
    · rw [abs_of_nonpos (by linarith)]; ring
  have hy1 : y1 = y0 + |y1 - y0| * (if y0 < y1 then (1 : Int) else -1) := by
    split
    · rw [abs_of_pos (by linarith)]; ring
    · rw [abs_of_nonpos (by linarith)]; ring
  have h := drawLineLoop_fuel_stable sc x0 y0 x1 y1 |x1 - x0| |y1 - y0|
    (if x0 < x1 then 1 else -1) (if y0 < y1 then 1 else -1) color hdx hdy hsx hsy hx1 hy1
    ((|x1 - x0|).toNat + (|y1 - y0|).toNat + 1) 0 0 extra le_rfl hdx le_rfl hdy
    (by
      have e1 : (((|x1 - x0|).toNat : Nat) : Int) = |x1 - x0| := Int.toNat_of_nonneg hdx
      have e2 : (((|y1 - y0|).toNat : Nat) : Int) = |y1 - y0| := Int.toNat_of_nonneg hdy
      push_cast
      rw [e1, e2]
      linarith)
  simp only [zero_mul, add_zero, sub_zero] at h
  exact h

/-! ## Lemmas: the particles a spawn tick creates -/

/-- The dispatcher, for a common-path kind, is `SpawnParticlesCommon` with the
tabulated arguments of that kind. -/
theorem spawn_dispatch (m : Libm) (pt : POINT) (s : State)
    (hk : s.g_activeParticleSystem ≠ .HEARTS) :
    SpawnParticlesOnMouseMove m pt s =
      SpawnParticlesCommon m pt s.g_activeParticleSystem
        (specDensity s.g_activeParticleSystem) (some (kindColor s.g_activeParticleSystem))
        (specMinLife s.g_activeParticleSystem) (specMaxLife s.g_activeParticleSystem)
        (specScaleMin s.g_activeParticleSystem) (specScaleMax s.g_activeParticleSystem)
        (specRotation s.g_activeParticleSystem) (specUpwardBias s.g_activeParticleSystem) s := by
  unfold SpawnParticlesOnMouseMove
  cases h : s.g_activeParticleSystem with
  | HEARTS => exact absurd h hk
  | STARS => rfl
  | FIRE => rfl
  | SPARKS => rfl
  | SMOKE => rfl
  | SWORD => rfl

/-- The spawn loop appends one particle per index, each built by the body at
that index from some state of the generator. -/
theorem spawnLoop_indexed (body : Nat → Rng → Particle × Rng) :
    ∀ (k i : Nat) (s : State), ∃ new : List Particle,
      (spawnLoop body k i s).g_particles = s.g_particles ++ new ∧ new.length = k ∧
      ∀ (j : Nat) (hj : j < new.length), ∃ r : Rng, new.get ⟨j, hj⟩ = (body (i + j) r).1 := by
  intro k
  induction k with
  | zero => intro i s; exact ⟨[], by simp [spawnLoop], rfl, fun j hj => absurd hj (by simp)⟩
  | succ k ih =>
    intro i s
    obtain ⟨new, h1, h2, h3⟩ := ih (i + 1)
      { s with g_particles := s.g_particles ++ [(body i s.rng).1], rng := (body i s.rng).2 }
    refine ⟨(body i s.rng).1 :: new, ?_, by simp [h2], ?_⟩
    · simp only [spawnLoop]
      rw [h1]
      simp
    · intro j hj
      cases j with
      | zero => exact ⟨s.rng, rfl⟩
      | succ j =>
        have hj2 : j < new.length := by simpa using hj
        obtain ⟨r, hr⟩ := h3 j hj2
        refine ⟨r, ?_⟩
        have : i + (j + 1) = i + 1 + j := by omega
        rw [this]
        simpa using hr


/-- The particles `SpawnParticlesCommon` appends, index by index. -/
theorem SpawnParticlesCommon_created (m : Libm) (pt : POINT) (type : ParticleType)
    (d : ℚ) (colorFunc : Option (Rng → Nat × Rng)) (minLife maxLife scaleMin scaleMax : ℚ)
    (rot up : Bool) (s : State) (hrec : isUnset s.g_lastMousePos = false) :
    ∃ new : List Particle,
      (SpawnParticlesCommon m pt type d colorFunc minLife maxLife scaleMin scaleMax rot up
        s).g_particles = s.g_particles ++ new ∧
      new.length = (if sqrtGt (distSq s.g_lastMousePos pt) 0
        then max 1 (sqrtDivTrunc (distSq s.g_lastMousePos pt) d) else 0) ∧
      ∀ (j : Nat) (hj : j < new.length), ∃ r : Rng,
        new.get ⟨j, hj⟩ =
          (spawnCommonParticle m type colorFunc minLife maxLife scaleMin scaleMax rot up
            s.g_lastMousePos ((pt.x - s.g_lastMousePos.x : Int) : ℚ)
            ((pt.y - s.g_lastMousePos.y : Int) : ℚ) new.length j r).1 := by
  by_cases hd : sqrtGt (distSq s.g_lastMousePos pt) 0 = true
  · obtain ⟨new, h1, h2, h3⟩ := spawnLoop_indexed
      (spawnCommonParticle m type colorFunc minLife maxLife scaleMin scaleMax rot up
        s.g_lastMousePos ((pt.x - s.g_lastMousePos.x : Int) : ℚ)
        ((pt.y - s.g_lastMousePos.y : Int) : ℚ)
        (max 1 (sqrtDivTrunc (distSq s.g_lastMousePos pt) d)))
      (max 1 (sqrtDivTrunc (distSq s.g_lastMousePos pt) d)) 0 s
    refine ⟨new, ?_, by simp only [hd, if_true]; exact h2, ?_⟩
    · simp only [SpawnParticlesCommon, hrec, hd, if_true]
      exact h1
    · intro j hj
      obtain ⟨r, hr⟩ := h3 j hj
      refine ⟨r, ?_⟩
      rw [hr, h2, Nat.zero_add]
  · refine ⟨[], ?_, by simp only [hd]; rfl, fun j hj => absurd hj (by simp)⟩
    simp only [SpawnParticlesCommon, hrec, hd]
    simp

/-- The particles a spawn tick of a common-path kind appends, index by index. -/
theorem spawn_tick_created (m : Libm) (pt : POINT) (s : State)
    (hk : s.g_activeParticleSystem ≠ .HEARTS) (hrec : isUnset s.g_lastMousePos = false) :
    ∃ new : List Particle,
      (SpawnParticlesOnMouseMove m pt s).g_particles = s.g_particles ++ new ∧
      new.length = (if sqrtGt (distSq s.g_lastMousePos pt) 0
        then max 1 (sqrtDivTrunc (distSq s.g_lastMousePos pt)
          (specDensity s.g_activeParticleSystem)) else 0) ∧
      ∀ (j : Nat) (hj : j < new.length), ∃ r : Rng,
        new.get ⟨j, hj⟩ =
          (spawnCommonParticle m s.g_activeParticleSystem
            (some (kindColor s.g_activeParticleSystem))
            (specMinLife s.g_activeParticleSystem) (specMaxLife s.g_activeParticleSystem)
            (specScaleMin s.g_activeParticleSystem) (specScaleMax s.g_activeParticleSystem)
            (specRotation s.g_activeParticleSystem) (specUpwardBias s.g_activeParticleSystem)
            s.g_lastMousePos ((pt.x - s.g_lastMousePos.x : Int) : ℚ)
            ((pt.y - s.g_lastMousePos.y : Int) : ℚ) new.length j r).1 := by
  rw [spawn_dispatch m pt s hk]
  exact SpawnParticlesCommon_created m pt _ _ _ _ _ _ _ _ _ s hrec

theorem fadeFactor_unit (r : ℚ) (h0 : 0 ≤ r) (h1 : r ≤ 1) :
    0 ≤ fadeFactor r ∧ fadeFactor r ≤ 1 := by
  unfold fadeFactor
  have ha : 0 ≤ 1 - r := by linarith
  have hb : 1 - r ≤ 1 := by linarith
  have h3 : (1 - r) ^ 3 ≤ 1 := pow_le_one₀ ha hb
  have h4 : 0 ≤ (1 - r) ^ 3 := pow_nonneg ha 3
  constructor <;> linarith

theorem sqrtGt_zero_iff (sq : Nat) : sqrtGt sq 0 = true ↔ 0 < sq := by
  unfold sqrtGt
  simp

theorem distSq_pos_iff (last pt : POINT) : 0 < distSq last pt ↔ pt ≠ last := by
  unfold distSq
  cases last with
  | mk a b =>
    cases pt with
    | mk c d =>
      simp only [ne_eq, POINT.mk.injEq, Int.lt_toNat, Nat.cast_zero]
      constructor
      · rintro h ⟨rfl, rfl⟩
        simp at h
      · intro h
        have h1 : c - a ≠ 0 ∨ d - b ≠ 0 := by
          by_contra hc
          push_neg at hc
          exact h ⟨by omega, by omega⟩
        rcases h1 with h1 | h1
        · have := mul_self_pos.mpr h1
          nlinarith [mul_self_nonneg (d - b)]
        · have := mul_self_pos.mpr h1
          nlinarith [mul_self_nonneg (c - a)]

theorem spawnParam_bounds (n i : Nat) (hi : i < n) :
    0 < spawnParam n i ∧ spawnParam n i < 1 ∧ spawnParam n i < spawnParam n (i + 1) := by
  unfold spawnParam
  have hn : (0 : ℚ) < (n : ℚ) + 1 := by positivity
  have hin : (i : ℚ) < (n : ℚ) := by exact_mod_cast hi
  refine ⟨by positivity, ?_, ?_⟩
  · rw [div_lt_one hn]
    linarith
  · apply div_lt_div_of_pos_right _ hn
    push_cast
    linarith

/-- The first particle the spawn loop appends is built from the state of the
generator at entry. -/
theorem spawnLoop_head (body : Nat → Rng → Particle × Rng) (k i : Nat) (s : State)
    (hk : 0 < k) :
    ∃ rest : List Particle,
      (spawnLoop body k i s).g_particles = s.g_particles ++ (body i s.rng).1 :: rest := by
  cases k with
  | zero => exact absurd hk (lt_irrefl 0)
  | succ k =>
    obtain ⟨new, h1, -, -⟩ := spawnLoop_indexed body k (i + 1)
      { s with g_particles := s.g_particles ++ [(body i s.rng).1], rng := (body i s.rng).2 }
    refine ⟨new, ?_⟩
    simp only [spawnLoop]
    rw [h1]
    simp

/-- The first particle a spawn tick of a common-path kind appends when the
pointer has moved. -/
theorem spawn_tick_first (m : Libm) (pt : POINT) (s : State)
    (hk : s.g_activeParticleSystem ≠ .HEARTS) (hrec : isUnset s.g_lastMousePos = false)
    (hmove : pt ≠ s.g_lastMousePos) :
    ∃ (n : Nat) (rest : List Particle),
      (SpawnParticlesOnMouseMove m pt s).g_particles = s.g_particles ++
        (spawnCommonParticle m s.g_activeParticleSystem
          (some (kindColor s.g_activeParticleSystem))
          (specMinLife s.g_activeParticleSystem) (specMaxLife s.g_activeParticleSystem)
          (specScaleMin s.g_activeParticleSystem) (specScaleMax s.g_activeParticleSystem)
          (specRotation s.g_activeParticleSystem) (specUpwardBias s.g_activeParticleSystem)
          s.g_lastMousePos ((pt.x - s.g_lastMousePos.x : Int) : ℚ)
          ((pt.y - s.g_lastMousePos.y : Int) : ℚ) n 0 s.rng).1 :: rest := by
  have hgt : sqrtGt (distSq s.g_lastMousePos pt) 0 = true :=
    (sqrtGt_zero_iff _).mpr ((distSq_pos_iff _ _).mpr hmove)
  rw [spawn_dispatch m pt s hk]
  obtain ⟨rest, h⟩ := spawnLoop_head
    (spawnCommonParticle m s.g_activeParticleSystem
      (some (kindColor s.g_activeParticleSystem))
      (specMinLife s.g_activeParticleSystem) (specMaxLife s.g_activeParticleSystem)
      (specScaleMin s.g_activeParticleSystem) (specScaleMax s.g_activeParticleSystem)
      (specRotation s.g_activeParticleSystem) (specUpwardBias s.g_activeParticleSystem)
      s.g_lastMousePos ((pt.x - s.g_lastMousePos.x : Int) : ℚ)
      ((pt.y - s.g_lastMousePos.y : Int) : ℚ)
      (max 1 (sqrtDivTrunc (distSq s.g_lastMousePos pt)
        (specDensity s.g_activeParticleSystem))))
    (max 1 (sqrtDivTrunc (distSq s.g_lastMousePos pt) (specDensity s.g_activeParticleSystem)))
    0 s (lt_of_lt_of_le Nat.zero_lt_one (le_max_left _ _))
  refine ⟨max 1 (sqrtDivTrunc (distSq s.g_lastMousePos pt)
    (specDensity s.g_activeParticleSystem)), rest, ?_⟩
  simp only [SpawnParticlesCommon, hrec, hgt, if_true]
  exact h

/-- The particles a spawn tick appends, for any kind and any state: none when
no position was recorded; for Hearts at most the one `spawnHeartParticle`
builds; for the other kinds those `spawnCommonParticle` builds with the
tabulated arguments. -/
theorem spawn_tick_any (m : Libm) (pt : POINT) (s : State) :
    ∃ new : List Particle,
      (SpawnParticlesOnMouseMove m pt s).g_particles = s.g_particles ++ new ∧
      ∀ p ∈ new,
        (s.g_activeParticleSystem = .HEARTS ∧ ∃ r : Rng, p = (spawnHeartParticle m pt r).1) ∨
        (s.g_activeParticleSystem ≠ .HEARTS ∧ ∃ (last : POINT) (dx dy : ℚ) (n i : Nat) (r : Rng),
          p = (spawnCommonParticle m s.g_activeParticleSystem
            (some (kindColor s.g_activeParticleSystem))
            (specMinLife s.g_activeParticleSystem) (specMaxLife s.g_activeParticleSystem)
            (specScaleMin s.g_activeParticleSystem) (specScaleMax s.g_activeParticleSystem)
            (specRotation s.g_activeParticleSystem)
            (specUpwardBias s.g_activeParticleSystem) last dx dy n i r).1) := by
  by_cases hu : isUnset s.g_lastMousePos = true
  · refine ⟨[], ?_, fun p hp => absurd hp (List.not_mem_nil p)⟩
    rw [spawn_unset m pt s hu, List.append_nil]
  · have hrec : isUnset s.g_lastMousePos = false := by simpa using hu
    by_cases hk : s.g_activeParticleSystem = .HEARTS
    · have hdisp : SpawnParticlesOnMouseMove m pt s = SpawnHeartsOnMouseMove m pt s := by
        unfold SpawnParticlesOnMouseMove
        rw [hk]
      rw [hdisp, (SpawnHeartsOnMouseMove_spec m pt s hrec).1]
      by_cases hb : sqrtGt (distSq s.g_lastMousePos pt) 5 = true
      · refine ⟨[(spawnHeartParticle m pt s.rng).1], by rw [if_pos hb], ?_⟩
        intro p hp
        exact Or.inl ⟨hk, s.rng, List.mem_singleton.mp hp⟩
      · refine ⟨[], by rw [if_neg hb, List.append_nil],
          fun p hp => absurd hp (List.not_mem_nil p)⟩
    · obtain ⟨new, h1, -, h3⟩ := spawn_tick_created m pt s hk hrec
      refine ⟨new, h1, ?_⟩
      intro p hp
      obtain ⟨⟨j, hj⟩, hget⟩ := List.mem_iff_get.mp hp
      obtain ⟨r, hr⟩ := h3 j hj
      exact Or.inr ⟨hk, _, _, _, _, _, r, hget.symm.trans hr⟩

/-- The velocity `spawnCommonParticle` gives a particle: `vx` is halved in both
branches, `vy` is halved without upward bias and is `-|speed * sin a|` with it;
the speed is `25 + rand() % 30`. -/
theorem spawnCommonParticle_velocity (m : Libm) (type : ParticleType)
    (colorFunc : Option (Rng → Nat × Rng)) (minLife maxLife scaleMin scaleMax : ℚ)
    (rot up : Bool) (last : POINT) (dx dy : ℚ) (n i : Nat) (r : Rng) :
    (spawnCommonParticle m type colorFunc minLife maxLife scaleMin scaleMax rot up
      last dx dy n i r).1.vx =
      (1 / 2) * (25 + ((r.next.val % 30 : Nat) : ℚ))
        * m.cosf ((((r.val % 360 : Nat) : ℚ) / 180) * PI_F) ∧
    (spawnCommonParticle m type colorFunc minLife maxLife scaleMin scaleMax rot up
      last dx dy n i r).1.vy =
      (if up then - |(25 + ((r.next.val % 30 : Nat) : ℚ))
          * m.sinf ((((r.val % 360 : Nat) : ℚ) / 180) * PI_F)|
        else (1 / 2) * (25 + ((r.next.val % 30 : Nat) : ℚ))
          * m.sinf ((((r.val % 360 : Nat) : ℚ) / 180) * PI_F)) := by
  constructor
  · show (25 + ((r.next.val % 30 : Nat) : ℚ))
        * m.cosf ((((r.val % 360 : Nat) : ℚ) / 180) * PI_F) * (1 / 2) = _
    ring
  · show (if up then - |(25 + ((r.next.val % 30 : Nat) : ℚ))
          * m.sinf ((((r.val % 360 : Nat) : ℚ) / 180) * PI_F)|
        else (25 + ((r.next.val % 30 : Nat) : ℚ))
          * m.sinf ((((r.val % 360 : Nat) : ℚ) / 180) * PI_F) * (1 / 2)) = _
    cases up
    · simp only [Bool.false_eq_true, if_false]
      ring
    · simp only [if_true]

/-- The part colours `DrawSword` composes are the four ARGB constants. -/
theorem sword_colors :
    ((0xFF <<< 24) ||| (0xC0C0C0 &&& 0xFFFFFF) : Nat) = 0xFFC0C0C0 ∧
    ((0xFF <<< 24) ||| (0xFFD700 &&& 0xFFFFFF) : Nat) = 0xFFFFD700 ∧
    ((0xFF <<< 24) ||| (0x8B4513 &&& 0xFFFFFF) : Nat) = 0xFF8B4513 ∧
    ((0xFF <<< 24) ||| (0x696969 &&& 0xFFFFFF) : Nat) = 0xFF696969 := by
  decide

/-- The pommel test, evaluated on floats in the source, is the integer test. -/
theorem pommel_iff (lx ly : Int) :
    ((lx : ℚ) - 0) * ((lx : ℚ) - 0) + ((ly : ℚ) - 14) * ((ly : ℚ) - 14) ≤ 9 ↔
      lx ^ 2 + (ly - 14) ^ 2 ≤ 9 := by
  have h : ((lx : ℚ) - 0) * ((lx : ℚ) - 0) + ((ly : ℚ) - 14) * ((ly : ℚ) - 14)
      = ((lx ^ 2 + (ly - 14) ^ 2 : Int) : ℚ) := by
    push_cast
    ring
  rw [h]
  exact_mod_cast Iff.rfl

/-- The colour chain of `DrawSword` at a local point, as a list of stores. -/
theorem sword_point (lx ly : Int) (X Y : Int) :
    (if decide (lx ≥ -3 ∧ lx ≤ 3 ∧ ly ≥ -50 ∧ ly ≤ 0) = true then
        [Effect.write X Y ((0xFF <<< 24) ||| (0xC0C0C0 &&& 0xFFFFFF))]
      else if decide (lx ≥ -10 ∧ lx ≤ 10 ∧ ly ≥ 0 ∧ ly ≤ 4) = true then
        [Effect.write X Y ((0xFF <<< 24) ||| (0xFFD700 &&& 0xFFFFFF))]
      else if decide (lx ≥ -2 ∧ lx ≤ 2 ∧ ly ≥ 4 ∧ ly ≤ 14) = true then
        [Effect.write X Y ((0xFF <<< 24) ||| (0x8B4513 &&& 0xFFFFFF))]
      else if decide (((lx : ℚ) - 0) * ((lx : ℚ) - 0)
          + ((ly : ℚ) - 14) * ((ly : ℚ) - 14) ≤ 9) = true then
        [Effect.write X Y ((0xFF <<< 24) ||| (0x696969 &&& 0xFFFFFF))]
      else []) =
    (match specSwordColor lx ly with
      | some c => [Effect.write X Y c]
      | none => []) := by
  obtain ⟨c1, c2, c3, c4⟩ := sword_colors
  rw [c1, c2, c3, c4]
  have hB : (lx ≥ -3 ∧ lx ≤ 3 ∧ ly ≥ -50 ∧ ly ≤ 0) ↔ (|lx| ≤ 3 ∧ -50 ≤ ly ∧ ly ≤ 0) := by
    rw [abs_le]
    constructor
    · rintro ⟨a, b, c, d⟩
      exact ⟨⟨a, b⟩, c, d⟩
    · rintro ⟨⟨a, b⟩, c, d⟩
      exact ⟨a, b, c, d⟩
  have hG : (lx ≥ -10 ∧ lx ≤ 10 ∧ ly ≥ 0 ∧ ly ≤ 4) ↔ (|lx| ≤ 10 ∧ 0 ≤ ly ∧ ly ≤ 4) := by
    rw [abs_le]
    constructor
    · rintro ⟨a, b, c, d⟩
      exact ⟨⟨a, b⟩, c, d⟩
    · rintro ⟨⟨a, b⟩, c, d⟩
      exact ⟨a, b, c, d⟩
  have hH : (lx ≥ -2 ∧ lx ≤ 2 ∧ ly ≥ 4 ∧ ly ≤ 14) ↔ (|lx| ≤ 2 ∧ 4 ≤ ly ∧ ly ≤ 14) := by
    rw [abs_le]
    constructor
    · rintro ⟨a, b, c, d⟩
      exact ⟨⟨a, b⟩, c, d⟩
    · rintro ⟨⟨a, b⟩, c, d⟩
      exact ⟨a, b, c, d⟩
  simp only [decide_eq_true_eq, hB, hG, hH, pommel_iff, specSwordColor]
  by_cases h1 : |lx| ≤ 3 ∧ -50 ≤ ly ∧ ly ≤ 0
  · rw [if_pos h1, if_pos h1]
  · rw [if_neg h1, if_neg h1]
    by_cases h2 : |lx| ≤ 10 ∧ 0 ≤ ly ∧ ly ≤ 4
    · rw [if_pos h2, if_pos h2]
    · rw [if_neg h2, if_neg h2]
      by_cases h3 : |lx| ≤ 2 ∧ 4 ≤ ly ∧ ly ≤ 14
      · rw [if_pos h3, if_pos h3]
      · rw [if_neg h3, if_neg h3]
        by_cases h4 : lx ^ 2 + (ly - 14) ^ 2 ≤ 9
        · rw [if_pos h4, if_pos h4]
        · rw [if_neg h4, if_neg h4]

/-! ## Lemmas: the opacity of smoke -/

/-- Packing an alpha byte `a` over 24 colour bits `b`. -/
theorem argb_pack (a b : Nat) (ha : a < 256) (hb : b < 2 ^ 24) :
    (((a <<< 24) % 4294967296) ||| b) >>> 24 = a ∧
    (((a <<< 24) % 4294967296) ||| b) &&& 0xFFFFFF = b ∧
    (((a <<< 24) % 4294967296) ||| b) < 4294967296 := by
  have h1 : a <<< 24 = 2 ^ 24 * a := by rw [Nat.shiftLeft_eq, Nat.mul_comm]
  have h2 : 2 ^ 24 * a < 4294967296 := by omega
  have h3 : (0xFFFFFF : Nat) = 2 ^ 24 - 1 := by norm_num
  rw [h1, Nat.mod_eq_of_lt h2, ← Nat.mul_add_lt_is_or hb a, Nat.shiftRight_eq_div_pow, h3,
    Nat.and_pow_two_sub_one_eq_mod]
  refine ⟨?_, ?_, ?_⟩
  · omega
  · omega
  · omega

/-- The conversion `static_cast<int>(alpha * 150)` of an alpha in `[0, 1]`. -/
theorem alpha150_le (a : ℚ) (h0 : 0 ≤ a) (h1 : a ≤ 1) : toU32 (truncInt (a * 150)) ≤ 150 := by
  have hn : (0 : ℚ) ≤ a * 150 := by positivity
  have hf0 : (0 : Int) ≤ ⌊a * 150⌋ := Int.floor_nonneg.mpr hn
  have hf1 : ⌊a * 150⌋ ≤ 150 := by
    have : ⌊a * 150⌋ ≤ ⌊(150 : ℚ)⌋ := Int.floor_le_floor (by linarith)
    simpa using this
  unfold toU32 truncInt
  rw [if_pos hn]
  omega

theorem smokePixel_smoke (m : DrawLibm) (sc : Screen) (p : Particle) (radius dx dy : Int)
    (r : Rng) : ∀ e ∈ (smokePixel m sc p radius dx dy r).1, SmokeEffect p.color e := by
  intro e he
  by_cases hon : onScreen sc (truncInt p.x + dx) (truncInt p.y + dy) = true
  · by_cases hd : m.sqrtf ((dx * dx + dy * dy : Int) : ℚ) > (radius : ℚ)
    · simp only [smokePixel, hon, hd, if_true] at he
      cases he
    · simp only [smokePixel, hon, hd, if_true, if_false, List.mem_cons, List.mem_singleton,
        List.not_mem_nil, or_false] at he
      rcases he with rfl | rfl
      · trivial
      · have hb : p.color &&& 0xFFFFFF < 2 ^ 24 := Nat.and_lt_two_pow _ (by norm_num)
        have hrange : ∀ a : ℚ, 0 ≤ a → a ≤ 1 →
            SmokeEffect p.color (Effect.write (truncInt p.x + dx) (truncInt p.y + dy)
              (((toU32 (truncInt (a * 150)) <<< 24) % 4294967296)
                ||| (p.color &&& 0xFFFFFF))) := by
          intro a h0 h1
          have ha := alpha150_le a h0 h1
          obtain ⟨e1, e2, e3⟩ := argb_pack (toU32 (truncInt (a * 150)))
            (p.color &&& 0xFFFFFF) (by omega) hb
          exact ⟨by rw [e1]; exact ha, e2, e3⟩
        apply hrange
        · by_cases hr : radius = 0
          · rw [if_pos hr]
            by_cases hz : m.sqrtf ((dx * dx + dy * dy : Int) : ℚ) = 0
            · rw [if_pos hz]
            · rw [if_neg hz]
              exact zero_le_one
          · rw [if_neg hr]
            exact le_min zero_le_one (le_max_left _ _)
        · by_cases hr : radius = 0
          · rw [if_pos hr]
            by_cases hz : m.sqrtf ((dx * dx + dy * dy : Int) : ℚ) = 0
            · rw [if_pos hz]
              exact zero_le_one
            · rw [if_neg hz]
          · rw [if_neg hr]
            exact min_le_left _ _
  · simp only [smokePixel, hon, Bool.false_eq_true, if_false] at he
    cases he

theorem DrawSmoke_smoke (m : DrawLibm) (sc : Screen) (p : Particle) (r : Rng) :
    ∀ e ∈ (DrawSmoke m sc p r).1, SmokeEffect p.color e := by
  unfold DrawSmoke
  apply forEachM_all
  intro dy r1
  apply forEachM_all
  intro dx r2
  exact smokePixel_smoke m sc p _ dx dy r2

/-! ## Lemmas: the path of `DrawLine` -/

/-- One iteration of the visiting loop away from the end point. -/
theorem lineVisitLoop_succ (x1 y1 dx dy sx sy : Int) (fuel : Nat) (x0 y0 err : Int)
    (hne : ¬ (x0 = x1 ∧ y0 = y1)) :
    lineVisitLoop x1 y1 dx dy sx sy (fuel + 1) x0 y0 err
      = { x := x0, y := y0 } ::
        lineVisitLoop x1 y1 dx dy sx sy fuel
          (if 2 * err > -dy then x0 + sx else x0)
          (if 2 * err < dx then y0 + sy else y0)
          (if 2 * err < dx then (if 2 * err > -dy then err - dy else err) + dx
            else (if 2 * err > -dy then err - dy else err)) := by
  simp only [lineVisitLoop, hne, if_false]

/-- The iteration of the visiting loop at the end point: the last one. -/
theorem lineVisitLoop_end (x1 y1 dx dy sx sy : Int) (fuel : Nat) (err : Int) :
    lineVisitLoop x1 y1 dx dy sx sy (fuel + 1) x1 y1 err = [{ x := x1, y := y1 }] := by
  simp only [lineVisitLoop, and_self, if_true]

/-- The pixels the loop of `DrawLine` stores are the visited points that pass
the bounds test, in the order of the visit. -/
theorem drawLineLoop_eq_visits (sc : Screen) (x1 y1 dx dy sx sy : Int) (color : Nat) :
    ∀ (fuel : Nat) (x0 y0 err : Int),
      drawLineLoop sc x1 y1 dx dy sx sy color fuel x0 y0 err =
        ((lineVisitLoop x1 y1 dx dy sx sy fuel x0 y0 err).filter
          (fun q => onScreen sc q.x q.y)).map (fun q => Effect.write q.x q.y color) := by
  intro fuel
  induction fuel with
  | zero => intro x0 y0 err; rfl
  | succ n ih =>
    intro x0 y0 err
    by_cases hend : x0 = x1 ∧ y0 = y1
    · rw [hend.1, hend.2, drawLineLoop_end, lineVisitLoop_end]
      by_cases hon : onScreen sc x1 y1 = true
      · simp [hon]
      · simp [hon]
    · rw [drawLineLoop_succ _ _ _ _ _ _ _ _ _ _ _ _ hend, lineVisitLoop_succ _ _ _ _ _ _ _ _ _ _ hend,
        ih]
      by_cases hon : onScreen sc x0 y0 = true
      · simp [hon]
      · simp [hon]

/-- A step of the loop in `x`, with or without a step in `y`, is a line step. -/
theorem lineStep_x (sx sy : Int) (hsx : sx = 1 ∨ sx = -1) (x y : Int) (y2 : Int)
    (hy : y2 = y + sy ∨ y2 = y) :
    LineStep sx sy { x := x, y := y } { x := x + sx, y := y2 } := by
  refine ⟨Or.inl rfl, hy, ?_⟩
  intro h
  have hx : x + sx = x := congrArg POINT.x h
  rcases hsx with h1 | h1 <;> rw [h1] at hx <;> omega

/-- A step of the loop in `y`, with or without a step in `x`, is a line step. -/
theorem lineStep_y (sx sy : Int) (hsy : sy = 1 ∨ sy = -1) (x y : Int) (x2 : Int)
    (hx : x2 = x + sx ∨ x2 = x) :
    LineStep sx sy { x := x, y := y } { x := x2, y := y + sy } := by
  refine ⟨hx, Or.inl rfl, ?_⟩
  intro h
  have hy : y + sy = y := congrArg POINT.y h
  rcases hsy with h1 | h1 <;> rw [h1] at hy <;> omega

/-- A line that is at least as wide as it is high: after `a` steps in `x` and
`b` in `y` the loop steps in `x` in every iteration, so it visits exactly
`dx - a` further points, the last of which is `(x1, y1)`. -/
theorem lineVisit_xmajor (xs ys x1 y1 dx dy sx sy : Int)
    (hdx : 0 < dx) (hdy : 0 ≤ dy) (hmaj : dy ≤ dx)
    (hsx : sx = 1 ∨ sx = -1) (hsy : sy = 1 ∨ sy = -1)
    (hx1 : x1 = xs + dx * sx) (hy1 : y1 = ys + dy * sy) :
    ∀ (fuel : Nat) (a b : Int), 0 ≤ a → a ≤ dx → 0 ≤ b → b ≤ dy →
      -dy < 2 * (dx - dy - a * dy + b * dx) →
      (dx ≤ dy → 2 * (dx - dy - a * dy + b * dx) < dx) →
      (dx - a) + 1 ≤ (fuel : Int) →
      ∃ L : List POINT,
        (∀ extra : Nat,
          lineVisitLoop x1 y1 dx dy sx sy (fuel + extra) (xs + a * sx) (ys + b * sy)
            (dx - dy - a * dy + b * dx) = { x := xs + a * sx, y := ys + b * sy } :: L) ∧
        (L.length : Int) = dx - a ∧
        ({ x := xs + a * sx, y := ys + b * sy } :: L).getLast? = some { x := x1, y := y1 } ∧
        List.Chain (LineStep sx sy) { x := xs + a * sx, y := ys + b * sy } L := by
  intro fuel
  induction fuel with
  | zero =>
    intro a b h0 h1 h2 h3 hI hI2 h4
    exfalso
    have : (dx - a) + 1 ≤ 0 := by exact_mod_cast h4
    omega
  | succ n ih =>
    intro a b h0 h1 h2 h3 hI hI2 h4
    have hn : (dx - a) + 1 ≤ (n : Int) + 1 := by exact_mod_cast h4
    have hfuel : ∀ extra : Nat, n + 1 + extra = (n + extra) + 1 := fun extra => by omega
    have hxeq : xs + a * sx = x1 ↔ a = dx := by
      rw [hx1]
      constructor
      · intro h
        have : (a - dx) * sx = 0 := by linarith
        rcases hsx with rfl | rfl <;> linarith
      · intro h; rw [h]
    have hyeq : ys + b * sy = y1 ↔ b = dy := by
      rw [hy1]
      constructor
      · intro h
        have : (b - dy) * sy = 0 := by linarith
        rcases hsy with rfl | rfl <;> linarith
      · intro h; rw [h]
    by_cases hend : xs + a * sx = x1 ∧ ys + b * sy = y1
    · refine ⟨[], ?_, ?_, ?_, List.Chain.nil⟩
      · intro extra
        rw [hfuel, hend.1, hend.2, lineVisitLoop_end]
      · have := hxeq.mp hend.1
        simp only [List.length_nil, Nat.cast_zero]
        omega
      · rw [hend.1, hend.2]
        rfl
    · have hnot : ¬ (a = dx ∧ b = dy) := by
        rw [← hxeq, ← hyeq]; exact hend
      have ha1 : a + 1 ≤ dx := by
        by_contra hcon
        have hadx : a = dx := by omega
        have hb : b + 1 ≤ dy := by
          by_contra hb
          exact hnot ⟨hadx, by omega⟩
        rw [hadx] at hI
        nlinarith [mul_nonneg hdx.le (by linarith : (0 : Int) ≤ dy - 1 - b)]
      have c1 : 2 * (dx - dy - a * dy + b * dx) > -dy := hI
      have e1 : xs + a * sx + sx = xs + (a + 1) * sx := by ring
      by_cases c2 : 2 * (dx - dy - a * dy + b * dx) < dx
      · have hb1 : b + 1 ≤ dy := by
          by_contra hcon
          have hbdy : b = dy := by omega
          rw [hbdy] at c2
          nlinarith [mul_nonneg hdy (by linarith : (0 : Int) ≤ dx - 1 - a)]
        have e2 : ys + b * sy + sy = ys + (b + 1) * sy := by ring
        have e3 : dx - dy - a * dy + b * dx - dy + dx
            = dx - dy - (a + 1) * dy + (b + 1) * dx := by ring
        obtain ⟨L, hL, hlen, hlast, hchain⟩ := ih (a + 1) (b + 1) (by omega) ha1 (by omega) hb1
          (by rw [← e3]; linarith) (by intro h; rw [← e3]; linarith) (by omega)
        refine ⟨{ x := xs + (a + 1) * sx, y := ys + (b + 1) * sy } :: L, ?_, ?_, ?_, ?_⟩
        · intro extra
          rw [hfuel, lineVisitLoop_succ _ _ _ _ _ _ _ _ _ _ hend]
          simp only [c1, c2, if_true]
          rw [e1, e2, e3, hL extra]
        · simp only [List.length_cons, Nat.cast_add, Nat.cast_one]
          omega
        · rw [List.getLast?_cons_cons]
          exact hlast
        · refine List.Chain.cons ?_ hchain
          rw [← e1, ← e2]
          exact lineStep_x sx sy hsx _ _ _ (Or.inl rfl)
      · have hlt : dy < dx := by
          by_contra hcon
          exact c2 (hI2 (by omega))
        have e3 : dx - dy - a * dy + b * dx - dy = dx - dy - (a + 1) * dy + b * dx := by ring
        obtain ⟨L, hL, hlen, hlast, hchain⟩ := ih (a + 1) b (by omega) ha1 h2 h3
          (by rw [← e3]; linarith) (by intro h; omega) (by omega)
        refine ⟨{ x := xs + (a + 1) * sx, y := ys + b * sy } :: L, ?_, ?_, ?_, ?_⟩
        · intro extra
          rw [hfuel, lineVisitLoop_succ _ _ _ _ _ _ _ _ _ _ hend]
          simp only [c1, c2, if_true, if_false]
          rw [e1, e3, hL extra]
        · simp only [List.length_cons, Nat.cast_add, Nat.cast_one]
          omega
        · rw [List.getLast?_cons_cons]
          exact hlast
        · refine List.Chain.cons ?_ hchain
          rw [← e1]
          exact lineStep_x sx sy hsx _ _ _ (Or.inr rfl)

/-- A line that is higher than it is wide: after `a` steps in `x` and `b` in
`y` the loop steps in `y` in every iteration, so it visits exactly `dy - b`
further points, the last of which is `(x1, y1)`. -/
theorem lineVisit_ymajor (xs ys x1 y1 dx dy sx sy : Int)
    (hdx : 0 ≤ dx) (hmaj : dx < dy)
    (hsx : sx = 1 ∨ sx = -1) (hsy : sy = 1 ∨ sy = -1)
    (hx1 : x1 = xs + dx * sx) (hy1 : y1 = ys + dy * sy) :
    ∀ (fuel : Nat) (a b : Int), 0 ≤ a → a ≤ dx → 0 ≤ b → b ≤ dy →
      2 * (dx - dy - a * dy + b * dx) < dx →
      (dy - b) + 1 ≤ (fuel : Int) →
      ∃ L : List POINT,
        (∀ extra : Nat,
          lineVisitLoop x1 y1 dx dy sx sy (fuel + extra) (xs + a * sx) (ys + b * sy)
            (dx - dy - a * dy + b * dx) = { x := xs + a * sx, y := ys + b * sy } :: L) ∧
        (L.length : Int) = dy - b ∧
        ({ x := xs + a * sx, y := ys + b * sy } :: L).getLast? = some { x := x1, y := y1 } ∧
        List.Chain (LineStep sx sy) { x := xs + a * sx, y := ys + b * sy } L := by
  have hdy : 0 ≤ dy := by omega
  intro fuel
  induction fuel with
  | zero =>
    intro a b h0 h1 h2 h3 hI h4
    exfalso
    have : (dy - b) + 1 ≤ 0 := by exact_mod_cast h4
    omega
  | succ n ih =>
    intro a b h0 h1 h2 h3 hI h4
    have hn : (dy - b) + 1 ≤ (n : Int) + 1 := by exact_mod_cast h4
    have hfuel : ∀ extra : Nat, n + 1 + extra = (n + extra) + 1 := fun extra => by omega
    have hxeq : xs + a * sx = x1 ↔ a = dx := by
      rw [hx1]
      constructor
      · intro h
        have : (a - dx) * sx = 0 := by linarith
        rcases hsx with rfl | rfl <;> linarith
      · intro h; rw [h]
    have hyeq : ys + b * sy = y1 ↔ b = dy := by
      rw [hy1]
      constructor
      · intro h
        have : (b - dy) * sy = 0 := by linarith
        rcases hsy with rfl | rfl <;> linarith
      · intro h; rw [h]
    by_cases hend : xs + a * sx = x1 ∧ ys + b * sy = y1
    · refine ⟨[], ?_, ?_, ?_, List.Chain.nil⟩
      · intro extra
        rw [hfuel, hend.1, hend.2, lineVisitLoop_end]
      · have := hyeq.mp hend.2
        simp only [List.length_nil, Nat.cast_zero]
        omega
      · rw [hend.1, hend.2]
        rfl
    · have hnot : ¬ (a = dx ∧ b = dy) := by
        rw [← hxeq, ← hyeq]; exact hend
      have hb1 : b + 1 ≤ dy := by
        by_contra hcon
        have hbdy : b = dy := by omega
        have ha : a + 1 ≤ dx := by
          by_contra ha
          exact hnot ⟨by omega, hbdy⟩
        rw [hbdy] at hI
        nlinarith [mul_nonneg hdy (by linarith : (0 : Int) ≤ dx - 1 - a)]
      have c2 : 2 * (dx - dy - a * dy + b * dx) < dx := hI
      have e2 : ys + b * sy + sy = ys + (b + 1) * sy := by ring
      by_cases c1 : 2 * (dx - dy - a * dy + b * dx) > -dy
      · have ha1 : a + 1 ≤ dx := by
          by_contra hcon
          have hadx : a = dx := by omega
          rw [hadx] at c1
          nlinarith [mul_nonneg hdx (by linarith : (0 : Int) ≤ dy - 1 - b)]
        have e1 : xs + a * sx + sx = xs + (a + 1) * sx := by ring
        have e3 : dx - dy - a * dy + b * dx - dy + dx
            = dx - dy - (a + 1) * dy + (b + 1) * dx := by ring
        obtain ⟨L, hL, hlen, hlast, hchain⟩ := ih (a + 1) (b + 1) (by omega) ha1 (by omega) hb1
          (by rw [← e3]; linarith) (by omega)
        refine ⟨{ x := xs + (a + 1) * sx, y := ys + (b + 1) * sy } :: L, ?_, ?_, ?_, ?_⟩
        · intro extra
          rw [hfuel, lineVisitLoop_succ _ _ _ _ _ _ _ _ _ _ hend]
          simp only [c1, c2, if_true]
          rw [e1, e2, e3, hL extra]
        · simp only [List.length_cons, Nat.cast_add, Nat.cast_one]
          omega
        · rw [List.getLast?_cons_cons]
          exact hlast
        · refine List.Chain.cons ?_ hchain
          rw [← e1, ← e2]
          exact lineStep_y sx sy hsy _ _ _ (Or.inl rfl)
      · have e3 : dx - dy - a * dy + b * dx + dx = dx - dy - a * dy + (b + 1) * dx := by ring
        obtain ⟨L, hL, hlen, hlast, hchain⟩ := ih a (b + 1) h0 h1 (by omega) hb1
          (by rw [← e3]; linarith) (by omega)
        refine ⟨{ x := xs + a * sx, y := ys + (b + 1) * sy } :: L, ?_, ?_, ?_, ?_⟩
        · intro extra
          rw [hfuel, lineVisitLoop_succ _ _ _ _ _ _ _ _ _ _ hend]
          simp only [c1, c2, if_true, if_false]
          rw [e2, e3, hL extra]
        · simp only [List.length_cons, Nat.cast_add, Nat.cast_one]
          omega
        · rw [List.getLast?_cons_cons]
          exact hlast
        · refine List.Chain.cons ?_ hchain
          rw [← e2]
          exact lineStep_y sx sy hsy _ _ _ (Or.inr rfl)

/-- The path of `DrawLine` between any two points: `max(dx, dy) + 1` points
from `(x0, y0)` to `(x1, y1)`, consecutive ones one line step apart; more
iterations than `DrawLine` is given visit nothing more. -/
theorem lineVisits_path (x0 y0 x1 y1 : Int) :
    (∀ extra : Nat,
      lineVisitLoop x1 y1 |x1 - x0| |y1 - y0| (if x0 < x1 then 1 else -1)
        (if y0 < y1 then 1 else -1)
        ((|x1 - x0|).toNat + (|y1 - y0|).toNat + 1 + extra) x0 y0 (|x1 - x0| - |y1 - y0|)
        = lineVisits x0 y0 x1 y1) ∧
    ((lineVisits x0 y0 x1 y1).length : Int) = max |x1 - x0| |y1 - y0| + 1 ∧
    (lineVisits x0 y0 x1 y1).head? = some { x := x0, y := y0 } ∧
    (lineVisits x0 y0 x1 y1).getLast? = some { x := x1, y := y1 } ∧
    List.Chain' (LineStep (if x0 < x1 then 1 else -1) (if y0 < y1 then 1 else -1))
      (lineVisits x0 y0 x1 y1) := by
  have hdx : 0 ≤ |x1 - x0| := abs_nonneg _
  have hdy : 0 ≤ |y1 - y0| := abs_nonneg _
  have hsx : (if x0 < x1 then (1 : Int) else -1) = 1 ∨ (if x0 < x1 then (1 : Int) else -1) = -1 := by
    split
    · exact Or.inl rfl
    · exact Or.inr rfl
  have hsy : (if y0 < y1 then (1 : Int) else -1) = 1 ∨ (if y0 < y1 then (1 : Int) else -1) = -1 := by
    split
    · exact Or.inl rfl
    · exact Or.inr rfl
  have hx1 : x1 = x0 + |x1 - x0| * (if x0 < x1 then (1 : Int) else -1) := by
    split
    · rw [abs_of_pos (by linarith)]; ring
    · rw [abs_of_nonpos (by linarith)]; ring
  have hy1 : y1 = y0 + |y1 - y0| * (if y0 < y1 then (1 : Int) else -1) := by
    split
    · rw [abs_of_pos (by linarith)]; ring
    · rw [abs_of_nonpos (by linarith)]; ring
  have e1 : (((|x1 - x0|).toNat : Nat) : Int) = |x1 - x0| := Int.toNat_of_nonneg hdx
  have e2 : (((|y1 - y0|).toNat : Nat) : Int) = |y1 - y0| := Int.toNat_of_nonneg hdy
  have hmain : ∃ L : List POINT,
      (∀ extra : Nat,
        lineVisitLoop x1 y1 |x1 - x0| |y1 - y0| (if x0 < x1 then 1 else -1)
          (if y0 < y1 then 1 else -1)
          ((|x1 - x0|).toNat + (|y1 - y0|).toNat + 1 + extra) x0 y0 (|x1 - x0| - |y1 - y0|)
          = { x := x0, y := y0 } :: L) ∧
      (L.length : Int) = max |x1 - x0| |y1 - y0| ∧
      ({ x := x0, y := y0 } :: L).getLast? = some { x := x1, y := y1 } ∧
      List.Chain (LineStep (if x0 < x1 then 1 else -1) (if y0 < y1 then 1 else -1))
        { x := x0, y := y0 } L := by
    by_cases hmaj : |y1 - y0| ≤ |x1 - x0|
    · by_cases hpos : 0 < |x1 - x0|
      · obtain ⟨L, hL, hlen, hlast, hchain⟩ := lineVisit_xmajor x0 y0 x1 y1 |x1 - x0| |y1 - y0|
          (if x0 < x1 then 1 else -1) (if y0 < y1 then 1 else -1) hpos hdy hmaj hsx hsy hx1 hy1
          ((|x1 - x0|).toNat + (|y1 - y0|).toNat + 1) 0 0 le_rfl hdx le_rfl hdy
          (by linarith) (by intro h; linarith) (by push_cast; rw [e1, e2]; linarith)
        simp only [zero_mul, add_zero, sub_zero] at hL hlen hlast hchain
        exact ⟨L, hL, by rw [hlen, max_eq_left hmaj], hlast, hchain⟩
      · have hx0 : |x1 - x0| = 0 := by omega
        have hy0 : |y1 - y0| = 0 := by omega
        have hxe : x0 = x1 := by
          have := abs_eq_zero.mp hx0
          omega
        have hye : y0 = y1 := by
          have := abs_eq_zero.mp hy0
          omega
        refine ⟨[], ?_, ?_, ?_, List.Chain.nil⟩
        · intro extra
          rw [hx0, hy0, hxe, hye]
          have : (0 : Int).toNat + (0 : Int).toNat + 1 + extra = extra + 1 := by simp; omega
          rw [this, lineVisitLoop_end]
        · rw [hx0, hy0]
          rfl
        · rw [hxe, hye]
          rfl
    · have hlt : |x1 - x0| < |y1 - y0| := by omega
      obtain ⟨L, hL, hlen, hlast, hchain⟩ := lineVisit_ymajor x0 y0 x1 y1 |x1 - x0| |y1 - y0|
        (if x0 < x1 then 1 else -1) (if y0 < y1 then 1 else -1) hdx hlt hsx hsy hx1 hy1
        ((|x1 - x0|).toNat + (|y1 - y0|).toNat + 1) 0 0 le_rfl hdx le_rfl hdy
        (by linarith) (by push_cast; rw [e1, e2]; linarith)
      simp only [zero_mul, add_zero, sub_zero] at hL hlen hlast hchain
      exact ⟨L, hL, by rw [hlen, max_eq_right hlt.le], hlast, hchain⟩
  obtain ⟨L, hL, hlen, hlast, hchain⟩ := hmain
  have hv : lineVisits x0 y0 x1 y1 = { x := x0, y := y0 } :: L := by
    have := hL 0
    simpa only [Nat.add_zero] using this
  refine ⟨fun extra => by rw [hL extra, hv], ?_, ?_, ?_, ?_⟩
  · rw [hv]
    simp only [List.length_cons, Nat.cast_add, Nat.cast_one]
    omega
  · rw [hv]
    rfl
  · rw [hv]
    exact hlast
  · rw [hv]
    exact hchain

/-! ## Lemmas: the masks -/

set_option maxRecDepth 4000 in
/-- The heart mask has 11 × 10 cells and the star mask 16 × 16. -/
theorem mask_lengths : HEART_MASK.length = 11 * 10 ∧ STAR_MASK.length = 16 * 16 :=
  ⟨rfl, rfl⟩

/-! ## Lemmas: the size of the store -/

/-- The displacement of a horizontal move by `d` pixels. -/
theorem distSq_horizontal (P : POINT) (d : Nat) :
    distSq P { x := P.x + (d : Int), y := P.y } = d * d := by
  unfold distSq
  have h : (P.x + (d : Int) - P.x) * (P.x + (d : Int) - P.x) + (P.y - P.y) * (P.y - P.y)
      = ((d * d : Nat) : Int) := by
    push_cast
    ring
  rw [h, Int.toNat_ofNat]

/-- The truncated quotient `(int)(d / 2.0f)` of a whole distance `d`. -/
theorem sqrtDivTrunc_sq_two (d : Nat) : sqrtDivTrunc (d * d) 2 = d / 2 := by
  unfold sqrtDivTrunc
  have h2 : (0 : ℚ) < 2 := by norm_num
  rw [if_pos h2]
  have hden : (2 : ℚ).den = 1 := rfl
  have hnum : (2 : ℚ).num = 2 := rfl
  rw [hden, hnum]
  simp [Nat.sqrt_eq]

/-- A Sparks tick after a horizontal move by `d > 0` pixels appends
`max 1 (d / 2)` particles. -/
theorem sparks_tick_length (m : Libm) (s : State) (d : Nat)
    (hkind : s.g_activeParticleSystem = .SPARKS)
    (hrec : s.g_lastMousePos ≠ { x := -1, y := -1 }) (hd : 0 < d) :
    (SpawnParticlesOnMouseMove m
      { x := s.g_lastMousePos.x + (d : Int), y := s.g_lastMousePos.y } s).g_particles.length
      = s.g_particles.length + max 1 (d / 2) := by
  have hk : s.g_activeParticleSystem ≠ .HEARTS := by
    rw [hkind]
    decide
  obtain ⟨new, h1, h2, -⟩ := spawn_tick_created m
    { x := s.g_lastMousePos.x + (d : Int), y := s.g_lastMousePos.y } s hk
    ((isUnset_false_iff _).mpr hrec)
  rw [distSq_horizontal, hkind] at h2
  have hgt : sqrtGt (d * d) 0 = true := (sqrtGt_zero_iff _).mpr (Nat.mul_pos hd hd)
  rw [if_pos hgt] at h2
  have hden : specDensity .SPARKS = 2 := rfl
  rw [hden, sqrtDivTrunc_sq_two] at h2
  rw [h1, List.length_append, h2]

/-! ## Lemmas: culling by the centre -/

/-- The condition under which `DrawParticlesToDIB` skips a particle is the
negation of `centreInside`. -/
theorem centreInside_false_iff (sc : Screen) (p : Particle) :
    centreInside sc p = false ↔
      (truncInt p.x - sc.g_VirtualOffsetX < 0 ∨
        truncInt p.x - sc.g_VirtualOffsetX ≥ sc.g_ScreenWidth ∨
        truncInt p.y - sc.g_VirtualOffsetY < 0 ∨
        truncInt p.y - sc.g_VirtualOffsetY ≥ sc.g_ScreenHeight) := by
  unfold centreInside
  rw [decide_eq_false_iff_not]
  constructor
  · intro h
    by_contra hc
    push_neg at hc
    exact h ⟨hc.1, hc.2.1, hc.2.2.1, hc.2.2.2⟩
  · rintro h ⟨h1, h2, h3, h4⟩
    rcases h with h | h | h | h <;> omega

/-- A particle whose centre is outside the buffer draws nothing and calls
`rand()` not once. -/
theorem drawParticle_outside (m : DrawLibm) (sc : Screen) (p : Particle) (r : Rng)
    (hout : centreInside sc p = false) : drawParticle m sc p r = ([], r) := by
  have h := (centreInside_false_iff sc p).mp hout
  simp only [drawParticle, h, if_true]

/-- A loop skips the elements on which its body does nothing. -/
theorem forEachM_filter {α : Type} (body : α → Rng → List Effect × Rng) (keep : α → Bool)
    (hskip : ∀ a r, keep a = false → body a r = ([], r)) :
    ∀ (xs : List α) (r : Rng), forEachM xs body r = forEachM (xs.filter keep) body r := by
  intro xs
  induction xs with
  | nil => intro r; rfl
  | cons a rest ih =>
    intro r
    by_cases hk : keep a = true
    · rw [List.filter_cons_of_pos hk]
      simp only [forEachM]
      rw [ih]
    · have hf : keep a = false := by simpa using hk
      rw [List.filter_cons_of_neg hk]
      simp only [forEachM, hskip a r hf, List.nil_append]
      exact ih r

/-! ## Lemmas: renderers that do not read the colour of the particle -/

/-- The colour bits of a flame: red 255, green `g`, blue 0. -/
theorem fire_color_bits :
    ∀ g : Fin 120,
      (((0xFF <<< 24) ||| (255 <<< 16) ||| ((80 + g.val) <<< 8) ||| 0 : Nat) &&& 0xFFFFFF)
        = 255 * 65536 + (80 + g.val) * 256 := by
  decide

/-- The alpha bits `static_cast<int>(alpha * 255) << 24`, as an unsigned
number, are a multiple of `2^24`. -/
theorem toU32_shift24 (k : Int) : ∃ a : Nat, toU32 (k * 16777216) = 2 ^ 24 * a := by
  unfold toU32
  refine ⟨((k * 16777216 % 4294967296) / 16777216).toNat, ?_⟩
  omega

/-- A pixel value with alpha bits over the colour bits of a flame. -/
theorem fire_pixel (k : Int) (g : Nat) (h0 : 80 ≤ g) (h1 : g ≤ 199) (x y : Int) :
    FireEffect (Effect.write x y
      (toU32 (k * 16777216) |||
        (((0xFF <<< 24) ||| (255 <<< 16) ||| (g <<< 8) ||| 0 : Nat) &&& 0xFFFFFF))) := by
  obtain ⟨a, ha⟩ := toU32_shift24 k
  have hg : (((0xFF <<< 24) ||| (255 <<< 16) ||| (g <<< 8) ||| 0 : Nat) &&& 0xFFFFFF)
      = 255 * 65536 + g * 256 := by
    have h := fire_color_bits ⟨g - 80, by omega⟩
    have e : 80 + (g - 80) = g := by omega
    simp only [e] at h
    exact h
  have hb : 255 * 65536 + g * 256 < 2 ^ 24 := by omega
  rw [ha, hg, ← Nat.mul_add_lt_is_or hb a]
  show ((2 ^ 24 * a + (255 * 65536 + g * 256)) >>> 16) % 256 = 255 ∧
    80 ≤ ((2 ^ 24 * a + (255 * 65536 + g * 256)) >>> 8) % 256 ∧
    ((2 ^ 24 * a + (255 * 65536 + g * 256)) >>> 8) % 256 ≤ 199 ∧
    (2 ^ 24 * a + (255 * 65536 + g * 256)) % 256 = 0
  simp only [Nat.shiftRight_eq_div_pow]
  omega

theorem fireTriangle_fire (m : Libm) (sc : Screen) (p : Particle)
    (tx ty baseWidth height : Int) (g : Nat) (h0 : 80 ≤ g) (h1 : g ≤ 199) :
    ∀ e ∈ fireTriangle m sc p tx ty baseWidth height
        ((0xFF <<< 24) ||| (255 <<< 16) ||| (g <<< 8) ||| 0), FireEffect e := by
  intro e he
  simp only [fireTriangle, List.mem_flatMap] at he
  obtain ⟨y, -, he⟩ := he
  rcases List.mem_cons.mp he with rfl | he
  · trivial
  · simp only [List.mem_flatMap] at he
    obtain ⟨x, -, he⟩ := he
    split at he
    · rw [List.mem_singleton.mp he]
      exact fire_pixel _ g h0 h1 x y
    · cases he

theorem fireLoop_fire (m : Libm) (sc : Screen) (p : Particle) :
    ∀ (k : Nat) (r : Rng), ∀ e ∈ (fireLoop m sc p k r).1, FireEffect e := by
  intro k
  induction k with
  | zero => intro r e he; cases he
  | succ k ih =>
    intro r e he
    simp only [fireLoop] at he
    split at he
    · cases he
    · rcases List.mem_append.mp he with he | he
      · refine fireTriangle_fire m sc p _ _ _ _ _ ?_ ?_ e he
        · split <;> omega
        · split
          · have := Nat.mod_lt r.next.next.next.next.next.val (by norm_num : 0 < 100)
            omega
          · have := Nat.mod_lt r.next.next.next.next.next.val (by norm_num : 0 < 50)
            omega
      · exact ih _ e he

theorem DrawFire_fire (m : Libm) (sc : Screen) (p : Particle) (r : Rng) :
    ∀ e ∈ (DrawFire m sc p r).1, FireEffect e := by
  intro e he
  unfold DrawFire at he
  split at he
  · cases he
  · exact fireLoop_fire m sc p _ _ e he

theorem DrawSword_sword (m : Libm) (sc : Screen) (p : Particle) :
    ∀ e ∈ DrawSword m sc p, SwordEffect e := by
  intro e he
  obtain ⟨c1, c2, c3, c4⟩ := sword_colors
  simp only [DrawSword, List.mem_flatMap, c1, c2, c3, c4] at he
  obtain ⟨ly, -, lx, -, he⟩ := he
  split at he
  · repeat' split at he
    all_goals first
      | (rw [List.mem_singleton.mp he]; simp [SwordEffect])
      | cases he
  · cases he

/-- The loop of `DrawFire` reads `scale`, `x`, `y` and `life` of the particle,
not its colour. -/
theorem fireLoop_color_indep (m : Libm) (sc : Screen) (p : Particle) (c : Nat) :
    ∀ (k : Nat) (r : Rng),
      fireLoop m sc { p with color := c } k r = fireLoop m sc p k r := by
  intro k
  induction k with
  | zero => intro r; rfl
  | succ k ih =>
    intro r
    simp only [fireLoop, ih]
    rfl

theorem DrawFire_color_indep (m : Libm) (sc : Screen) (p : Particle) (c : Nat) (r : Rng) :
    DrawFire m sc { p with color := c } r = DrawFire m sc p r := by
  unfold DrawFire
  rw [fireLoop_color_indep]

theorem DrawSword_color_indep (m : Libm) (sc : Screen) (p : Particle) (c : Nat) :
    DrawSword m sc { p with color := c } = DrawSword m sc p :=
  rfl

/-- In a frame, a Fire or Sword particle is drawn the same whatever its colour. -/
theorem drawParticle_color_indep (m : DrawLibm) (sc : Screen) (p : Particle) (c : Nat)
    (r : Rng) (hk : p.type = .FIRE ∨ p.type = .SWORD) :
    drawParticle m sc { p with color := c } r = drawParticle m sc p r := by
  by_cases hout : truncInt p.x - sc.g_VirtualOffsetX < 0 ∨
      truncInt p.x - sc.g_VirtualOffsetX ≥ sc.g_ScreenWidth ∨
      truncInt p.y - sc.g_VirtualOffsetY < 0 ∨
      truncInt p.y - sc.g_VirtualOffsetY ≥ sc.g_ScreenHeight
  · simp only [drawParticle, hout, if_true]
  · simp only [drawParticle, hout, if_false]
    rcases hk with hk | hk
    · rw [hk]
      simp only [renderAdjusted]
      exact DrawFire_color_indep m.toLibm sc
        { p with x := ((truncInt p.x - sc.g_VirtualOffsetX : Int) : ℚ),
                 y := ((truncInt p.y - sc.g_VirtualOffsetY : Int) : ℚ),
                 type := .FIRE } c r
    · rw [hk]
      simp only [renderAdjusted]
      rfl

/-! ## Lemmas: binary32 rounding -/

theorem pow2_eq (k : Int) : pow2 k = (2 : ℚ) ^ k := by
  unfold pow2
  by_cases h : 0 ≤ k
  · rw [if_pos h]
    obtain ⟨n, rfl⟩ := Int.eq_ofNat_of_zero_le h
    simp
  · rw [if_neg h]
    obtain ⟨n, hn⟩ := Int.eq_ofNat_of_zero_le (by omega : 0 ≤ -k)
    have hk : k = -(n : Int) := by omega
    rw [hn, hk]
    simp

theorem pow2_pos (k : Int) : 0 < pow2 k := by
  rw [pow2_eq]
  positivity

theorem log2Loop_spec (n : Nat) :
    ∀ (f k : Nat), 2 ^ k ≤ n → n < 2 ^ (k + f) →
      2 ^ (log2Loop n f k) ≤ n ∧ n < 2 ^ (log2Loop n f k + 1) := by
  intro f
  induction f with
  | zero =>
    intro k h1 h2
    exfalso
    simp only [Nat.add_zero] at h2
    omega
  | succ f ih =>
    intro k h1 h2
    by_cases h : n < 2 ^ (k + 1)
    · have e : log2Loop n (f + 1) k = k := by simp only [log2Loop, if_pos h]
      rw [e]
      exact ⟨h1, h⟩
    · have e : log2Loop n (f + 1) k = log2Loop n f (k + 1) := by
        simp only [log2Loop, if_neg h]
      rw [e]
      exact ih (k + 1) (by omega) (by
        have : k + 1 + f = k + (f + 1) := by omega
        rw [this]
        exact h2)

/-- The number `bitLog n` is `⌊log₂ n⌋`. -/
theorem bitLog_spec (n : Nat) (h : 0 < n) :
    2 ^ bitLog n ≤ n ∧ n < 2 ^ (bitLog n + 1) := by
  unfold bitLog
  exact log2Loop_spec n n 0 (by simpa using h) (by
    rw [Nat.zero_add]
    exact Nat.lt_two_pow n)

/-- The number `ilog2 q` is `⌊log₂ q⌋`. -/
theorem ilog2_spec (q : ℚ) (h : 0 < q) :
    (2 : ℚ) ^ ilog2 q ≤ q ∧ q < (2 : ℚ) ^ (ilog2 q + 1) := by
  have hnum : 0 < q.num := Rat.num_pos.mpr h
  have ha : 0 < q.num.natAbs := Int.natAbs_pos.mpr hnum.ne'
  have hb : 0 < q.den := q.den_pos
  obtain ⟨a1, a2⟩ := bitLog_spec _ ha
  obtain ⟨b1, b2⟩ := bitLog_spec _ hb
  have hq : q = (q.num.natAbs : ℚ) / (q.den : ℚ) := by
    have h1 : ((q.num.natAbs : Nat) : ℚ) = (q.num : ℚ) := by
      rw [Nat.cast_natAbs, abs_of_pos hnum]
    rw [h1]
    exact (Rat.num_div_den q).symm
  have hbq : (0 : ℚ) < (q.den : ℚ) := by exact_mod_cast hb
  have A1 : (2 : ℚ) ^ (bitLog q.num.natAbs : Int) ≤ (q.num.natAbs : ℚ) := by
    rw [zpow_natCast]
    exact_mod_cast a1
  have A2 : (q.num.natAbs : ℚ) < (2 : ℚ) ^ ((bitLog q.num.natAbs : Int) + 1) := by
    have : ((bitLog q.num.natAbs : Int) + 1) = ((bitLog q.num.natAbs + 1 : Nat) : Int) := by
      push_cast; rfl
    rw [this, zpow_natCast]
    exact_mod_cast a2
  have B1 : (2 : ℚ) ^ (bitLog q.den : Int) ≤ (q.den : ℚ) := by
    rw [zpow_natCast]
    exact_mod_cast b1
  have B2 : (q.den : ℚ) < (2 : ℚ) ^ ((bitLog q.den : Int) + 1) := by
    have : ((bitLog q.den : Int) + 1) = ((bitLog q.den + 1 : Nat) : Int) := by
      push_cast; rfl
    rw [this, zpow_natCast]
    exact_mod_cast b2
  have h2 : (0 : ℚ) < 2 := by norm_num
  unfold ilog2
  simp only
  by_cases hc : pow2 ((bitLog q.num.natAbs : Int) - (bitLog q.den : Int)) ≤ q
  · rw [if_pos hc]
    rw [pow2_eq] at hc
    refine ⟨hc, ?_⟩
    have e : ((bitLog q.num.natAbs : Int) - (bitLog q.den : Int) + 1)
        = ((bitLog q.num.natAbs : Int) + 1) - (bitLog q.den : Int) := by ring
    rw [e, zpow_sub₀ h2.ne']
    exact lt_of_eq_of_lt hq (div_lt_div₀ A2 B1 (zpow_pos h2 _).le (zpow_pos h2 _))
  · rw [if_neg hc]
    rw [pow2_eq] at hc
    constructor
    · have e : ((bitLog q.num.natAbs : Int) - (bitLog q.den : Int) - 1)
          = (bitLog q.num.natAbs : Int) - ((bitLog q.den : Int) + 1) := by ring
      rw [e, zpow_sub₀ h2.ne']
      exact le_of_le_of_eq (div_le_div₀ (Nat.cast_nonneg _) A1 hbq B2.le) hq.symm
    · have e : ((bitLog q.num.natAbs : Int) - (bitLog q.den : Int) - 1 + 1)
          = (bitLog q.num.natAbs : Int) - (bitLog q.den : Int) := by ring
      rw [e]
      exact not_le.mp hc

theorem roundEven_bounds (m : ℚ) : ⌊m⌋ ≤ roundEven m ∧ roundEven m ≤ ⌊m⌋ + 1 := by
  unfold roundEven
  split
  · omega
  · split
    · omega
    · split <;> omega

/-- The integer `roundEven m` is within one half of `m`. -/
theorem roundEven_err (m : ℚ) : |((roundEven m : Int) : ℚ) - m| ≤ 1 / 2 := by
  have h1 : ((⌊m⌋ : Int) : ℚ) ≤ m := Int.floor_le m
  have h2 : m < ((⌊m⌋ : Int) : ℚ) + 1 := Int.lt_floor_add_one m
  rw [abs_le]
  unfold roundEven
  by_cases c1 : m - (⌊m⌋ : ℚ) < 1 / 2
  · rw [if_pos c1]
    constructor <;> linarith
  · rw [if_neg c1]
    by_cases c2 : 1 / 2 < m - (⌊m⌋ : ℚ)
    · rw [if_pos c2]
      push_cast
      constructor <;> linarith
    · rw [if_neg c2]
      have c3 : m - (⌊m⌋ : ℚ) = 1 / 2 := le_antisymm (not_lt.mp c2) (not_lt.mp c1)
      split
      · constructor <;> linarith
      · push_cast
        constructor <;> linarith

/-- The significand and the unit in the last place of `roundF32 q`, `q ≠ 0`. -/
theorem roundF32_of_ne (q : ℚ) (h : q ≠ 0) :
    roundF32 q = (if 0 < q then 1 else -1) *
      (((roundEven (|q| / pow2 (ilog2 |q| - 23)) : Int) : ℚ) * pow2 (ilog2 |q| - 23)) := by
  unfold roundF32
  rw [if_neg h]
  by_cases hp : 0 < q
  · simp only [hp, if_true, one_mul]
  · simp only [hp, if_false, neg_mul, one_mul]

/-- The unit in the last place is at most `|q| / 2^23`. -/
theorem ulp_le (q : ℚ) (h : q ≠ 0) : pow2 (ilog2 |q| - 23) ≤ |q| / 2 ^ 23 := by
  have hq : 0 < |q| := abs_pos.mpr h
  have h1 := (ilog2_spec |q| hq).1
  rw [pow2_eq, zpow_sub₀ (by norm_num : (2 : ℚ) ≠ 0)]
  have e : (2 : ℚ) ^ (23 : Int) = 2 ^ 23 := by norm_num
  rw [e]
  exact div_le_div_of_nonneg_right h1 (by positivity)

/-- The scaled significand of a non-zero number is at least `2^23`. -/
theorem significand_ge (q : ℚ) (h : q ≠ 0) : (2 : ℚ) ^ 23 ≤ |q| / pow2 (ilog2 |q| - 23) := by
  have hu := pow2_pos (ilog2 |q| - 23)
  rw [le_div_iff₀ hu]
  have := ulp_le q h
  rw [le_div_iff₀ (by positivity)] at this
  linarith

/-- Rounding `a / u` to an integer and scaling back by `u` changes `a` by at
most half of `u`. -/
theorem round_scaled_err (a u : ℚ) (hu : 0 < u) :
    |((roundEven (a / u) : Int) : ℚ) * u - a| ≤ u / 2 := by
  have he := roundEven_err (a / u)
  have e : ((roundEven (a / u) : Int) : ℚ) * u - a
      = (((roundEven (a / u) : Int) : ℚ) - a / u) * u := by
    field_simp
  rw [e, abs_mul, abs_of_pos hu]
  calc |((roundEven (a / u) : Int) : ℚ) - a / u| * u
      ≤ 1 / 2 * u := mul_le_mul_of_nonneg_right he hu.le
    _ = u / 2 := by ring

/-- Rounding to binary32 changes a number by at most `2^-24` of its size. -/
theorem roundF32_err (q : ℚ) : |roundF32 q - q| ≤ |q| / 2 ^ 24 := by
  by_cases h : q = 0
  · rw [h]
    simp [roundF32]
  · have hu := pow2_pos (ilog2 |q| - 23)
    have hule := ulp_le q h
    have hkey := round_scaled_err (abs q) (pow2 (ilog2 |q| - 23)) hu
    have hhalf : pow2 (ilog2 |q| - 23) / 2 ≤ |q| / 2 ^ 24 := by
      have : pow2 (ilog2 |q| - 23) / 2 ≤ |q| / 2 ^ 23 / 2 :=
        div_le_div_of_nonneg_right hule (by norm_num)
      calc pow2 (ilog2 |q| - 23) / 2 ≤ |q| / 2 ^ 23 / 2 := this
        _ = |q| / 2 ^ 24 := by ring
    rw [roundF32_of_ne q h]
    by_cases hp : 0 < q
    · rw [if_pos hp, one_mul]
      rw [abs_of_pos hp] at hkey hhalf ⊢
      exact le_trans hkey hhalf
    · have hn : q < 0 := lt_of_le_of_ne (not_lt.mp hp) h
      rw [if_neg hp]
      rw [abs_of_neg hn] at hkey hhalf ⊢
      have e : -1 * (((roundEven (-q / pow2 (ilog2 (-q) - 23)) : Int) : ℚ)
          * pow2 (ilog2 (-q) - 23)) - q
          = -((((roundEven (-q / pow2 (ilog2 (-q) - 23)) : Int) : ℚ)
              * pow2 (ilog2 (-q) - 23)) - -q) := by ring
      rw [e, abs_neg]
      exact le_trans hkey hhalf

/-- The significand of a rounded non-zero number is positive. -/
theorem roundEven_significand_pos (q : ℚ) (h : q ≠ 0) :
    (0 : ℚ) < ((roundEven (|q| / pow2 (ilog2 |q| - 23)) : Int) : ℚ) := by
  have h1 := significand_ge q h
  have h2 : (1 : Int) ≤ ⌊|q| / pow2 (ilog2 |q| - 23)⌋ := by
    rw [Int.le_floor]
    push_cast
    linarith [show (1 : ℚ) ≤ 2 ^ 23 by norm_num]
  have h3 := (roundEven_bounds (|q| / pow2 (ilog2 |q| - 23))).1
  have : (1 : Int) ≤ roundEven (|q| / pow2 (ilog2 |q| - 23)) := le_trans h2 h3
  exact_mod_cast this

/-- Rounding to binary32 keeps the sign. -/
theorem roundF32_pos (q : ℚ) (h : 0 < q) : 0 < roundF32 q := by
  rw [roundF32_of_ne q h.ne', if_pos h, one_mul]
  exact mul_pos (roundEven_significand_pos q h.ne') (pow2_pos _)

theorem roundF32_neg (q : ℚ) (h : q < 0) : roundF32 q < 0 := by
  rw [roundF32_of_ne q h.ne, if_neg (not_lt.mpr h.le)]
  have := mul_pos (roundEven_significand_pos q h.ne) (pow2_pos (ilog2 |q| - 23))
  linarith

theorem roundF32_zero : roundF32 0 = 0 := by
  simp [roundF32]

theorem roundF32_nonpos (q : ℚ) (h : q ≤ 0) : roundF32 q ≤ 0 := by
  rcases h.lt_or_eq with h | h
  · exact (roundF32_neg q h).le
  · rw [h, roundF32_zero]

theorem roundF32_pos_iff (q : ℚ) : 0 < roundF32 q ↔ 0 < q := by
  constructor
  · intro h
    by_contra hc
    exact absurd h (not_lt.mpr (roundF32_nonpos q (not_lt.mp hc)))
  · exact roundF32_pos q

/-- Rounding a non-negative number to binary32 enlarges it by a factor of at
most `1 + 2^-24`. -/
theorem roundF32_le_mul (q : ℚ) (h : 0 ≤ q) : roundF32 q ≤ (1 + 1 / 2 ^ 24) * q := by
  have he := roundF32_err q
  rw [abs_of_nonneg h] at he
  have := (abs_le.mp he).2
  linarith

theorem roundF32_nonneg (q : ℚ) (h : 0 ≤ q) : 0 ≤ roundF32 q := by
  rcases h.lt_or_eq with h | h
  · exact (roundF32_pos q h).le
  · rw [← h, roundF32_zero]

/-- The conversion `std::max(1, static_cast<int>(q))` of a non-negative `q`. -/
theorem max_one_trunc (q : ℚ) (h : 0 ≤ q) : (max 1 (truncInt q)).toNat = max 1 ⌊q⌋₊ := by
  unfold truncInt
  rw [if_pos h]
  have h0 : 0 ≤ ⌊q⌋ := Int.floor_nonneg.mpr h
  have h1 : ⌊q⌋₊ = ⌊q⌋.toNat := (Int.floor_toNat q).symm
  rw [h1]
  omega


/-! ## Lemmas: operations that binary32 performs exactly -/

theorem roundEven_le_int (m : ℚ) (N : Int) (h : m ≤ (N : ℚ)) : roundEven m ≤ N := by
  have hfl : ⌊m⌋ ≤ N := by
    have := Int.floor_le_floor h
    rwa [Int.floor_intCast] at this
  have h1 : ((⌊m⌋ : Int) : ℚ) ≤ m := Int.floor_le m
  have hstep : 0 < m - ((⌊m⌋ : Int) : ℚ) → ⌊m⌋ + 1 ≤ N := by
    intro hpos
    rcases hfl.lt_or_eq with hlt | heq
    · omega
    · rw [heq] at hpos
      linarith
  unfold roundEven
  split
  · exact hfl
  · rename_i hc
    have hpos : 0 < m - ((⌊m⌋ : Int) : ℚ) := by
      have := not_lt.mp hc
      linarith
    split
    · exact hstep hpos
    · split
      · exact hfl
      · exact hstep hpos

/-- Rounding does not step over a binary32 number: what lies at or below the
number `n · 2^k`, `n < 2^24`, rounds to at most that number. -/
theorem roundF32_le_float (x : ℚ) (n : Nat) (k : Int) (hn : n < 2 ^ 24)
    (h : x ≤ (n : ℚ) * (2 : ℚ) ^ k) : roundF32 x ≤ (n : ℚ) * (2 : ℚ) ^ k := by
  have h2 : (0 : ℚ) < 2 := by norm_num
  have hf0 : (0 : ℚ) ≤ (n : ℚ) * (2 : ℚ) ^ k := by positivity
  rcases le_or_lt x 0 with hx | hx
  · exact (roundF32_nonpos x hx).trans hf0
  · obtain ⟨s1, -⟩ := ilog2_spec x hx
    rw [roundF32_of_ne x hx.ne', if_pos hx, one_mul, abs_of_pos hx]
    generalize ilog2 x = e at s1 ⊢
    have hn' : (n : ℚ) < (2 : ℚ) ^ (24 : Int) := by
      have : (n : ℚ) < (2 : ℚ) ^ (24 : Nat) := by exact_mod_cast hn
      exact_mod_cast this
    have hke : e - 23 ≤ k := by
      by_contra hc
      have hk : 24 + k ≤ e := by omega
      have hlt : (n : ℚ) * (2 : ℚ) ^ k < (2 : ℚ) ^ (24 + k) := by
        rw [zpow_add₀ h2.ne']
        exact mul_lt_mul_of_pos_right hn' (zpow_pos h2 k)
      have hle : (2 : ℚ) ^ (24 + k) ≤ (2 : ℚ) ^ e :=
        zpow_le_zpow_right₀ (by norm_num) hk
      linarith
    obtain ⟨j, hj⟩ := Int.eq_ofNat_of_zero_le (by omega : 0 ≤ k - (e - 23))
    have hu : (0 : ℚ) < pow2 (e - 23) := pow2_pos _
    have hf : (n : ℚ) * (2 : ℚ) ^ k = (((n * 2 ^ j : Nat) : Int) : ℚ) * pow2 (e - 23) := by
      have hk : k = (j : Int) + (e - 23) := by omega
      rw [pow2_eq, hk, zpow_add₀ h2.ne', zpow_natCast]
      push_cast
      ring
    rw [hf]
    apply mul_le_mul_of_nonneg_right _ hu.le
    have hm : x / pow2 (e - 23) ≤ (((n * 2 ^ j : Nat) : Int) : ℚ) := by
      rw [div_le_iff₀ hu, ← hf]
      exact h
    exact_mod_cast roundEven_le_int _ _ hm

/-- The fields `SpawnParticlesCommon` gives a particle, in binary32. -/
theorem spawnCommonParticleF32_fields (m : Libm) (type : ParticleType)
    (colorFunc : Option (Rng → Nat × Rng)) (minLife maxLife scaleMin scaleMax : ℚ)
    (rot up : Bool) (last : POINT) (dx dy : ℚ) (n i : Nat) (r : Rng) :
    (spawnCommonParticleF32 m type colorFunc minLife maxLife scaleMin scaleMax rot up
      last dx dy n i r).1.type = type ∧
    ∃ v : Nat, v ≤ RAND_MAX ∧
      (spawnCommonParticleF32 m type colorFunc minLife maxLife scaleMin scaleMax rot up
        last dx dy n i r).1.life =
        roundF32 (minLife + roundF32 (roundF32 ((v : ℚ) / (RAND_MAX : ℚ))
          * roundF32 (maxLife - minLife))) :=
  ⟨rfl, _, Rng.val_le _, rfl⟩

/-- One call of `SpawnParticlesCommonF32` with a previous position recorded:
the appended particles, their kind, their lives and their number. -/
theorem spawnCommonF32_tick (m : Libm) (pt : POINT) (type : ParticleType) (d : ℚ)
    (colorFunc : Option (Rng → Nat × Rng)) (minLife maxLife scaleMin scaleMax : ℚ)
    (rot up : Bool) (s : State) (hd0 : 0 ≤ d) (hrec : isUnset s.g_lastMousePos = false) :
    ∃ new : List Particle,
      (SpawnParticlesCommonF32 m pt type d colorFunc minLife maxLife scaleMin scaleMax
        rot up s).g_particles = s.g_particles ++ new ∧
      (∀ p ∈ new, p.type = type ∧ ∃ v : Nat, v ≤ RAND_MAX ∧
        p.life = roundF32 (minLife + roundF32 (roundF32 ((v : ℚ) / (RAND_MAX : ℚ))
          * roundF32 (maxLife - minLife)))) ∧
      new.length = (if 0 < distF32 s.g_lastMousePos pt
        then max 1 ⌊roundF32 (distF32 s.g_lastMousePos pt / d)⌋₊ else 0) := by
  by_cases hd : 0 < distF32 s.g_lastMousePos pt
  · have hq : 0 ≤ roundF32 (distF32 s.g_lastMousePos pt / d) :=
      roundF32_nonneg _ (div_nonneg hd.le hd0)
    obtain ⟨new, h1, h2, h3, -, -⟩ := spawnLoop_spec
      (spawnCommonParticleF32 m type colorFunc minLife maxLife scaleMin scaleMax rot up
        s.g_lastMousePos (roundF32 ((pt.x - s.g_lastMousePos.x : Int) : ℚ))
        (roundF32 ((pt.y - s.g_lastMousePos.y : Int) : ℚ))
        (max 1 (truncInt (roundF32 (distF32 s.g_lastMousePos pt / d)))).toNat)
      (fun p => p.type = type ∧ ∃ v : Nat, v ≤ RAND_MAX ∧
        p.life = roundF32 (minLife + roundF32 (roundF32 ((v : ℚ) / (RAND_MAX : ℚ))
          * roundF32 (maxLife - minLife))))
      (fun i r => spawnCommonParticleF32_fields m type colorFunc minLife maxLife scaleMin
        scaleMax rot up _ _ _ _ i r)
      (max 1 (truncInt (roundF32 (distF32 s.g_lastMousePos pt / d)))).toNat 0 s
    refine ⟨new, ?_, h3, ?_⟩
    · simp only [SpawnParticlesCommonF32, hrec, hd, gt_iff_lt, if_true]
      exact h1
    · rw [if_pos hd, h2, max_one_trunc _ hq]
  · refine ⟨[], ?_, fun p hp => absurd hp (List.not_mem_nil p), by rw [if_neg hd]; rfl⟩
    simp only [SpawnParticlesCommonF32, hrec, hd, gt_iff_lt]
    simp

/-- The `float` literals of the Sparks life range, and their difference. -/
theorem sparks_literals :
    roundF32 (1 / 10) = 13421773 / 134217728 ∧ roundF32 (1 / 5) = 13421773 / 67108864 ∧
    roundF32 (roundF32 (1 / 5) - roundF32 (1 / 10)) = 13421773 / 134217728 := by
  decide!

/-- What a Sparks tick appends, in binary32, lives at most `0.2f` seconds. -/
theorem sparksF32_tick_short_lived (m : Libm) (pt : POINT) (s : State)
    (hk : s.g_activeParticleSystem = .SPARKS) :
    ∃ new : List Particle,
      (SpawnParticlesOnMouseMoveF32 m pt s).g_particles = s.g_particles ++ new ∧
      ∀ p ∈ new, p.type = .SPARKS ∧ p.life ≤ roundF32 (1 / 5) := by
  have hdisp : SpawnParticlesOnMouseMoveF32 m pt s =
      SpawnParticlesCommonF32 m pt .SPARKS 2 (some sparksColor) (roundF32 (1 / 10))
        (roundF32 (1 / 5)) 1 2 true false s := by
    unfold SpawnParticlesOnMouseMoveF32
    rw [hk]
  rw [hdisp]
  by_cases hu : isUnset s.g_lastMousePos = true
  · refine ⟨[], ?_, by simp⟩
    simp [SpawnParticlesCommonF32, hu]
  · have hrec : isUnset s.g_lastMousePos = false := by simpa using hu
    obtain ⟨new, h1, h2, -⟩ := spawnCommonF32_tick m pt .SPARKS 2 (some sparksColor)
      (roundF32 (1 / 10)) (roundF32 (1 / 5)) 1 2 true false s (by norm_num) hrec
    refine ⟨new, h1, fun p hp => ⟨(h2 p hp).1, ?_⟩⟩
    obtain ⟨-, v, hv, hl⟩ := h2 p hp
    obtain ⟨e1, e2, e3⟩ := sparks_literals
    rw [hl, e3, e1, e2]
    have hR : (0 : ℚ) < (RAND_MAX : ℚ) := by norm_num [RAND_MAX]
    have hv1 : (v : ℚ) / (RAND_MAX : ℚ) ≤ ((1 : Nat) : ℚ) * (2 : ℚ) ^ (0 : Int) := by
      rw [zpow_zero, mul_one, Nat.cast_one, div_le_one hR]
      exact_mod_cast hv
    have hr1 := roundF32_le_float _ 1 0 (by norm_num) hv1
    rw [zpow_zero, mul_one, Nat.cast_one] at hr1
    have hr0 : 0 ≤ roundF32 ((v : ℚ) / (RAND_MAX : ℚ)) :=
      roundF32_nonneg _ (by positivity)
    have ef1 : ((13421773 : Nat) : ℚ) * (2 : ℚ) ^ (-27 : Int) = 13421773 / 134217728 := by
      norm_num [zpow_neg]
    have ef2 : ((13421773 : Nat) : ℚ) * (2 : ℚ) ^ (-26 : Int) = 13421773 / 67108864 := by
      norm_num [zpow_neg]
    have hp1 : roundF32 (roundF32 ((v : ℚ) / (RAND_MAX : ℚ)) * (13421773 / 134217728))
        ≤ 13421773 / 134217728 := by
      rw [← ef1]
      apply roundF32_le_float _ 13421773 (-27) (by norm_num)
      rw [ef1]
      nlinarith
    rw [← ef2]
    apply roundF32_le_float _ 13421773 (-26) (by norm_num)
    rw [ef2]
    linarith

/-! ## Lemmas: expiry with the life in binary32 -/

theorem updateLoopF32_descends (dt : ℚ) :
    ∀ (ps : List Particle) (r : Rng),
      List.Forall₂ (DescendsF32 [dt]) ps (updateLoopF32 dt ps r).1 := by
  intro ps
  induction ps with
  | nil => intro r; exact List.Forall₂.nil
  | cons p ps ih =>
    intro r
    exact List.Forall₂.cons ⟨rfl, rfl, rfl, rfl, rfl⟩ (ih _)

/-- One update with the life in binary32: the survivors are, in order, the
aged copies of the particles whose rounded life is positive. -/
theorem UpdateParticlesF32_descends (dt : ℚ) (s : State) :
    List.Forall₂ (DescendsF32 [dt])
      (s.g_particles.filter (fun p => decide (0 < roundF32 (p.life - dt))))
      (UpdateParticlesF32 dt s).g_particles := by
  unfold UpdateParticlesF32
  simp only [eraseRemoveIf_eq_filter]
  refine forall₂_filter_of_agree _ _ ?_ (updateLoopF32_descends dt s.g_particles s.rng)
  intro a b hab
  have hlife : b.life = roundF32 (a.life - dt) := hab.1
  by_cases h : 0 < roundF32 (a.life - dt)
  · have h2 : ¬ b.life ≤ 0 := by rw [hlife]; exact not_le.mpr h
    simp [h, h2]
  · have h2 : b.life ≤ 0 := by rw [hlife]; exact not_lt.mp h
    simp [h, h2]

theorem runUpdatesF32_cons (dt : ℚ) (dts : List ℚ) (s : State) :
    runUpdatesF32 (dt :: dts) s = runUpdatesF32 dts (UpdateParticlesF32 dt s) := rfl

/-- Ageing by `dt` and then by `dts` is ageing by `dt :: dts`. -/
theorem forall₂_descendsF32_cons (dt : ℚ) (dts : List ℚ) :
    ∀ {l1 l2 l3 : List Particle}, List.Forall₂ (DescendsF32 [dt]) l1 l2 →
      List.Forall₂ (DescendsF32 dts) l2 l3 → List.Forall₂ (DescendsF32 (dt :: dts)) l1 l3 := by
  intro l1 l2 l3 h12
  induction h12 generalizing l3 with
  | nil =>
    intro h23
    cases h23
    exact List.Forall₂.nil
  | cons hab _ ih =>
    intro h23
    cases h23 with
    | cons hbc htl =>
      refine List.Forall₂.cons ?_ (ih htl)
      obtain ⟨a1, a2, a3, a4, a5⟩ := hab
      obtain ⟨b1, b2, b3, b4, b5⟩ := hbc
      refine ⟨?_, b2.trans a2, b3.trans a3, b4.trans a4, b5.trans a5⟩
      rw [b1, a1]
      rfl

/-- After the updates `dts` with the life in binary32 the store holds, in
order, the aged copies of exactly the particles whose rounded life stayed
positive. -/
theorem runUpdatesF32_descends :
    ∀ (dts : List ℚ) (s : State),
      List.Forall₂ (DescendsF32 dts)
        (s.g_particles.filter (fun p => survivesF32 p.life dts))
        (runUpdatesF32 dts s).g_particles := by
  intro dts
  induction dts with
  | nil =>
    intro s
    have hfil : s.g_particles.filter (fun p => survivesF32 p.life []) = s.g_particles := by
      rw [List.filter_eq_self]
      intro p _
      rfl
    rw [hfil]
    show List.Forall₂ (DescendsF32 []) s.g_particles s.g_particles
    have hrefl : ∀ l : List Particle, List.Forall₂ (DescendsF32 []) l l := by
      intro l
      induction l with
      | nil => exact List.Forall₂.nil
      | cons a l ihl => exact List.Forall₂.cons ⟨rfl, rfl, rfl, rfl, rfl⟩ ihl
    exact hrefl _
  | cons dt dts ih =>
    intro s
    rw [runUpdatesF32_cons]
    have h1 := UpdateParticlesF32_descends dt s
    have h2 := ih (UpdateParticlesF32 dt s)
    have h3 := forall₂_filter_of_agree
      (fun a : Particle => survivesF32 (roundF32 (a.life - dt)) dts)
      (fun b : Particle => survivesF32 b.life dts)
      (fun a b hab => by
        have hlife : b.life = roundF32 (a.life - dt) := hab.1
        simp only [hlife]) h1
    have hff : (s.g_particles.filter (fun p => decide (0 < roundF32 (p.life - dt)))).filter
        (fun a : Particle => survivesF32 (roundF32 (a.life - dt)) dts)
        = s.g_particles.filter (fun p => survivesF32 p.life (dt :: dts)) := by
      rw [List.filter_filter]
      congr 1
      funext p
      simp only [survivesF32, Bool.and_comm]
    rw [hff] at h3
    exact forall₂_descendsF32_cons dt dts h3 h2

/-- A particle that is still stored after `k ≥ 1` updates with every `dt ≥ 0`
has a life `L > 0`, and the updates add up to less than
`L * (1 + 2^-24)^(k - 1)`. -/
theorem survivesF32_sum :
    ∀ (dts : List ℚ) (dt L : ℚ), survivesF32 L (dt :: dts) = true →
      (∀ d ∈ dt :: dts, 0 ≤ d) →
      0 < L ∧ (dt :: dts).sum < L * (1 + 1 / 2 ^ 24) ^ dts.length := by
  intro dts
  induction dts with
  | nil =>
    intro dt L hs hnn
    simp only [survivesF32, Bool.and_true, decide_eq_true_eq] at hs
    have hdt : 0 ≤ dt := hnn dt (List.mem_cons_self _ _)
    have hdiff : 0 < L - dt := (roundF32_pos_iff _).mp hs
    refine ⟨by linarith, ?_⟩
    simp only [List.sum_cons, List.sum_nil, List.length_nil, pow_zero, add_zero, mul_one]
    linarith
  | cons dt' dts ih =>
    intro dt L hs hnn
    have hs' : 0 < roundF32 (L - dt) ∧ survivesF32 (roundF32 (L - dt)) (dt' :: dts) = true := by
      have h := hs
      rw [survivesF32, Bool.and_eq_true, decide_eq_true_eq] at h
      exact h
    obtain ⟨h1, h2⟩ := hs'
    have hdt : 0 ≤ dt := hnn dt (List.mem_cons_self _ _)
    have hdiff : 0 < L - dt := (roundF32_pos_iff _).mp h1
    obtain ⟨-, hsum⟩ := ih dt' (roundF32 (L - dt)) h2
      (fun d hd => hnn d (List.mem_cons_of_mem _ hd))
    have hle := roundF32_le_mul (L - dt) hdiff.le
    have hc : (1 : ℚ) ≤ (1 + 1 / 2 ^ 24) ^ dts.length := one_le_pow₀ (by norm_num)
    have hc0 : (0 : ℚ) < (1 + 1 / 2 ^ 24) ^ dts.length := lt_of_lt_of_le one_pos hc
    have hc1 : (1 : ℚ) ≤ (1 + 1 / 2 ^ 24) ^ (dts.length + 1) := one_le_pow₀ (by norm_num)
    refine ⟨by linarith, ?_⟩
    rw [List.sum_cons, List.length_cons]
    have h3 : roundF32 (L - dt) * (1 + 1 / 2 ^ 24) ^ dts.length
        ≤ (L - dt) * (1 + 1 / 2 ^ 24) ^ (dts.length + 1) := by
      have e : ((1 : ℚ) + 1 / 2 ^ 24) ^ (dts.length + 1)
          = (1 + 1 / 2 ^ 24) ^ dts.length * (1 + 1 / 2 ^ 24) := pow_succ _ _
      calc roundF32 (L - dt) * (1 + 1 / 2 ^ 24) ^ dts.length
          ≤ ((1 + 1 / 2 ^ 24) * (L - dt)) * (1 + 1 / 2 ^ 24) ^ dts.length :=
            mul_le_mul_of_nonneg_right hle hc0.le
        _ = (L - dt) * ((1 + 1 / 2 ^ 24) ^ dts.length * (1 + 1 / 2 ^ 24)) := by ring
        _ = (L - dt) * (1 + 1 / 2 ^ 24) ^ (dts.length + 1) := by rw [e]
    have h4 : dt ≤ dt * (1 + 1 / 2 ^ 24) ^ (dts.length + 1) := le_mul_of_one_le_right hdt hc1
    calc dt + (dt' :: dts).sum
        < dt + roundF32 (L - dt) * (1 + 1 / 2 ^ 24) ^ dts.length := by linarith
      _ ≤ dt * (1 + 1 / 2 ^ 24) ^ (dts.length + 1)
          + (L - dt) * (1 + 1 / 2 ^ 24) ^ (dts.length + 1) := by linarith
      _ = L * (1 + 1 / 2 ^ 24) ^ (dts.length + 1) := by ring

/-- A particle of life `L` does not stay through updates with every `dt ≥ 0`
that add up to `L * (1 + 2^-24)^(k - 1)` or more, `k` their number. -/
theorem survivesF32_false (dts : List ℚ) (L : ℚ) (hpos : 0 < L ∨ dts ≠ [])
    (hnn : ∀ dt ∈ dts, 0 ≤ dt)
    (hle : L * (1 + 1 / 2 ^ 24) ^ (dts.length - 1) ≤ dts.sum) :
    survivesF32 L dts = false := by
  cases dts with
  | nil =>
    rcases hpos with hpos | hpos
    · simp only [List.length_nil, List.sum_nil, pow_zero, mul_one] at hle
      linarith
    · exact absurd rfl hpos
  | cons dt dts =>
    by_contra hc
    have hs : survivesF32 L (dt :: dts) = true := by simpa using hc
    have h := (survivesF32_sum dts dt L hs hnn).2
    rw [List.length_cons, Nat.add_sub_cancel] at hle
    linarith

/-! ## Lemmas: moves of a whole number of pixels -/

/-- C2: with Hearts active and a previous pointer position recorded, one spawn
tick appends exactly one (Hearts) particle when the Euclidean distance between
the previous and the current pointer position is strictly greater than 5,
appends none when it is at most 5, and never appends more than one. -/
theorem C2_hearts_spawn (m : Libm) (pt : POINT) (s : State)
    (hkind : s.g_activeParticleSystem = .HEARTS)
    (hrec : s.g_lastMousePos ≠ { x := -1, y := -1 }) :
    (5 < Real.sqrt (((pt.x - s.g_lastMousePos.x) ^ 2
          + (pt.y - s.g_lastMousePos.y) ^ 2 : Int) : ℝ) →
      ∃ p : Particle, p.type = .HEARTS ∧
        (SpawnParticlesOnMouseMove m pt s).g_particles = s.g_particles ++ [p]) ∧
    (Real.sqrt (((pt.x - s.g_lastMousePos.x) ^ 2
          + (pt.y - s.g_lastMousePos.y) ^ 2 : Int) : ℝ) ≤ 5 →
      (SpawnParticlesOnMouseMove m pt s).g_particles = s.g_particles) ∧
    (SpawnParticlesOnMouseMove m pt s).g_particles.length ≤ s.g_particles.length + 1 := by
  have hdisp : SpawnParticlesOnMouseMove m pt s = SpawnHeartsOnMouseMove m pt s := by
    unfold SpawnParticlesOnMouseMove
    rw [hkind]
  obtain ⟨h1, -, -⟩ := SpawnHeartsOnMouseMove_spec m pt s ((isUnset_false_iff _).mpr hrec)
  have hgt := sqrtGt_iff (distSq s.g_lastMousePos pt) 5
  rw [distSq_cast] at hgt
  rw [hdisp, h1]
  refine ⟨?_, ?_, ?_⟩
  · intro h5
    have hb : sqrtGt (distSq s.g_lastMousePos pt) 5 = true := hgt.mpr (by simpa using h5)
    rw [if_pos hb]
    exact ⟨_, rfl, rfl⟩
  · intro h5
    have hb : ¬ sqrtGt (distSq s.g_lastMousePos pt) 5 = true := by
      intro hb
      have := hgt.mp hb
      have h6 : ((5 : ℚ) : ℝ) = 5 := by norm_num
      rw [h6] at this
      exact absurd this (not_lt.mpr h5)
    rw [if_neg hb]
  · by_cases hb : sqrtGt (distSq s.g_lastMousePos pt) 5 = true
    · rw [if_pos hb]
      simp
    · rw [if_neg hb]
      exact Nat.le_succ _

/-- C2, instantiated: the move from (100,100) to (102,101) appends no heart,
the move from (100,100) to (104,104) appends exactly one. -/
theorem C2_hearts_spawn_witness :
    (sampleState .HEARTS).g_activeParticleSystem = .HEARTS ∧
    (sampleState .HEARTS).g_lastMousePos ≠ { x := -1, y := -1 } ∧
    (SpawnParticlesOnMouseMove sampleLibm { x := 102, y := 101 }
      (sampleState .HEARTS)).g_particles = [] ∧
    ∃ p : Particle, p.type = .HEARTS ∧
      (SpawnParticlesOnMouseMove sampleLibm { x := 104, y := 104 }
        (sampleState .HEARTS)).g_particles = [p] := by
  have hk : (sampleState .HEARTS).g_activeParticleSystem = .HEARTS := rfl
  have hr : (sampleState .HEARTS).g_lastMousePos ≠ { x := -1, y := -1 } := by decide
  refine ⟨hk, hr, ?_, ?_⟩
  · refine (C2_hearts_spawn sampleLibm { x := 102, y := 101 } (sampleState .HEARTS)
      hk hr).2.1 ?_
    show Real.sqrt ((((102 : Int) - 100) ^ 2 + ((101 : Int) - 100) ^ 2 : Int) : ℝ) ≤ 5
    rw [Real.sqrt_le_iff]
    norm_num
  · refine (C2_hearts_spawn sampleLibm { x := 104, y := 104 } (sampleState .HEARTS)
      hk hr).1 ?_
    show 5 < Real.sqrt ((((104 : Int) - 100) ^ 2 + ((104 : Int) - 100) ^ 2 : Int) : ℝ)
    rw [Real.lt_sqrt (by norm_num)]
    norm_num

/-- C3: `UpdateParticles(dt)` culls as a stable filter. With `updated` the
particles after the per-particle update (each with life `life − dt`), the
store afterwards is exactly `updated` filtered by `0 < life`: a sub-sequence
in unchanged order, in which no particle has `life ≤ 0` and from which no
updated particle with `life > 0` is missing. -/
theorem C3_cull_is_stable_filter (dt : ℚ) (s : State) :
    (UpdateParticles dt s).g_particles
      = (updateLoop dt s.g_particles s.rng).1.filter (fun p => decide (0 < p.life)) ∧
    (updateLoop dt s.g_particles s.rng).1.map (fun p => p.life)
      = s.g_particles.map (fun p => p.life - dt) ∧
    List.Sublist (UpdateParticles dt s).g_particles (updateLoop dt s.g_particles s.rng).1 ∧
    (∀ p ∈ (UpdateParticles dt s).g_particles, 0 < p.life) ∧
    (∀ p ∈ (updateLoop dt s.g_particles s.rng).1, 0 < p.life →
      p ∈ (UpdateParticles dt s).g_particles) := by
  have hfil : (UpdateParticles dt s).g_particles
      = (updateLoop dt s.g_particles s.rng).1.filter (fun p => decide (0 < p.life)) := by
    unfold UpdateParticles
    simp only [eraseRemoveIf_eq_filter]
    apply List.filter_congr
    intro p _
    by_cases h : p.life ≤ 0
    · simp [h]
    · simp [h, not_le.mp h]
  refine ⟨hfil, updateLoop_lives dt _ _, ?_, UpdateParticles_life_pos dt s, ?_⟩
  · rw [hfil]
    exact List.filter_sublist _
  · intro p hp hpos
    rw [hfil, List.mem_filter]
    exact ⟨hp, by simpa using hpos⟩

/-- C4: store invariant. Starting from an empty store, after any sequence of
kind selections, spawn ticks and `UpdateParticles(dt)` calls with every
`dt ≥ 0`, every particle in the store satisfies `0 < life ≤ maxLife`; so
`maxLife > 0` and the divisor of `life / maxLife` is never zero. -/
theorem C4_store_invariant (m : Libm) (s0 : State) (es : List Event)
    (hempty : s0.g_particles = [])
    (hdt : ∀ dt, Event.update dt ∈ es → 0 ≤ dt) :
    ∀ p ∈ (run m s0 es).g_particles, 0 < p.life ∧ p.life ≤ p.maxLife ∧ 0 < p.maxLife := by
  intro p hp
  have hinv : StoreInv (run m s0 es).g_particles :=
    run_preserves_inv m es s0 hdt (by rw [hempty]; intro q hq; cases hq)
  obtain ⟨h1, h2⟩ := hinv p hp
  exact ⟨h1, h2, lt_of_lt_of_le h1 h2⟩

/-- C4, instantiated at the initial state and a sample session. -/
theorem C4_store_invariant_witness :
    (initState sampleRng).g_particles = [] ∧
    (∀ dt, Event.update dt ∈ sampleEvents → 0 ≤ dt) ∧
    ∀ p ∈ (run sampleLibm (initState sampleRng) sampleEvents).g_particles,
      0 < p.life ∧ p.life ≤ p.maxLife ∧ 0 < p.maxLife := by
  have hdt : ∀ dt, Event.update dt ∈ sampleEvents → 0 ≤ dt := by
    intro dt hmem
    simp only [sampleEvents, List.mem_cons, Event.update.injEq, List.mem_singleton,
      reduceCtorEq, false_or, List.not_mem_nil, or_false] at hmem
    rcases hmem with rfl | rfl <;> norm_num
  exact ⟨rfl, hdt,
    C4_store_invariant sampleLibm (initState sampleRng) sampleEvents rfl hdt⟩

/-- C5, as stated, fails where `p.life -= dt` rounds upwards. A heart of life
`0.9f` updated 54 times by `dt = 1/60` as a `float` (sum `0.90000004… ≥ 0.9f`)
is still in the store, with a life of `43 / 2^28`: the first subtraction,
`0.9f - dt`, lies between two binary32 numbers and is rounded to the upper
one. A spark drawn with the largest life, `0.2f`, is still in the store after
12 such updates (sum `0.20000001… ≥ 0.2`). -/
theorem C5_counterexample_rounded_life :
    sampleHeartF32.life = roundF32 (9 / 10) ∧ frameTimeF32 = roundF32 (1 / 60) ∧
    (∀ dt ∈ List.replicate 54 frameTimeF32, 0 ≤ dt) ∧
    sampleHeartF32.life ≤ (List.replicate 54 frameTimeF32).sum ∧
    sampleHeartF32.life - frameTimeF32 < roundF32 (sampleHeartF32.life - frameTimeF32) ∧
    (runUpdatesF32 (List.replicate 54 frameTimeF32)
      { sampleState .HEARTS with g_particles := [sampleHeartF32] }).g_particles.map
        (fun q => (q.type, q.life)) = [(.HEARTS, 43 / 268435456)] ∧
    (SpawnParticlesOnMouseMoveF32 sampleLibm { x := 102, y := 100 }
      (sampleStateWith .SPARKS maxRng)).g_particles.map (fun q => (q.type, q.life))
        = [(.SPARKS, roundF32 (1 / 5))] ∧
    (1 / 5 : ℚ) ≤ (List.replicate 12 frameTimeF32).sum ∧
    roundF32 (1 / 5) ≤ (List.replicate 12 frameTimeF32).sum ∧
    (runUpdatesF32 (List.replicate 12 frameTimeF32)
      (SpawnParticlesOnMouseMoveF32 sampleLibm { x := 102, y := 100 }
        (sampleStateWith .SPARKS maxRng))).g_particles.map (fun q => (q.type, q.life))
        = [(.SPARKS, 3 / 268435456)] := by
  refine ⟨by decide!, by decide!, ?_, by decide!, by decide!, by decide!, by decide!,
    by decide!, by decide!, by decide!⟩
  intro dt hdt
  rw [List.eq_of_mem_replicate hdt]
  decide!

/-- C5, amended: expiry. (1) If the store holds a particle `p` (between `pre`
and `post`) with remaining life `L`, then after any sequence of `k`
`UpdateParticles` calls with every `dt ≥ 0` and total duration at least
`L · (1 + 2^-24)^(k - 1)` (at least one call when `L ≤ 0`) the store consists,
one for one and in order, of aged copies of particles of `pre ++ post` only:
`p` has left it. The life is a `float`, and each `p.life -= dt` rounds to the
nearest one, which exceeds the exact difference by a factor of at most
`1 + 2^-24`. (2) After a Sparks spawn tick followed by `k` updates of total
duration at least `0.2f · (1 + 2^-24)^(k - 1)`, the store consists of aged
copies of particles that were there before the tick only: every spark it
created (each with a life of at most `0.2f = 13421773 / 2^26`) has left it. -/
theorem C5_expiry_binary32 :
    (∀ (s : State) (pre post : List Particle) (p : Particle) (dts : List ℚ),
      s.g_particles = pre ++ p :: post → (0 < p.life ∨ dts ≠ []) → (∀ dt ∈ dts, 0 ≤ dt) →
      p.life * (1 + 1 / 2 ^ 24) ^ (dts.length - 1) ≤ dts.sum →
      ∃ sub : List Particle, List.Sublist sub (pre ++ post) ∧
        List.Forall₂ (DescendsF32 dts) sub (runUpdatesF32 dts s).g_particles) ∧
    roundF32 (1 / 5) = 13421773 / 2 ^ 26 ∧
    (∀ (m : Libm) (pt : POINT) (s : State) (dts : List ℚ),
      s.g_activeParticleSystem = .SPARKS → (∀ dt ∈ dts, 0 ≤ dt) →
      roundF32 (1 / 5) * (1 + 1 / 2 ^ 24) ^ (dts.length - 1) ≤ dts.sum →
      (∃ new : List Particle,
        (SpawnParticlesOnMouseMoveF32 m pt s).g_particles = s.g_particles ++ new ∧
        ∀ q ∈ new, q.type = .SPARKS ∧ q.life ≤ roundF32 (1 / 5)) ∧
      ∃ sub : List Particle, List.Sublist sub s.g_particles ∧
        List.Forall₂ (DescendsF32 dts) sub
          (runUpdatesF32 dts (SpawnParticlesOnMouseMoveF32 m pt s)).g_particles) := by
  refine ⟨?_, by decide!, ?_⟩
  · intro s pre post p dts hs hpos hnn hle
    have h := runUpdatesF32_descends dts s
    refine ⟨(pre ++ post).filter (fun q => survivesF32 q.life dts),
      List.filter_sublist _, ?_⟩
    have hdrop : ¬ ((fun q : Particle => survivesF32 q.life dts) p = true) := by
      simp only [survivesF32_false dts p.life hpos hnn hle]
      exact Bool.false_ne_true
    have hcons : (p :: post).filter (fun q : Particle => survivesF32 q.life dts)
        = post.filter (fun q : Particle => survivesF32 q.life dts) :=
      List.filter_cons_of_neg hdrop
    rw [hs, List.filter_append, hcons, ← List.filter_append] at h
    exact h
  · intro m pt s dts hk hnn hle
    obtain ⟨new, h1, h2⟩ := sparksF32_tick_short_lived m pt s hk
    refine ⟨⟨new, h1, h2⟩, ?_⟩
    have hc0 : (0 : ℚ) < (1 + 1 / 2 ^ 24) ^ (dts.length - 1) := by positivity
    have hlit : (0 : ℚ) < roundF32 (1 / 5) := roundF32_pos _ (by norm_num)
    have hne : dts ≠ [] := by
      intro h
      rw [h] at hle
      simp only [List.sum_nil, List.length_nil, Nat.sub_self, pow_zero, mul_one] at hle
      linarith
    have h := runUpdatesF32_descends dts (SpawnParticlesOnMouseMoveF32 m pt s)
    have hnew : new.filter (fun q => survivesF32 q.life dts) = [] := by
      rw [List.filter_eq_nil_iff]
      intro q hq
      have hq5 := (h2 q hq).2
      have hle2 : q.life * (1 + 1 / 2 ^ 24) ^ (dts.length - 1) ≤ dts.sum :=
        (mul_le_mul_of_nonneg_right hq5 hc0.le).trans hle
      rw [survivesF32_false dts q.life (Or.inr hne) hnn hle2]
      exact Bool.false_ne_true
    rw [h1, List.filter_append, hnew, List.append_nil] at h
    exact ⟨_, List.filter_sublist _, h⟩

/-- C5, instantiated: the sample star (life 0.4) is followed in the store by a
Smoke particle of life 0.5; after updates of 1/4 and 3/16 seconds (together
`0.4375 ≥ 0.4 · (1 + 2^-24)`) one particle is left, and it is the aged Smoke
particle. -/
theorem C5_expiry_binary32_witness :
    sampleStore.g_particles = [] ++ sampleStar :: [{ sampleStar with
      life := 1 / 2, maxLife := 1 / 2, type := .SMOKE, rotationSpeed := 0 }] ∧
    (0 < sampleStar.life ∨ [(1 / 4 : ℚ), 3 / 16] ≠ []) ∧
    (∀ dt ∈ [(1 / 4 : ℚ), 3 / 16], 0 ≤ dt) ∧
    sampleStar.life * (1 + 1 / 2 ^ 24) ^ ([(1 / 4 : ℚ), 3 / 16].length - 1)
      ≤ [(1 / 4 : ℚ), 3 / 16].sum ∧
    (runUpdatesF32 [1 / 4, 3 / 16] sampleStore).g_particles.map
      (fun q => (q.type, q.life)) = [(.SMOKE, 1 / 16)] ∧
    ∃ sub : List Particle,
      List.Sublist sub ([] ++ [{ sampleStar with
        life := 1 / 2, maxLife := 1 / 2, type := .SMOKE, rotationSpeed := 0 }]) ∧
      List.Forall₂ (DescendsF32 [(1 / 4 : ℚ), 3 / 16]) sub
        (runUpdatesF32 [1 / 4, 3 / 16] sampleStore).g_particles := by
  have h0 : 0 < sampleStar.life ∨ [(1 / 4 : ℚ), 3 / 16] ≠ [] :=
    Or.inl (by norm_num [sampleStar])
  have h1 : ∀ dt ∈ [(1 / 4 : ℚ), 3 / 16], 0 ≤ dt := by
    intro dt hmem
    simp only [List.mem_cons, List.mem_singleton, List.not_mem_nil, or_false] at hmem
    rcases hmem with rfl | rfl <;> norm_num
  have h2 : sampleStar.life * (1 + 1 / 2 ^ 24) ^ ([(1 / 4 : ℚ), 3 / 16].length - 1)
      ≤ [(1 / 4 : ℚ), 3 / 16].sum := by
    norm_num [sampleStar]
  exact ⟨rfl, h0, h1, h2, by decide!,
    C5_expiry_binary32.1 sampleStore [] _ sampleStar [1 / 4, 3 / 16] rfl h0 h1 h2⟩

/-- C6: the fade factor `1 − (1 − r)^3` that `UpdateParticles` multiplies the
scale by is non-decreasing in `r` on `[0,1]`, equals 1 at `r = 1` and 0 at
`r = 0`, and so lies in `[0,1]` for `r` in `[0,1]`. -/
theorem C6_fadeFactor_monotone :
    (∀ (dt : ℚ) (p : Particle) (r : Rng), (updateParticle dt p r).1.scale
      = p.scale * fadeFactor (if 0 < p.life - dt then (p.life - dt) / p.maxLife else 0)) ∧
    (∀ r : ℚ, fadeFactor r = 1 - (1 - r) ^ 3) ∧
    (∀ r1 r2 : ℚ, 0 ≤ r1 → r1 ≤ r2 → r2 ≤ 1 → fadeFactor r1 ≤ fadeFactor r2) ∧
    fadeFactor 1 = 1 ∧ fadeFactor 0 = 0 ∧
    (∀ r : ℚ, 0 ≤ r → r ≤ 1 → 0 ≤ fadeFactor r ∧ fadeFactor r ≤ 1) := by
  have hmono : ∀ r1 r2 : ℚ, 0 ≤ r1 → r1 ≤ r2 → r2 ≤ 1 → fadeFactor r1 ≤ fadeFactor r2 := by
    intro r1 r2 _ h12 h2
    unfold fadeFactor
    have h : (1 - r2) ^ 3 ≤ (1 - r1) ^ 3 :=
      pow_le_pow_left₀ (by linarith) (by linarith) 3
    linarith
  have h1 : fadeFactor 1 = 1 := by norm_num [fadeFactor]
  have h0 : fadeFactor 0 = 0 := by norm_num [fadeFactor]
  refine ⟨fun _ _ _ => rfl, fun _ => rfl, hmono, h1, h0, ?_⟩
  intro r hr0 hr1
  constructor
  · rw [← h0]
    exact hmono 0 r le_rfl hr0 hr1
  · rw [← h1]
    exact hmono r 1 hr0 hr1 le_rfl

/-- C6, instantiated at the ratios 1/4 and 1/2. -/
theorem C6_fadeFactor_monotone_witness :
    (0 : ℚ) ≤ 1 / 4 ∧ (1 / 4 : ℚ) ≤ 1 / 2 ∧ (1 / 2 : ℚ) ≤ 1 ∧
    fadeFactor (1 / 4) ≤ fadeFactor (1 / 2) :=
  ⟨by norm_num, by norm_num, by norm_num,
    C6_fadeFactor_monotone.2.2.1 (1 / 4) (1 / 2) (by norm_num) (by norm_num) (by norm_num)⟩

/-- C7 (evaluation of the code): the sample star (scale 1, life = maxLife =
0.4) updated twice by 0.1 seconds has life 0.2 and scale 441/512, not the
`1 · (1 − (1 − 0.2/0.4)^3) = 7/8` of the claim; updated once by 0.2 seconds it
has the same life 0.2 and scale 7/8. The scale after the same elapsed time
depends on how the time was split into ticks. -/
theorem C7_scale_compounds_per_tick :
    (runUpdates [1 / 10, 1 / 10] sampleStore).g_particles.map (fun p => (p.life, p.scale))
      = [(1 / 5, 441 / 512), (3 / 10, 14508 / 15625)] ∧
    (runUpdates [1 / 5] sampleStore).g_particles.map (fun p => (p.life, p.scale))
      = [(1 / 5, 7 / 8), (3 / 10, 117 / 125)] ∧
    sampleStar.scale * fadeFactor ((1 / 5) / sampleStar.maxLife) = 7 / 8 ∧
    sampleStar.scale * fadeFactor ((3 / 10) / (1 / 2)) = 117 / 125 := by
  refine ⟨by decide!, by decide!, ?_, ?_⟩
  · norm_num [sampleStar, fadeFactor]
  · norm_num [sampleStar, fadeFactor]

/-- C8: for every integer id outside 1..6, `SetActiveParticleSystem(id)` sets
the active kind to Smoke whatever it was before; the call is total and leaves
the store and the tracked pointer position alone. -/
theorem C8_unknown_id_selects_smoke (systemId : Int) (s : State)
    (h : systemId < 1 ∨ 6 < systemId) :
    (SetActiveParticleSystem systemId s).g_activeParticleSystem = .SMOKE ∧
    (SetActiveParticleSystem systemId s).g_particles = s.g_particles ∧
    (SetActiveParticleSystem systemId s).g_lastMousePos = s.g_lastMousePos := by
  unfold SetActiveParticleSystem
  rw [if_neg (by omega), if_neg (by omega), if_neg (by omega), if_neg (by omega),
    if_neg (by omega), if_neg (by omega)]
  exact ⟨rfl, rfl, rfl⟩

/-- C8, instantiated at the id 99 with Stars active before the call. -/
theorem C8_unknown_id_selects_smoke_witness :
    ((99 : Int) < 1 ∨ 6 < (99 : Int)) ∧
    (sampleState .STARS).g_activeParticleSystem = .STARS ∧
    (SetActiveParticleSystem 99 (sampleState .STARS)).g_activeParticleSystem = .SMOKE :=
  ⟨by decide, rfl,
    (C8_unknown_id_selects_smoke 99 (sampleState .STARS) (by decide)).1⟩

/-- C9 (evaluation of the code): `SetActiveParticleSystem(1)` selects Smoke,
whose enumerator value is 5, and `SetActiveParticleSystem(5)` selects Hearts,
whose enumerator value is 1; the ids 2, 3, 4 and 6 select the kind whose
enumerator value is the id. -/
theorem C9_ids_one_and_five_swapped (s : State) :
    (SetActiveParticleSystem 1 s).g_activeParticleSystem = .SMOKE ∧
    (SetActiveParticleSystem 1 s).g_activeParticleSystem.toInt ≠ 1 ∧
    (SetActiveParticleSystem 5 s).g_activeParticleSystem = .HEARTS ∧
    (SetActiveParticleSystem 5 s).g_activeParticleSystem.toInt ≠ 5 ∧
    (SetActiveParticleSystem 2 s).g_activeParticleSystem.toInt = 2 ∧
    (SetActiveParticleSystem 3 s).g_activeParticleSystem.toInt = 3 ∧
    (SetActiveParticleSystem 4 s).g_activeParticleSystem.toInt = 4 ∧
    (SetActiveParticleSystem 6 s).g_activeParticleSystem.toInt = 6 := by
  refine ⟨rfl, ?_, rfl, ?_, rfl, rfl, rfl, rfl⟩
  · show ParticleType.SMOKE.toInt ≠ 1
    decide
  · show ParticleType.HEARTS.toInt ≠ 5
    decide

/-- C10: when the tracked previous pointer position is unset (`{ -1, -1 }`, the
initial state), a spawn tick of any active kind appends no particle and
records the current pointer position as the tracked position. -/
theorem C10_first_tick_records_only (m : Libm) (pt : POINT) (s : State)
    (hunset : s.g_lastMousePos = { x := -1, y := -1 }) :
    (SpawnParticlesOnMouseMove m pt s).g_particles = s.g_particles ∧
    (SpawnParticlesOnMouseMove m pt s).g_lastMousePos = pt := by
  rw [spawn_unset m pt s ((isUnset_true_iff _).mpr hunset)]
  exact ⟨rfl, rfl⟩

/-- C10, instantiated at the initial state (Smoke active) and at the initial
state after Hearts was selected. -/
theorem C10_first_tick_records_only_witness :
    (initState sampleRng).g_lastMousePos = { x := -1, y := -1 } ∧
    (SpawnParticlesOnMouseMove sampleLibm { x := 640, y := 480 }
      (initState sampleRng)).g_particles = [] ∧
    (SpawnParticlesOnMouseMove sampleLibm { x := 640, y := 480 }
      (initState sampleRng)).g_lastMousePos = { x := 640, y := 480 } ∧
    (SetActiveParticleSystem 5 (initState sampleRng)).g_activeParticleSystem = .HEARTS ∧
    (SpawnParticlesOnMouseMove sampleLibm { x := 640, y := 480 }
      (SetActiveParticleSystem 5 (initState sampleRng))).g_particles = [] ∧
    (SpawnParticlesOnMouseMove sampleLibm { x := 640, y := 480 }
      (SetActiveParticleSystem 5 (initState sampleRng))).g_lastMousePos
      = { x := 640, y := 480 } :=
  ⟨rfl,
    (C10_first_tick_records_only sampleLibm { x := 640, y := 480 }
      (initState sampleRng) rfl).1,
    (C10_first_tick_records_only sampleLibm { x := 640, y := 480 }
      (initState sampleRng) rfl).2,
    rfl,
    (C10_first_tick_records_only sampleLibm { x := 640, y := 480 }
      (SetActiveParticleSystem 5 (initState sampleRng)) rfl).1,
    (C10_first_tick_records_only sampleLibm { x := 640, y := 480 }
      (SetActiveParticleSystem 5 (initState sampleRng)) rfl).2⟩

/-- C11 (evaluation of the code): the unset state is the value `(-1, -1)` of
the tracked position, which is also a pointer position. After a tick has
recorded `(5, 5)`, a tick that observes the pointer at `(-1, -1)` stores the
sentinel again, and the tick after it, at `(10, 10)`, takes the "no previous
position" branch: it appends nothing, whatever the active kind. -/
theorem C11_sentinel_is_a_pointer_position (m : Libm) (s : State) :
    (SpawnParticlesOnMouseMove m { x := 5, y := 5 } s).g_lastMousePos = { x := 5, y := 5 } ∧
    isUnset (SpawnParticlesOnMouseMove m { x := 5, y := 5 } s).g_lastMousePos = false ∧
    isUnset (SpawnParticlesOnMouseMove m { x := -1, y := -1 }
      (SpawnParticlesOnMouseMove m { x := 5, y := 5 } s)).g_lastMousePos = true ∧
    (SpawnParticlesOnMouseMove m { x := 10, y := 10 }
      (SpawnParticlesOnMouseMove m { x := -1, y := -1 }
        (SpawnParticlesOnMouseMove m { x := 5, y := 5 } s))).g_particles
      = (SpawnParticlesOnMouseMove m { x := -1, y := -1 }
        (SpawnParticlesOnMouseMove m { x := 5, y := 5 } s)).g_particles ∧
    0 < distSq { x := -1, y := -1 } { x := 10, y := 10 } := by
  have h2 : isUnset (SpawnParticlesOnMouseMove m { x := -1, y := -1 }
      (SpawnParticlesOnMouseMove m { x := 5, y := 5 } s)).g_lastMousePos = true := by
    rw [spawn_lastMousePos]
    rfl
  refine ⟨spawn_lastMousePos m _ s, ?_, h2, ?_, by decide⟩
  · rw [spawn_lastMousePos]
    rfl
  · rw [spawn_unset m _ _ h2]

/-- C12: `UpdateParticles(dt)` never changes the maxLife, color, rotationSpeed
or kind of a particle: the update of one particle keeps them, for every `dt`,
kind and state of the generator, and the store afterwards consists, one for
one and in order, of copies with these four fields unchanged of the particles
that remain (those whose life exceeded `dt`). -/
theorem C12_update_keeps_identity_fields (dt : ℚ) (s : State) :
    (∀ (p : Particle) (r : Rng),
      (updateParticle dt p r).1.maxLife = p.maxLife ∧
      (updateParticle dt p r).1.color = p.color ∧
      (updateParticle dt p r).1.rotationSpeed = p.rotationSpeed ∧
      (updateParticle dt p r).1.type = p.type) ∧
    List.Forall₂ SameIdentity
      (s.g_particles.filter (fun p => decide (dt < p.life)))
      (UpdateParticles dt s).g_particles := by
  refine ⟨fun p r => ⟨rfl, rfl, rfl, rfl⟩, ?_⟩
  refine List.Forall₂.imp ?_ (UpdateParticles_descends dt s)
  intro a b hab
  exact ⟨hab.2.1, hab.2.2.1, hab.2.2.2.1, hab.2.2.2.2⟩

/-- C13 (amended): masked-shape rendering at angle 0 and scale 1. For a mask
of width `w` and height `h` drawn at the buffer-local centre `(px, py)` with
every touched pixel inside the buffer, `DrawShape` stores exactly the pixels
`(px − ⌈w/2⌉ + i + u, py − ⌈h/2⌉ + j + v)` for the mask cells `(i, j)` that are
on and `u, v ∈ {−1, 0, 1}`, each with the value
`0xFF000000 | (color & 0xFFFFFF)`, and no other pixel: the centre `w / 2` is a
float and the sum is truncated, so for even `w` and `h` (where `⌈w/2⌉ = w/2`)
these are the pixels `(px − w/2 + i + u, py − h/2 + j + v)`. -/
theorem C13_masked_shape_pixels (m : Libm) (sc : Screen) (p : Particle) (mask : List Nat)
    (w h : Nat) (px py : Int)
    (hcos : m.cosf 0 = 1) (hsin : m.sinf 0 = 0) (hangle : p.angle = 0)
    (hscale : p.scale = 1) (hx : p.x = (px : ℚ)) (hy : p.y = (py : ℚ))
    (hin : ∀ i j : Nat, i < w → j < h → mask.getD (j * w + i) 0 = 1 →
      1 ≤ px - (((w + 1) / 2 : Nat) : Int) + i ∧
      px - (((w + 1) / 2 : Nat) : Int) + i + 1 < sc.g_ScreenWidth ∧
      1 ≤ py - (((h + 1) / 2 : Nat) : Int) + j ∧
      py - (((h + 1) / 2 : Nat) : Int) + j + 1 < sc.g_ScreenHeight) :
    (∀ (x y : Int) (c : Nat),
      Effect.write x y c ∈ DrawShape m sc p mask w h ↔
        c = 0xFF000000 ||| (p.color &&& 0xFFFFFF) ∧
        ∃ i j : Nat, i < w ∧ j < h ∧ mask.getD (j * w + i) 0 = 1 ∧
          ∃ u v : Int, (u = -1 ∨ u = 0 ∨ u = 1) ∧ (v = -1 ∨ v = 0 ∨ v = 1) ∧
            x = px - (((w + 1) / 2 : Nat) : Int) + i + u ∧
            y = py - (((h + 1) / 2 : Nat) : Int) + j + v) ∧
    (w % 2 = 0 → (w + 1) / 2 = w / 2) ∧ (h % 2 = 0 → (h + 1) / 2 = h / 2) := by
  refine ⟨fun x y c => ?_, fun hw => by omega, fun hh => by omega⟩
  exact DrawShape_upright_iff m sc p mask w h px py (by rw [hangle]; exact hcos)
    (by rw [hangle]; exact hsin) hscale hx hy hin x y c

/-- C13, instantiated: the sample star at `(50, 50)` on the 100 × 100 buffer
stores exactly the dilated on-cells at `(42 + i, 42 + j)`, and nothing outside
the box `[41, 58] × [41, 58]`. -/
theorem C13_masked_shape_pixels_witness :
    sampleLibm.cosf 0 = 1 ∧ sampleLibm.sinf 0 = 0 ∧ sampleStarAt50.angle = 0 ∧
    sampleStarAt50.scale = 1 ∧ sampleStarAt50.x = ((50 : Int) : ℚ) ∧
    sampleStarAt50.y = ((50 : Int) : ℚ) ∧
    (∀ (x y : Int) (c : Nat),
      Effect.write x y c ∈ DrawShape sampleLibm sampleScreen sampleStarAt50 STAR_MASK 16 16 ↔
        c = 0xFF000000 ||| (sampleStarAt50.color &&& 0xFFFFFF) ∧
        ∃ i j : Nat, i < 16 ∧ j < 16 ∧ STAR_MASK.getD (j * 16 + i) 0 = 1 ∧
          ∃ u v : Int, (u = -1 ∨ u = 0 ∨ u = 1) ∧ (v = -1 ∨ v = 0 ∨ v = 1) ∧
            x = 42 + i + u ∧ y = 42 + j + v) ∧
    (∀ (x y : Int) (c : Nat),
      Effect.write x y c ∈ DrawShape sampleLibm sampleScreen sampleStarAt50 STAR_MASK 16 16 →
        41 ≤ x ∧ x ≤ 58 ∧ 41 ≤ y ∧ y ≤ 58) := by
  have hx : sampleStarAt50.x = ((50 : Int) : ℚ) := by norm_num [sampleStarAt50]
  have hy : sampleStarAt50.y = ((50 : Int) : ℚ) := by norm_num [sampleStarAt50]
  have hin : ∀ i j : Nat, i < 16 → j < 16 → STAR_MASK.getD (j * 16 + i) 0 = 1 →
      1 ≤ (50 : Int) - (((16 + 1) / 2 : Nat) : Int) + i ∧
      (50 : Int) - (((16 + 1) / 2 : Nat) : Int) + i + 1 < sampleScreen.g_ScreenWidth ∧
      1 ≤ (50 : Int) - (((16 + 1) / 2 : Nat) : Int) + j ∧
      (50 : Int) - (((16 + 1) / 2 : Nat) : Int) + j + 1 < sampleScreen.g_ScreenHeight := by
    intro i j hi hj _
    show _ ∧ _ < (100 : Int) ∧ _ ∧ _ < (100 : Int)
    omega
  have key := (C13_masked_shape_pixels sampleLibm sampleScreen sampleStarAt50 STAR_MASK
    16 16 50 50 rfl rfl rfl rfl hx hy hin).1
  have hiff : ∀ (x y : Int) (c : Nat),
      Effect.write x y c ∈ DrawShape sampleLibm sampleScreen sampleStarAt50 STAR_MASK 16 16 ↔
        c = 0xFF000000 ||| (sampleStarAt50.color &&& 0xFFFFFF) ∧
        ∃ i j : Nat, i < 16 ∧ j < 16 ∧ STAR_MASK.getD (j * 16 + i) 0 = 1 ∧
          ∃ u v : Int, (u = -1 ∨ u = 0 ∨ u = 1) ∧ (v = -1 ∨ v = 0 ∨ v = 1) ∧
            x = 42 + i + u ∧ y = 42 + j + v := by
    intro x y c
    rw [key x y c]
    constructor
    · rintro ⟨hc, i, j, hi, hj, hon, u, v, hu, hv, e1, e2⟩
      exact ⟨hc, i, j, hi, hj, hon, u, v, hu, hv, by omega, by omega⟩
    · rintro ⟨hc, i, j, hi, hj, hon, u, v, hu, hv, e1, e2⟩
      exact ⟨hc, i, j, hi, hj, hon, u, v, hu, hv, by omega, by omega⟩
  refine ⟨rfl, rfl, rfl, rfl, hx, hy, hiff, ?_⟩
  intro x y c hm
  obtain ⟨-, i, j, hi, hj, -, u, v, hu, hv, e1, e2⟩ := (hiff x y c).mp hm
  omega

/-- C13 (counterexample): for the 11-wide heart mask at `(50, 50)`, angle 0,
scale 1, on the 100 × 100 buffer, every stored pixel lies inside the buffer,
and the pixel `(43, 48)` is stored (cell `(0, 3)`, truncated centre column 44,
neighbour `u = −1`), but it is none of the pixels
`(50 − 11/2 + i + u, 50 − 10/2 + j + v)`, whether `11/2` is read as the integer
5 or as 5.5. -/
theorem C13_counterexample_odd_width :
    (∀ (x y : Int) (c : Nat),
      Effect.write x y c ∈ DrawShape sampleLibm sampleScreen sampleHeartAt50 HEART_MASK 11 10 →
        43 ≤ x ∧ x ≤ 55 ∧ 44 ≤ y ∧ y ≤ 55) ∧
    Effect.write 43 48 (0xFF000000 ||| (sampleHeartAt50.color &&& 0xFFFFFF))
      ∈ DrawShape sampleLibm sampleScreen sampleHeartAt50 HEART_MASK 11 10 ∧
    (¬ ∃ i j : Nat, i < 11 ∧ j < 10 ∧ HEART_MASK.getD (j * 11 + i) 0 = 1 ∧
        ∃ u v : Int, (u = -1 ∨ u = 0 ∨ u = 1) ∧ (v = -1 ∨ v = 0 ∨ v = 1) ∧
          (43 : Int) = 50 - ((11 / 2 : Nat) : Int) + i + u ∧
          (48 : Int) = 50 - ((10 / 2 : Nat) : Int) + j + v) ∧
    (¬ ∃ (i : Nat) (u : Int), (43 : ℚ) = 50 - (11 : ℚ) / 2 + (i : ℚ) + (u : ℚ)) := by
  have hx : sampleHeartAt50.x = ((50 : Int) : ℚ) := by norm_num [sampleHeartAt50]
  have hy : sampleHeartAt50.y = ((50 : Int) : ℚ) := by norm_num [sampleHeartAt50]
  have hin : ∀ i j : Nat, i < 11 → j < 10 → HEART_MASK.getD (j * 11 + i) 0 = 1 →
      1 ≤ (50 : Int) - (((11 + 1) / 2 : Nat) : Int) + i ∧
      (50 : Int) - (((11 + 1) / 2 : Nat) : Int) + i + 1 < sampleScreen.g_ScreenWidth ∧
      1 ≤ (50 : Int) - (((10 + 1) / 2 : Nat) : Int) + j ∧
      (50 : Int) - (((10 + 1) / 2 : Nat) : Int) + j + 1 < sampleScreen.g_ScreenHeight := by
    intro i j hi hj _
    show _ ∧ _ < (100 : Int) ∧ _ ∧ _ < (100 : Int)
    omega
  have key := DrawShape_upright_iff sampleLibm sampleScreen sampleHeartAt50 HEART_MASK
    11 10 50 50 rfl rfl rfl hx hy hin
  refine ⟨?_, ?_, ?_, ?_⟩
  · intro x y c hm
    obtain ⟨-, i, j, hi, hj, -, u, v, hu, hv, e1, e2⟩ := (key x y c).mp hm
    omega
  · exact (key 43 48 _).mpr ⟨rfl, 0, 3, by decide, by decide, by decide, -1, 0,
      Or.inl rfl, Or.inr (Or.inl rfl), by decide, by decide⟩
  · rintro ⟨i, j, -, -, -, u, v, hu, -, e1, -⟩
    omega
  · rintro ⟨i, u, e⟩
    have h2 : ((2 * ((i : Int) + u) : Int) : ℚ) = ((-3 : Int) : ℚ) := by
      push_cast
      linarith
    have h3 : 2 * ((i : Int) + u) = -3 := by exact_mod_cast h2
    omega

/-- C14: coordinate translation in `DrawParticlesToDIB`. A particle at global
`(gx, gy)` whose translated position lies in the buffer is handed to the
renderer of its kind as a copy at the buffer-local position
`(trunc gx − originX, trunc gy − originY)`, every other field unchanged; in
particular a particle at global `(originX + 5, originY + 5)` is handed over at
`(5, 5)`, for every origin, on any buffer of at least 6 × 6 pixels. -/
theorem C14_coordinate_translation (m : DrawLibm) (sc : Screen) (p : Particle) (r : Rng) :
    (0 ≤ truncInt p.x - sc.g_VirtualOffsetX →
      truncInt p.x - sc.g_VirtualOffsetX < sc.g_ScreenWidth →
      0 ≤ truncInt p.y - sc.g_VirtualOffsetY →
      truncInt p.y - sc.g_VirtualOffsetY < sc.g_ScreenHeight →
      drawParticle m sc p r = renderAdjusted m sc p.type
        { p with x := ((truncInt p.x - sc.g_VirtualOffsetX : Int) : ℚ),
                 y := ((truncInt p.y - sc.g_VirtualOffsetY : Int) : ℚ) } r) ∧
    (p.x = (sc.g_VirtualOffsetX : ℚ) + 5 → p.y = (sc.g_VirtualOffsetY : ℚ) + 5 →
      6 ≤ sc.g_ScreenWidth → 6 ≤ sc.g_ScreenHeight →
      drawParticle m sc p r = renderAdjusted m sc p.type { p with x := 5, y := 5 } r) := by
  have hgen : 0 ≤ truncInt p.x - sc.g_VirtualOffsetX →
      truncInt p.x - sc.g_VirtualOffsetX < sc.g_ScreenWidth →
      0 ≤ truncInt p.y - sc.g_VirtualOffsetY →
      truncInt p.y - sc.g_VirtualOffsetY < sc.g_ScreenHeight →
      drawParticle m sc p r = renderAdjusted m sc p.type
        { p with x := ((truncInt p.x - sc.g_VirtualOffsetX : Int) : ℚ),
                 y := ((truncInt p.y - sc.g_VirtualOffsetY : Int) : ℚ) } r := by
    intro h1 h2 h3 h4
    have hin : ¬ (truncInt p.x - sc.g_VirtualOffsetX < 0 ∨
        truncInt p.x - sc.g_VirtualOffsetX ≥ sc.g_ScreenWidth ∨
        truncInt p.y - sc.g_VirtualOffsetY < 0 ∨
        truncInt p.y - sc.g_VirtualOffsetY ≥ sc.g_ScreenHeight) := by omega
    simp only [drawParticle, hin, if_false]
  refine ⟨hgen, ?_⟩
  intro hx hy hw hh
  have tx : truncInt p.x = sc.g_VirtualOffsetX + 5 := by
    rw [hx, ← truncInt_intCast (sc.g_VirtualOffsetX + 5)]
    push_cast
    rfl
  have ty : truncInt p.y = sc.g_VirtualOffsetY + 5 := by
    rw [hy, ← truncInt_intCast (sc.g_VirtualOffsetY + 5)]
    push_cast
    rfl
  have ex : truncInt p.x - sc.g_VirtualOffsetX = 5 := by omega
  have ey : truncInt p.y - sc.g_VirtualOffsetY = 5 := by omega
  rw [hgen (by omega) (by omega) (by omega) (by omega), ex, ey]
  norm_num

/-- C14, instantiated: origin `(-1920, -200)`, the sample star at global
`(-1915, -195)`, a 100 × 100 buffer. -/
theorem C14_coordinate_translation_witness :
    ({ sampleStar with x := -1915, y := -195 } : Particle).x
      = (sampleScreen.g_VirtualOffsetX : ℚ) + 5 ∧
    ({ sampleStar with x := -1915, y := -195 } : Particle).y
      = (sampleScreen.g_VirtualOffsetY : ℚ) + 5 ∧
    6 ≤ sampleScreen.g_ScreenWidth ∧ 6 ≤ sampleScreen.g_ScreenHeight ∧
    drawParticle sampleDrawLibm sampleScreen { sampleStar with x := -1915, y := -195 }
        sampleRng
      = (DrawShape sampleLibm sampleScreen { sampleStar with x := 5, y := 5 }
          STAR_MASK 16 16, sampleRng) := by
  have hx : ({ sampleStar with x := -1915, y := -195 } : Particle).x
      = (sampleScreen.g_VirtualOffsetX : ℚ) + 5 := by norm_num [sampleScreen]
  have hy : ({ sampleStar with x := -1915, y := -195 } : Particle).y
      = (sampleScreen.g_VirtualOffsetY : ℚ) + 5 := by norm_num [sampleScreen]
  have hw : 6 ≤ sampleScreen.g_ScreenWidth := by decide
  have hh : 6 ≤ sampleScreen.g_ScreenHeight := by decide
  refine ⟨hx, hy, hw, hh, ?_⟩
  rw [(C14_coordinate_translation sampleDrawLibm sampleScreen
    { sampleStar with x := -1915, y := -195 } sampleRng).2 hx hy hw hh]
  rfl

/-- C16: bounds safety of every pixel store. For every particle pose, every
buffer size and every state of the generator, each store performed by
`DrawShape`, `DrawFire`, `DrawLine` (every prefix of its loop), `DrawSparks`,
`DrawSmoke`, `DrawSword`, and so by the per-particle body of
`DrawParticlesToDIB`, targets a pixel `(x, y)` with `0 ≤ x < width` and
`0 ≤ y < height`, whose index `y·width + x` lies in `[0, width·height)`. -/
theorem C16_writes_in_bounds (sc : Screen) :
    (∀ (m : Libm) (p : Particle) (mask : List Nat) (w h : Nat) (x y : Int) (c : Nat),
      Effect.write x y c ∈ DrawShape m sc p mask w h → InBuffer sc x y) ∧
    (∀ (m : Libm) (p : Particle) (r : Rng) (x y : Int) (c : Nat),
      Effect.write x y c ∈ (DrawFire m sc p r).1 → InBuffer sc x y) ∧
    (∀ (x1 y1 dx dy sx sy : Int) (color fuel : Nat) (x0 y0 err x y : Int) (c : Nat),
      Effect.write x y c ∈ drawLineLoop sc x1 y1 dx dy sx sy color fuel x0 y0 err →
        InBuffer sc x y) ∧
    (∀ (x0 y0 x1 y1 : Int) (color : Nat) (x y : Int) (c : Nat),
      Effect.write x y c ∈ DrawLine sc x0 y0 x1 y1 color → InBuffer sc x y) ∧
    (∀ (m : DrawLibm) (p : Particle) (r : Rng) (x y : Int) (c : Nat),
      Effect.write x y c ∈ (DrawSparks m sc p r).1 → InBuffer sc x y) ∧
    (∀ (m : DrawLibm) (p : Particle) (r : Rng) (x y : Int) (c : Nat),
      Effect.write x y c ∈ (DrawSmoke m sc p r).1 → InBuffer sc x y) ∧
    (∀ (m : Libm) (p : Particle) (x y : Int) (c : Nat),
      Effect.write x y c ∈ DrawSword m sc p → InBuffer sc x y) ∧
    (∀ (m : DrawLibm) (p : Particle) (r : Rng) (x y : Int) (c : Nat),
      Effect.write x y c ∈ (drawParticle m sc p r).1 → InBuffer sc x y) :=
  ⟨fun m p mask w h x y _ hm =>
      inBuffer_of_onScreen sc x y (DrawShape_all m sc p mask w h _ hm).1,
   fun m p r x y _ hm => inBuffer_of_onScreen sc x y (DrawFire_all m sc p r _ hm).1,
   fun x1 y1 dx dy sx sy color fuel x0 y0 err x y _ hm =>
      inBuffer_of_onScreen sc x y
        (drawLineLoop_all sc x1 y1 dx dy sx sy color fuel x0 y0 err _ hm).1,
   fun x0 y0 x1 y1 color x y _ hm =>
      inBuffer_of_onScreen sc x y (DrawLine_all sc x0 y0 x1 y1 color _ hm).1,
   fun m p r x y _ hm => inBuffer_of_onScreen sc x y (DrawSparks_all m sc p r _ hm).1,
   fun m p r x y _ hm => inBuffer_of_onScreen sc x y (DrawSmoke_all m sc p r _ hm),
   fun m p x y _ hm => inBuffer_of_onScreen sc x y (DrawSword_all m sc p _ hm).1,
   fun m p r x y _ hm => inBuffer_of_onScreen sc x y (drawParticle_all m sc p r _ hm)⟩

/-- C16, instantiated: the spark at `(50, 50)` on the sample screen stores its
first pixel at `(50, 50)`, inside the 100 × 100 buffer. -/
theorem C16_writes_in_bounds_witness :
    Effect.write 50 50 ((0xFF <<< 24) ||| (sampleSpark.color &&& 0xFFFFFF))
      ∈ (DrawSparks sampleDrawLibm sampleScreen sampleSpark sampleRng).1 ∧
    InBuffer sampleScreen 50 50 := by
  have hm : Effect.write 50 50 ((0xFF <<< 24) ||| (sampleSpark.color &&& 0xFFFFFF))
      ∈ (DrawSparks sampleDrawLibm sampleScreen sampleSpark sampleRng).1 := by
    have h := DrawSparks_first sampleDrawLibm sampleScreen sampleSpark sampleRng
      (by rw [show sampleSpark.x = ((50 : Int) : ℚ) by norm_num [sampleSpark],
            show sampleSpark.y = ((50 : Int) : ℚ) by norm_num [sampleSpark],
            truncInt_intCast]
          decide)
    rw [show sampleSpark.x = ((50 : Int) : ℚ) by norm_num [sampleSpark],
      show sampleSpark.y = ((50 : Int) : ℚ) by norm_num [sampleSpark],
      truncInt_intCast] at h
    exact h
  exact ⟨hm, (C16_writes_in_bounds sampleScreen).2.2.2.2.1 sampleDrawLibm sampleSpark
    sampleRng 50 50 _ hm⟩

/-- C17 (evaluation of the code): every division of `DrawFire` and of
`DrawSparks` has a non-zero divisor, but `DrawSmoke` divides `dist` by
`radius` without a test: for a smoke particle of scale 0.1 (radius 0) drawn
inside the buffer it executes one division by `0` and stores the centre
pixel (with alpha 0). -/
theorem C17_smoke_divides_by_zero_radius :
    (∀ (m : Libm) (sc : Screen) (p : Particle) (r : Rng) (d : ℚ),
      Effect.divide d ∈ (DrawFire m sc p r).1 → d ≠ 0) ∧
    (∀ (m : DrawLibm) (sc : Screen) (p : Particle) (r : Rng) (d : ℚ),
      Effect.divide d ∈ (DrawSparks m sc p r).1 → d ≠ 0) ∧
    0 ≤ sampleFaintSmoke.scale ∧
    truncInt (sampleFaintSmoke.scale * 8) = 0 ∧
    (DrawSmoke sampleDrawLibm sampleScreen sampleFaintSmoke sampleRng).1
      = [Effect.divide 0, Effect.write 5 5 0x969696] := by
  refine ⟨fun m sc p r d hm => (DrawFire_all m sc p r _ hm).2,
    fun m sc p r d hm => (DrawSparks_all m sc p r _ hm).2.2, ?_, ?_, ?_⟩
  · norm_num [sampleFaintSmoke]
  · decide!
  · decide!

/-- C18 (evaluation of the code): every pixel `DrawSparks` stores has the
value `0xFF000000 | (p.color & 0xFFFFFF)`, the `COLORREF` of the particle
unswapped. For the colour `RGB(0, g, b)` of the Sparks spawner (g in 100..155,
b in 200..255) that value has alpha 255, bits 16–23 (red) equal to `b`, bits
8–15 (green) equal to `g` and bits 0–7 (blue) equal to 0; the sample spark
with `RGB(0, 100, 200)` stores `0xFFC86400` at `(50, 50)`. -/
theorem C18_sparks_red_and_blue_swapped :
    (∀ (m : DrawLibm) (sc : Screen) (p : Particle) (r : Rng) (x y : Int) (c : Nat),
      Effect.write x y c ∈ (DrawSparks m sc p r).1 →
        c = (0xFF <<< 24) ||| (p.color &&& 0xFFFFFF)) ∧
    (∀ g b : Fin 56,
      ((0xFF <<< 24) ||| (RGB 0 (100 + g) (200 + b) &&& 0xFFFFFF)) >>> 24 = 255 ∧
      (((0xFF <<< 24) ||| (RGB 0 (100 + g) (200 + b) &&& 0xFFFFFF)) >>> 16) % 256
        = 200 + b ∧
      (((0xFF <<< 24) ||| (RGB 0 (100 + g) (200 + b) &&& 0xFFFFFF)) >>> 8) % 256
        = 100 + g ∧
      ((0xFF <<< 24) ||| (RGB 0 (100 + g) (200 + b) &&& 0xFFFFFF)) % 256 = 0) ∧
    Effect.write 50 50 0xFFC86400
      ∈ (DrawSparks sampleDrawLibm sampleScreen sampleSpark sampleRng).1 := by
  refine ⟨fun m sc p r x y c hm => (DrawSparks_all m sc p r _ hm).2.1, by decide, ?_⟩
  have h := DrawSparks_first sampleDrawLibm sampleScreen sampleSpark sampleRng
    (by rw [show sampleSpark.x = ((50 : Int) : ℚ) by norm_num [sampleSpark],
          show sampleSpark.y = ((50 : Int) : ℚ) by norm_num [sampleSpark],
          truncInt_intCast]
        decide)
  rw [show sampleSpark.x = ((50 : Int) : ℚ) by norm_num [sampleSpark],
    show sampleSpark.y = ((50 : Int) : ℚ) by norm_num [sampleSpark],
    truncInt_intCast] at h
  exact h

/-- C19: for every particle that is not a heart and every `dt`, one update
step gives `x' = x + vx·dt`, `y' = y + vy·dt` (with the `vy` from before
gravity), `vx' = vx`, `vy' = vy + 20·dt` for Stars, Sparks, Smoke and Sword
but `vy' = vy` for Fire, `angle' = angle + rotationSpeed·dt` for Stars, Sparks
and Sword but `angle' = angle` for Fire and Smoke, and `life' = life − dt`;
no `rand()` is consumed. The same holds along the loop over the store. -/
theorem C19_non_heart_update (dt : ℚ) :
    (∀ (p : Particle) (r : Rng), p.type ≠ .HEARTS →
      NonHeartStep dt p (updateParticle dt p r).1 ∧ (updateParticle dt p r).2 = r) ∧
    (∀ (ps : List Particle) (r : Rng),
      List.Forall₂ (fun p q => p.type ≠ .HEARTS → NonHeartStep dt p q)
        ps (updateLoop dt ps r).1) :=
  ⟨fun p r h => updateParticle_nonHeart dt p r h,
   updateLoop_forall₂ dt _ (fun p r h => (updateParticle_nonHeart dt p r h).1)⟩

/-- C19, instantiated at the sample star and `dt = 1/10`. -/
theorem C19_non_heart_update_witness :
    sampleStar.type ≠ .HEARTS ∧
    (updateParticle (1 / 10) sampleStar sampleRng).1.x = 112 ∧
    (updateParticle (1 / 10) sampleStar sampleRng).1.y = 99 ∧
    (updateParticle (1 / 10) sampleStar sampleRng).1.vy = -8 ∧
    NonHeartStep (1 / 10) sampleStar (updateParticle (1 / 10) sampleStar sampleRng).1 := by
  have hk : sampleStar.type ≠ .HEARTS := by decide
  have h := ((C19_non_heart_update (1 / 10)).1 sampleStar sampleRng hk).1
  refine ⟨hk, ?_, ?_, ?_, h⟩
  · rw [h.1]; norm_num [sampleStar]
  · rw [h.2.1]; norm_num [sampleStar]
  · rw [h.2.2.2.2.1 (Or.inl rfl)]; norm_num [sampleStar]

/-- C20: for every heart and every `dt`, one update step first sets
`vx1 = 1.01·vx + d` with the drift `d` one of −0.1, −0.05, 0, 0.05, 0.1 and
`vy1 = 1.03·vy − 5·dt`, then integrates the position with the modified
velocity, applies no gravity (`vx' = vx1`, `vy' = vy1`), rotates and ages;
one `rand()` is consumed. The same holds along the loop over the store. -/
theorem C20_heart_update (dt : ℚ) :
    (∀ (p : Particle) (r : Rng), p.type = .HEARTS →
      HeartStep dt p (updateParticle dt p r).1 ∧ (updateParticle dt p r).2 = r.next) ∧
    (∀ (ps : List Particle) (r : Rng),
      List.Forall₂ (fun p q => p.type = .HEARTS → HeartStep dt p q)
        ps (updateLoop dt ps r).1) :=
  ⟨fun p r h => updateParticle_heart dt p r h,
   updateLoop_forall₂ dt _ (fun p r h => (updateParticle_heart dt p r h).1)⟩

/-- C20, instantiated at the sample heart and `dt = 1/10`. -/
theorem C20_heart_update_witness :
    sampleHeart.type = .HEARTS ∧
    (updateParticle (1 / 10) sampleHeart sampleRng).1.vy = -417 / 10 ∧
    (updateParticle (1 / 10) sampleHeart sampleRng).1.y = 19583 / 100 ∧
    HeartStep (1 / 10) sampleHeart (updateParticle (1 / 10) sampleHeart sampleRng).1 := by
  have hk : sampleHeart.type = .HEARTS := rfl
  have h := ((C20_heart_update (1 / 10)).1 sampleHeart sampleRng hk).1
  have hvy : (updateParticle (1 / 10) sampleHeart sampleRng).1.vy = -417 / 10 := by
    rw [h.2.1]; norm_num [sampleHeart]
  refine ⟨hk, hvy, ?_, h⟩
  rw [h.2.2.2.1, hvy]; norm_num [sampleHeart]

/-- C21: one update step gives a particle the scale
`scale * (1 - (1 - r)^3)`, where `r = life' / maxLife` if the decremented life
`life' = life - dt` is positive and `r = 0` otherwise; hence, for `dt ≥ 0`,
`0 < life ≤ maxLife` and `scale ≥ 0`, the new scale lies between `0` and the
old scale. -/
theorem C21_scale_step (dt : ℚ) (p : Particle) (r : Rng)
    (hdt : 0 ≤ dt) (hlife : 0 < p.life) (hle : p.life ≤ p.maxLife) (hs : 0 ≤ p.scale) :
    (updateParticle dt p r).1.scale =
      p.scale * (1 - (1 - (if 0 < p.life - dt then (p.life - dt) / p.maxLife else 0)) ^ 3) ∧
    0 ≤ (updateParticle dt p r).1.scale ∧
    (updateParticle dt p r).1.scale ≤ p.scale := by
  have hscale : (updateParticle dt p r).1.scale =
      p.scale * fadeFactor (if 0 < p.life - dt then (p.life - dt) / p.maxLife else 0) := rfl
  have hmax : 0 < p.maxLife := lt_of_lt_of_le hlife hle
  have hr : 0 ≤ (if 0 < p.life - dt then (p.life - dt) / p.maxLife else 0) ∧
      (if 0 < p.life - dt then (p.life - dt) / p.maxLife else 0) ≤ 1 := by
    by_cases h : 0 < p.life - dt
    · rw [if_pos h]
      refine ⟨by positivity, ?_⟩
      rw [div_le_one hmax]
      linarith
    · rw [if_neg h]
      exact ⟨le_refl _, zero_le_one⟩
  obtain ⟨hf0, hf1⟩ := fadeFactor_unit _ hr.1 hr.2
  refine ⟨hscale, ?_, ?_⟩
  · rw [hscale]
    exact mul_nonneg hs hf0
  · rw [hscale]
    exact mul_le_of_le_one_right hs hf1

/-- C21, instantiated: the sample star (life 0.4 of 0.4, scale 1) after a step
of 0.1 s has scale `1 - (1/4)^3 = 63/64`. -/
theorem C21_scale_step_witness :
    (0 : ℚ) ≤ 1 / 10 ∧ 0 < sampleStar.life ∧ sampleStar.life ≤ sampleStar.maxLife ∧
    0 ≤ sampleStar.scale ∧
    (updateParticle (1 / 10) sampleStar sampleRng).1.scale = 63 / 64 ∧
    0 ≤ (updateParticle (1 / 10) sampleStar sampleRng).1.scale ∧
    (updateParticle (1 / 10) sampleStar sampleRng).1.scale ≤ sampleStar.scale := by
  have h1 : (0 : ℚ) ≤ 1 / 10 := by norm_num
  have h2 : 0 < sampleStar.life := by norm_num [sampleStar]
  have h3 : sampleStar.life ≤ sampleStar.maxLife := by norm_num [sampleStar]
  have h4 : 0 ≤ sampleStar.scale := by norm_num [sampleStar]
  have h := C21_scale_step (1 / 10) sampleStar sampleRng h1 h2 h3 h4
  refine ⟨h1, h2, h3, h4, ?_, h.2.1, h.2.2⟩
  rw [h.1]
  norm_num [sampleStar]

/-- C22: a common-path spawn tick that moves the pointer from `P` (the recorded
position) to `C ≠ P` appends `n ≥ 1` particles, the `i`-th (from 0) at
`P + t_i * (C - P)` with `t_i = (i + 1) / (n + 1)`; `0 < t_i < 1` and `t_i` is
strictly increasing in `i`, so no particle is created at `P` or at `C`. -/
theorem C22_spawn_positions (m : Libm) (pt : POINT) (s : State)
    (hkind : s.g_activeParticleSystem ≠ .HEARTS)
    (hrec : s.g_lastMousePos ≠ { x := -1, y := -1 })
    (hmove : pt ≠ s.g_lastMousePos) :
    ∃ new : List Particle,
      (SpawnParticlesOnMouseMove m pt s).g_particles = s.g_particles ++ new ∧
      0 < new.length ∧
      ∀ (i : Nat) (hi : i < new.length),
        spawnParam new.length i = ((i : ℚ) + 1) / ((new.length : ℚ) + 1) ∧
        (new.get ⟨i, hi⟩).x = (s.g_lastMousePos.x : ℚ)
          + spawnParam new.length i * ((pt.x : ℚ) - (s.g_lastMousePos.x : ℚ)) ∧
        (new.get ⟨i, hi⟩).y = (s.g_lastMousePos.y : ℚ)
          + spawnParam new.length i * ((pt.y : ℚ) - (s.g_lastMousePos.y : ℚ)) ∧
        0 < spawnParam new.length i ∧ spawnParam new.length i < 1 ∧
        spawnParam new.length i < spawnParam new.length (i + 1) ∧
        ¬ ((new.get ⟨i, hi⟩).x = (s.g_lastMousePos.x : ℚ) ∧
            (new.get ⟨i, hi⟩).y = (s.g_lastMousePos.y : ℚ)) ∧
        ¬ ((new.get ⟨i, hi⟩).x = (pt.x : ℚ) ∧ (new.get ⟨i, hi⟩).y = (pt.y : ℚ)) := by
  obtain ⟨new, h1, h2, h3⟩ := spawn_tick_created m pt s hkind ((isUnset_false_iff _).mpr hrec)
  have hgt : sqrtGt (distSq s.g_lastMousePos pt) 0 = true :=
    (sqrtGt_zero_iff _).mpr ((distSq_pos_iff _ _).mpr hmove)
  rw [if_pos hgt] at h2
  have hlen : 0 < new.length := by
    rw [h2]
    exact lt_of_lt_of_le Nat.zero_lt_one (le_max_left _ _)
  refine ⟨new, h1, hlen, ?_⟩
  intro i hi
  obtain ⟨r, hr⟩ := h3 i hi
  obtain ⟨ht0, ht1, ht2⟩ := spawnParam_bounds new.length i hi
  have hx : (new.get ⟨i, hi⟩).x = (s.g_lastMousePos.x : ℚ)
      + spawnParam new.length i * ((pt.x : ℚ) - (s.g_lastMousePos.x : ℚ)) := by
    rw [hr]
    show (s.g_lastMousePos.x : ℚ) + ((i : ℚ) + 1) / ((new.length : ℚ) + 1)
      * ((pt.x - s.g_lastMousePos.x : Int) : ℚ) = _
    rw [Int.cast_sub]
    rfl
  have hy : (new.get ⟨i, hi⟩).y = (s.g_lastMousePos.y : ℚ)
      + spawnParam new.length i * ((pt.y : ℚ) - (s.g_lastMousePos.y : ℚ)) := by
    rw [hr]
    show (s.g_lastMousePos.y : ℚ) + ((i : ℚ) + 1) / ((new.length : ℚ) + 1)
      * ((pt.y - s.g_lastMousePos.y : Int) : ℚ) = _
    rw [Int.cast_sub]
    rfl
  have hdiff : ((pt.x : ℚ) - (s.g_lastMousePos.x : ℚ)) ≠ 0 ∨
      ((pt.y : ℚ) - (s.g_lastMousePos.y : ℚ)) ≠ 0 := by
    by_contra hc
    push_neg at hc
    apply hmove
    have hxe : pt.x = s.g_lastMousePos.x := by exact_mod_cast sub_eq_zero.mp hc.1
    have hye : pt.y = s.g_lastMousePos.y := by exact_mod_cast sub_eq_zero.mp hc.2
    cases pt
    cases hl : s.g_lastMousePos
    rw [hl] at hxe hye
    simp only at hxe hye
    rw [hxe, hye]
  refine ⟨rfl, hx, hy, ht0, ht1, ht2, ?_, ?_⟩
  · rintro ⟨ex, ey⟩
    rw [hx] at ex
    rw [hy] at ey
    have e1 : spawnParam new.length i * ((pt.x : ℚ) - (s.g_lastMousePos.x : ℚ)) = 0 := by
      linarith
    have e2 : spawnParam new.length i * ((pt.y : ℚ) - (s.g_lastMousePos.y : ℚ)) = 0 := by
      linarith
    rcases hdiff with hd | hd
    · exact (mul_ne_zero ht0.ne' hd) e1
    · exact (mul_ne_zero ht0.ne' hd) e2
  · rintro ⟨ex, ey⟩
    rw [hx] at ex
    rw [hy] at ey
    have e1 : (1 - spawnParam new.length i) * ((pt.x : ℚ) - (s.g_lastMousePos.x : ℚ)) = 0 := by
      linarith
    have e2 : (1 - spawnParam new.length i) * ((pt.y : ℚ) - (s.g_lastMousePos.y : ℚ)) = 0 := by
      linarith
    have hpos : (1 - spawnParam new.length i) ≠ 0 := by linarith
    rcases hdiff with hd | hd
    · exact (mul_ne_zero hpos hd) e1
    · exact (mul_ne_zero hpos hd) e2

/-- C22, instantiated: Stars, pointer moved from (100,100) to (130,100). -/
theorem C22_spawn_positions_witness :
    (sampleState .STARS).g_activeParticleSystem ≠ .HEARTS ∧
    (sampleState .STARS).g_lastMousePos ≠ { x := -1, y := -1 } ∧
    ({ x := 130, y := 100 } : POINT) ≠ (sampleState .STARS).g_lastMousePos ∧
    ∃ new : List Particle,
      (SpawnParticlesOnMouseMove sampleLibm { x := 130, y := 100 }
        (sampleState .STARS)).g_particles = new ∧
      0 < new.length ∧
      ∀ (i : Nat) (hi : i < new.length),
        (new.get ⟨i, hi⟩).x = 100 + ((i : ℚ) + 1) / ((new.length : ℚ) + 1) * 30 ∧
        (new.get ⟨i, hi⟩).y = 100 := by
  have hk : (sampleState .STARS).g_activeParticleSystem ≠ .HEARTS := by decide
  have hr : (sampleState .STARS).g_lastMousePos ≠ { x := -1, y := -1 } := by decide
  have hm : ({ x := 130, y := 100 } : POINT) ≠ (sampleState .STARS).g_lastMousePos := by
    decide
  obtain ⟨new, h1, h2, h3⟩ :=
    C22_spawn_positions sampleLibm { x := 130, y := 100 } (sampleState .STARS) hk hr hm
  refine ⟨hk, hr, hm, new, by simpa [sampleState] using h1, h2, ?_⟩
  intro i hi
  obtain ⟨ht, hx, hy, -⟩ := h3 i hi
  constructor
  · rw [hx, ht]
    norm_num [sampleState]
  · rw [hy]
    norm_num [sampleState]

/-- C23: after a spawn tick of any kind the tracked previous position equals
the pointer position observed in that tick, whether or not a particle was
appended: in particular when the pointer did not move (distance 0, nothing
appended) and when Hearts is active and the move is at most 5 pixels
(nothing appended). -/
theorem C23_tracked_position (m : Libm) (pt : POINT) (s : State) :
    (SpawnParticlesOnMouseMove m pt s).g_lastMousePos = pt ∧
    (pt = s.g_lastMousePos →
      (SpawnParticlesOnMouseMove m pt s).g_particles = s.g_particles ∧
      (SpawnParticlesOnMouseMove m pt s).g_lastMousePos = pt) ∧
    (s.g_activeParticleSystem = .HEARTS →
      Real.sqrt (((pt.x - s.g_lastMousePos.x) ^ 2
          + (pt.y - s.g_lastMousePos.y) ^ 2 : Int) : ℝ) ≤ 5 →
      (SpawnParticlesOnMouseMove m pt s).g_particles = s.g_particles ∧
      (SpawnParticlesOnMouseMove m pt s).g_lastMousePos = pt) := by
  have hlast := spawn_lastMousePos m pt s
  have hheart : s.g_activeParticleSystem = .HEARTS →
      sqrtGt (distSq s.g_lastMousePos pt) 5 = false →
      (SpawnParticlesOnMouseMove m pt s).g_particles = s.g_particles := by
    intro hk hb
    by_cases hu : isUnset s.g_lastMousePos = true
    · rw [spawn_unset m pt s hu]
    · have hrec : isUnset s.g_lastMousePos = false := by simpa using hu
      have hdisp : SpawnParticlesOnMouseMove m pt s = SpawnHeartsOnMouseMove m pt s := by
        unfold SpawnParticlesOnMouseMove
        rw [hk]
      rw [hdisp, (SpawnHeartsOnMouseMove_spec m pt s hrec).1, hb]
      rfl
  refine ⟨hlast, ?_, ?_⟩
  · intro hsame
    refine ⟨?_, hlast⟩
    have hz : distSq s.g_lastMousePos pt = 0 := by
      by_contra hne
      exact (distSq_pos_iff _ _).mp (Nat.pos_of_ne_zero hne) hsame
    by_cases hu : isUnset s.g_lastMousePos = true
    · rw [spawn_unset m pt s hu]
    · have hrec : isUnset s.g_lastMousePos = false := by simpa using hu
      by_cases hk : s.g_activeParticleSystem = .HEARTS
      · apply hheart hk
        rw [hz]
        simp [sqrtGt]
      · obtain ⟨new, h1, h2, -⟩ := spawn_tick_created m pt s hk hrec
        have hb : ¬ sqrtGt (distSq s.g_lastMousePos pt) 0 = true := by
          rw [sqrtGt_zero_iff, hz]
          exact lt_irrefl 0
        rw [if_neg hb] at h2
        rw [h1, List.length_eq_zero.mp h2, List.append_nil]
  · intro hk h5
    refine ⟨hheart hk ?_, hlast⟩
    have hgt := sqrtGt_iff (distSq s.g_lastMousePos pt) 5
    rw [distSq_cast] at hgt
    by_contra hb
    have hb2 : sqrtGt (distSq s.g_lastMousePos pt) 5 = true := by simpa using hb
    have := hgt.mp hb2
    have h6 : ((5 : ℚ) : ℝ) = 5 := by norm_num
    rw [h6] at this
    exact absurd this (not_lt.mpr h5)

/-- C24: the velocity `SpawnParticlesCommon` gives a particle, with
`speed = 25 + rand() % 30` (so `25 ≤ speed < 55`) and emission angle `a`.
In both branches `vx = 0.5 * speed * cos a`, so `|vx| ≤ 27.5`; without upward
bias `vy = 0.5 * speed * sin a`, so `|vy| ≤ 27.5`. With upward bias the code
stores `vy = -|speed * sin a|`, without the factor 0.5 the other branch
applies: a Stars tick whose emission angle has sine 1 and whose speed draw is
54 creates a particle with `vy = -54`, outside the bound 27.5. -/
theorem C24_upward_bias_not_halved :
    (∀ (m : Libm) (type : ParticleType) (cf : Option (Rng → Nat × Rng))
        (minLife maxLife scaleMin scaleMax : ℚ) (rot up : Bool) (last : POINT)
        (dx dy : ℚ) (n i : Nat) (r : Rng),
      (spawnCommonParticle m type cf minLife maxLife scaleMin scaleMax rot up
        last dx dy n i r).1.vx =
        (1 / 2) * (25 + ((r.next.val % 30 : Nat) : ℚ))
          * m.cosf ((((r.val % 360 : Nat) : ℚ) / 180) * PI_F) ∧
      (up = false →
        (spawnCommonParticle m type cf minLife maxLife scaleMin scaleMax rot up
          last dx dy n i r).1.vy =
          (1 / 2) * (25 + ((r.next.val % 30 : Nat) : ℚ))
            * m.sinf ((((r.val % 360 : Nat) : ℚ) / 180) * PI_F)) ∧
      (up = true →
        (spawnCommonParticle m type cf minLife maxLife scaleMin scaleMax rot up
          last dx dy n i r).1.vy =
          - |(25 + ((r.next.val % 30 : Nat) : ℚ))
            * m.sinf ((((r.val % 360 : Nat) : ℚ) / 180) * PI_F)|) ∧
      (25 : ℚ) ≤ 25 + ((r.next.val % 30 : Nat) : ℚ) ∧
      25 + ((r.next.val % 30 : Nat) : ℚ) < 55 ∧
      ((∀ q : ℚ, |m.cosf q| ≤ 1) →
        |(spawnCommonParticle m type cf minLife maxLife scaleMin scaleMax rot up
          last dx dy n i r).1.vx| ≤ 55 / 2) ∧
      ((∀ q : ℚ, |m.sinf q| ≤ 1) → up = false →
        |(spawnCommonParticle m type cf minLife maxLife scaleMin scaleMax rot up
          last dx dy n i r).1.vy| ≤ 55 / 2)) ∧
    (∃ p ∈ (SpawnParticlesOnMouseMove quarterTurnLibm { x := 103, y := 100 }
        (sampleStateWith .STARS steepRng)).g_particles,
      p.type = .STARS ∧ p.vy = -54 ∧ ¬ |p.vy| ≤ 55 / 2) := by
  constructor
  · intro m type cf minLife maxLife scaleMin scaleMax rot up last dx dy n i r
    obtain ⟨hvx, hvy⟩ := spawnCommonParticle_velocity m type cf minLife maxLife scaleMin
      scaleMax rot up last dx dy n i r
    have hlt : r.next.val % 30 < 30 := Nat.mod_lt _ (by norm_num)
    have hs0 : (25 : ℚ) ≤ 25 + ((r.next.val % 30 : Nat) : ℚ) := by
      have : (0 : ℚ) ≤ ((r.next.val % 30 : Nat) : ℚ) := Nat.cast_nonneg _
      linarith
    have hs1 : 25 + ((r.next.val % 30 : Nat) : ℚ) < 55 := by
      have : ((r.next.val % 30 : Nat) : ℚ) < 30 := by exact_mod_cast hlt
      linarith
    have hbound : ∀ c : ℚ, |c| ≤ 1 →
        |(1 / 2) * (25 + ((r.next.val % 30 : Nat) : ℚ)) * c| ≤ 55 / 2 := by
      intro c hc
      rw [abs_mul, abs_of_nonneg (by linarith : (0 : ℚ) ≤ (1 / 2) * (25 + ((r.next.val % 30 : Nat) : ℚ)))]
      have h1 : (1 / 2) * (25 + ((r.next.val % 30 : Nat) : ℚ)) * |c|
          ≤ (1 / 2) * (25 + ((r.next.val % 30 : Nat) : ℚ)) * 1 :=
        mul_le_mul_of_nonneg_left hc (by linarith)
      linarith
    refine ⟨hvx, ?_, ?_, hs0, hs1, ?_, ?_⟩
    · intro hu
      rw [hvy, hu]
      simp only [Bool.false_eq_true, if_false]
    · intro hu
      rw [hvy, hu]
      simp only [if_true]
    · intro hc
      rw [hvx]
      exact hbound _ (hc _)
    · intro hsn hu
      rw [hvy, hu]
      simp only [Bool.false_eq_true, if_false]
      exact hbound _ (hsn _)
  · obtain ⟨n, rest, h⟩ := spawn_tick_first quarterTurnLibm { x := 103, y := 100 }
      (sampleStateWith .STARS steepRng) (by decide) (by decide) (by decide)
    have hvy := (spawnCommonParticle_velocity quarterTurnLibm .STARS (some (kindColor .STARS))
      (specMinLife .STARS) (specMaxLife .STARS) (specScaleMin .STARS) (specScaleMax .STARS)
      (specRotation .STARS) (specUpwardBias .STARS) { x := 100, y := 100 }
      (((103 : Int) - 100 : Int) : ℚ) (((100 : Int) - 100 : Int) : ℚ) n 0 steepRng).2
    have hval : (spawnCommonParticle quarterTurnLibm .STARS (some (kindColor .STARS))
        (specMinLife .STARS) (specMaxLife .STARS) (specScaleMin .STARS) (specScaleMax .STARS)
        (specRotation .STARS) (specUpwardBias .STARS) { x := 100, y := 100 }
        (((103 : Int) - 100 : Int) : ℚ) (((100 : Int) - 100 : Int) : ℚ) n 0 steepRng).1.vy
        = -54 := by
      rw [hvy]
      norm_num [specUpwardBias, steepRng, Rng.next, Rng.val, RAND_MAX, quarterTurnLibm]
    refine ⟨_, ?_, rfl, hval, ?_⟩
    · rw [h]
      exact List.mem_append_right _ (List.mem_cons_self _ _)
    · rw [hval]
      norm_num

/-- C25: the kinds with upward bias (Stars, Smoke and Sword on the common path,
and Hearts) create every particle with an initial vertical velocity that is
never positive. -/
theorem C25_upward_bias_sign (m : Libm) (pt : POINT) (s : State)
    (hkind : s.g_activeParticleSystem = .STARS ∨ s.g_activeParticleSystem = .SMOKE ∨
      s.g_activeParticleSystem = .SWORD ∨ s.g_activeParticleSystem = .HEARTS) :
    ∃ new : List Particle,
      (SpawnParticlesOnMouseMove m pt s).g_particles = s.g_particles ++ new ∧
      ∀ p ∈ new, p.vy ≤ 0 := by
  obtain ⟨new, h1, h2⟩ := spawn_tick_any m pt s
  refine ⟨new, h1, ?_⟩
  intro p hp
  rcases h2 p hp with ⟨-, r, hr⟩ | ⟨hk, last, dx, dy, n, i, r, hr⟩
  · rw [hr]
    exact neg_nonpos.mpr (abs_nonneg _)
  · have hup : specUpwardBias s.g_activeParticleSystem = true := by
      rcases hkind with h | h | h | h
      · rw [h]; rfl
      · rw [h]; rfl
      · rw [h]; rfl
      · exact absurd h hk
    rw [hr, (spawnCommonParticle_velocity m _ _ _ _ _ _ _ _ last dx dy n i r).2, hup]
    simp only [if_true]
    exact neg_nonpos.mpr (abs_nonneg _)

/-- C25, instantiated: a Smoke tick from (100,100) to (130,100) appends
particles, at least one, and none has a positive vertical velocity. -/
theorem C25_upward_bias_sign_witness :
    ((sampleState .SMOKE).g_activeParticleSystem = .STARS ∨
      (sampleState .SMOKE).g_activeParticleSystem = .SMOKE ∨
      (sampleState .SMOKE).g_activeParticleSystem = .SWORD ∨
      (sampleState .SMOKE).g_activeParticleSystem = .HEARTS) ∧
    ∃ new : List Particle,
      (SpawnParticlesOnMouseMove quarterTurnLibm { x := 130, y := 100 }
        (sampleState .SMOKE)).g_particles = new ∧
      new ≠ [] ∧ ∀ p ∈ new, p.vy ≤ 0 := by
  have hk : (sampleState .SMOKE).g_activeParticleSystem = .STARS ∨
      (sampleState .SMOKE).g_activeParticleSystem = .SMOKE ∨
      (sampleState .SMOKE).g_activeParticleSystem = .SWORD ∨
      (sampleState .SMOKE).g_activeParticleSystem = .HEARTS := Or.inr (Or.inl rfl)
  obtain ⟨new, h1, h2⟩ := C25_upward_bias_sign quarterTurnLibm { x := 130, y := 100 }
    (sampleState .SMOKE) hk
  obtain ⟨n, rest, h3⟩ := spawn_tick_first quarterTurnLibm { x := 130, y := 100 }
    (sampleState .SMOKE) (by decide) (by decide) (by decide)
  refine ⟨hk, new, by simpa [sampleState] using h1, ?_, h2⟩
  intro hnil
  rw [h1, hnil] at h3
  simp [sampleState] at h3

/-- C27: `DrawSword` scans the local points `(lx, ly)`, `-60 ≤ ly ≤ 20`,
`-20 ≤ lx ≤ 20`, and at each point whose screen position passes the bounds
test it stores the colour of the first part containing the point, in the order
blade (silver `0xFFC0C0C0`), guard (gold `0xFFFFD700`), hilt (brown
`0xFF8B4513`), pommel (dark grey `0xFF696969`), and stores nothing for a point
in no part; so each point gets at most one colour and the earlier part wins
where parts overlap: `(0, 0)` is silver, `(0, 4)` gold, `(0, 14)` brown. -/
theorem C27_sword_parts :
    (∀ (m : Libm) (sc : Screen) (p : Particle),
      DrawSword m sc p =
        (intRange (-60) 20).flatMap fun ly =>
          (intRange (-20) 20).flatMap fun lx =>
            if onScreen sc
                (truncInt (p.x + ((lx : ℚ) * p.scale * m.cosf p.angle
                  - (ly : ℚ) * p.scale * m.sinf p.angle)))
                (truncInt (p.y + ((lx : ℚ) * p.scale * m.sinf p.angle
                  + (ly : ℚ) * p.scale * m.cosf p.angle))) then
              (match specSwordColor lx ly with
                | some c =>
                  [Effect.write
                    (truncInt (p.x + ((lx : ℚ) * p.scale * m.cosf p.angle
                      - (ly : ℚ) * p.scale * m.sinf p.angle)))
                    (truncInt (p.y + ((lx : ℚ) * p.scale * m.sinf p.angle
                      + (ly : ℚ) * p.scale * m.cosf p.angle))) c]
                | none => [])
            else []) ∧
    (∀ lx ly : Int, (|lx| ≤ 3 ∧ -50 ≤ ly ∧ ly ≤ 0) → specSwordColor lx ly = some 0xFFC0C0C0) ∧
    (∀ lx ly : Int, ¬ (|lx| ≤ 3 ∧ -50 ≤ ly ∧ ly ≤ 0) → (|lx| ≤ 10 ∧ 0 ≤ ly ∧ ly ≤ 4) →
      specSwordColor lx ly = some 0xFFFFD700) ∧
    (∀ lx ly : Int, ¬ (|lx| ≤ 3 ∧ -50 ≤ ly ∧ ly ≤ 0) → ¬ (|lx| ≤ 10 ∧ 0 ≤ ly ∧ ly ≤ 4) →
      (|lx| ≤ 2 ∧ 4 ≤ ly ∧ ly ≤ 14) → specSwordColor lx ly = some 0xFF8B4513) ∧
    (∀ lx ly : Int, ¬ (|lx| ≤ 3 ∧ -50 ≤ ly ∧ ly ≤ 0) → ¬ (|lx| ≤ 10 ∧ 0 ≤ ly ∧ ly ≤ 4) →
      ¬ (|lx| ≤ 2 ∧ 4 ≤ ly ∧ ly ≤ 14) → lx ^ 2 + (ly - 14) ^ 2 ≤ 9 →
      specSwordColor lx ly = some 0xFF696969) ∧
    (∀ lx ly : Int, ¬ (|lx| ≤ 3 ∧ -50 ≤ ly ∧ ly ≤ 0) → ¬ (|lx| ≤ 10 ∧ 0 ≤ ly ∧ ly ≤ 4) →
      ¬ (|lx| ≤ 2 ∧ 4 ≤ ly ∧ ly ≤ 14) → ¬ lx ^ 2 + (ly - 14) ^ 2 ≤ 9 →
      specSwordColor lx ly = none) ∧
    specSwordColor 0 0 = some 0xFFC0C0C0 ∧ specSwordColor 0 4 = some 0xFFFFD700 ∧
    specSwordColor 0 14 = some 0xFF8B4513 ∧ specSwordColor 0 17 = some 0xFF696969 ∧
    specSwordColor 0 18 = none := by
  refine ⟨?_, ?_, ?_, ?_, ?_, ?_, by decide, by decide, by decide, by decide, by decide⟩
  · intro m sc p
    unfold DrawSword
    dsimp only
    congr 1
    funext ly
    congr 1
    funext lx
    by_cases hon : onScreen sc
        (truncInt (p.x + ((lx : ℚ) * p.scale * m.cosf p.angle
          - (ly : ℚ) * p.scale * m.sinf p.angle)))
        (truncInt (p.y + ((lx : ℚ) * p.scale * m.sinf p.angle
          + (ly : ℚ) * p.scale * m.cosf p.angle))) = true
    · simp only [hon, if_true]
      exact sword_point lx ly _ _
    · simp only [hon, Bool.false_eq_true, if_false]
  · intro lx ly h1
    simp only [specSwordColor, h1, and_self, if_true]
  · intro lx ly h1 h2
    simp only [specSwordColor, h1, h2, and_self, if_true, if_false]
  · intro lx ly h1 h2 h3
    simp only [specSwordColor, h1, h2, h3, and_self, if_true, if_false]
  · intro lx ly h1 h2 h3 h4
    simp only [specSwordColor, h1, h2, h3, h4, and_self, if_true, if_false]
  · intro lx ly h1 h2 h3 h4
    simp only [specSwordColor, h1, h2, h3, h4, and_self, if_true, if_false]

/-- C28: every pixel value `DrawSmoke` stores has an alpha byte (bits 24–31)
between 0 and 150 and colour bits (0–23) equal to `color & 0xFFFFFF` of the
particle. -/
theorem C28_smoke_opacity (m : DrawLibm) (sc : Screen) (p : Particle) (r : Rng)
    (x y : Int) (c : Nat) (h : Effect.write x y c ∈ (DrawSmoke m sc p r).1) :
    0 ≤ c >>> 24 ∧ c >>> 24 ≤ 150 ∧ c &&& 0xFFFFFF = p.color &&& 0xFFFFFF ∧
      c < 4294967296 := by
  obtain ⟨h1, h2, h3⟩ := DrawSmoke_smoke m sc p r _ h
  exact ⟨Nat.zero_le _, h1, h2, h3⟩

/-- C28, instantiated: the centre pixel of a smoke puff of radius 1 is stored
with alpha `0x94 = 148` over the grey `0x969696` of the particle. -/
theorem C28_smoke_opacity_witness :
    Effect.write 5 5 0x94969696 ∈
      (DrawSmoke sampleDrawLibm sampleScreen sampleSmokePuff sampleRng).1 ∧
    (0x94969696 : Nat) >>> 24 = 148 ∧
    (0x94969696 : Nat) >>> 24 ≤ 150 ∧
    (0x94969696 : Nat) &&& 0xFFFFFF = sampleSmokePuff.color &&& 0xFFFFFF := by
  have hm : Effect.write 5 5 0x94969696 ∈
      (DrawSmoke sampleDrawLibm sampleScreen sampleSmokePuff sampleRng).1 := by decide!
  have h := C28_smoke_opacity sampleDrawLibm sampleScreen sampleSmokePuff sampleRng 5 5 _ hm
  exact ⟨hm, by decide, h.2.1, h.2.2.1⟩

/-- C29: `DrawLine` terminates for all integer endpoints (more iterations than
it is given change nothing); its loop visits `max(|x1 - x0|, |y1 - y0|) + 1`
points, the first `(x0, y0)` and the last `(x1, y1)`, each step moving by `sx`
or 0 in `x` and by `sy` or 0 in `y` and by at least one of them (`sx`, `sy`
being 1 or -1, so consecutive points are 8-neighbours); the pixels it stores,
all with the value `color`, are exactly the visited points that lie in the
buffer. -/
theorem C29_line_path (sc : Screen) (x0 y0 x1 y1 : Int) (color : Nat) :
    (∀ extra : Nat,
      drawLineLoop sc x1 y1 |x1 - x0| |y1 - y0| (if x0 < x1 then 1 else -1)
        (if y0 < y1 then 1 else -1) color
        ((|x1 - x0|).toNat + (|y1 - y0|).toNat + 1 + extra) x0 y0 (|x1 - x0| - |y1 - y0|)
        = DrawLine sc x0 y0 x1 y1 color) ∧
    (∀ extra : Nat,
      lineVisitLoop x1 y1 |x1 - x0| |y1 - y0| (if x0 < x1 then 1 else -1)
        (if y0 < y1 then 1 else -1)
        ((|x1 - x0|).toNat + (|y1 - y0|).toNat + 1 + extra) x0 y0 (|x1 - x0| - |y1 - y0|)
        = lineVisits x0 y0 x1 y1) ∧
    ((lineVisits x0 y0 x1 y1).length : Int) = max |x1 - x0| |y1 - y0| + 1 ∧
    (lineVisits x0 y0 x1 y1).head? = some { x := x0, y := y0 } ∧
    (lineVisits x0 y0 x1 y1).getLast? = some { x := x1, y := y1 } ∧
    List.Chain' (fun q q' : POINT =>
        (q'.x = q.x + (if x0 < x1 then 1 else -1) ∨ q'.x = q.x) ∧
        (q'.y = q.y + (if y0 < y1 then 1 else -1) ∨ q'.y = q.y) ∧ q' ≠ q)
      (lineVisits x0 y0 x1 y1) ∧
    DrawLine sc x0 y0 x1 y1 color =
      ((lineVisits x0 y0 x1 y1).filter (fun q => onScreen sc q.x q.y)).map
        (fun q => Effect.write q.x q.y color) ∧
    lineVisits 0 0 3 1 = [{ x := 0, y := 0 }, { x := 1, y := 0 }, { x := 2, y := 1 },
      { x := 3, y := 1 }] := by
  obtain ⟨h1, h2, h3, h4, h5⟩ := lineVisits_path x0 y0 x1 y1
  refine ⟨fun extra => DrawLine_fuel_enough sc x0 y0 x1 y1 color extra, h1, h2, h3, h4, h5,
    ?_, by decide⟩
  exact drawLineLoop_eq_visits sc x1 y1 _ _ _ _ color _ x0 y0 _

/-- C30, as stated, fails in each of its parts: row 0 of the heart mask and
row 0 of the star mask do not read the same reversed, and the star mask
changes when its rows are reversed top-to-bottom. -/
theorem C30_counterexample_masks :
    maskRow HEART_MASK 11 0 = [0, 0, 0, 1, 1, 0, 0, 0, 1, 1, 0] ∧
    (maskRow HEART_MASK 11 0).reverse ≠ maskRow HEART_MASK 11 0 ∧
    maskRow STAR_MASK 16 0 = [1, 0, 0, 0, 0, 0, 0, 1, 0, 0, 0, 0, 0, 0, 0, 1] ∧
    (maskRow STAR_MASK 16 0).reverse ≠ maskRow STAR_MASK 16 0 ∧
    (maskRows STAR_MASK 16 16).reverse ≠ maskRows STAR_MASK 16 16 := by
  decide

/-- C30, amended: the heart mask (11×10) is axis-symmetric in its rows 3 to 9
only: exactly these rows read the same reversed. Of the star mask (16×16)
exactly rows 7 and 8 read the same reversed; every row reads the same reversed
apart from columns 7 and 8 (the vertical arm lies in column 7 alone).
Reversing the rows of the star mask top-to-bottom leaves every row except
rows 7 and 8 in place, and the star mask is unchanged by transposition. -/
theorem C30_mask_symmetry :
    HEART_MASK.length = 11 * 10 ∧ STAR_MASK.length = 16 * 16 ∧
    (∀ j : Fin 10, (maskRow HEART_MASK 11 j).reverse = maskRow HEART_MASK 11 j ↔ 3 ≤ j.val) ∧
    (∀ j : Fin 16, (maskRow STAR_MASK 16 j).reverse = maskRow STAR_MASK 16 j ↔
      (j.val = 7 ∨ j.val = 8)) ∧
    (∀ j i : Fin 16, i.val ≠ 7 → i.val ≠ 8 →
      STAR_MASK.getD (j.val * 16 + (15 - i.val)) 0 = STAR_MASK.getD (j.val * 16 + i.val) 0) ∧
    (∀ j : Fin 16, maskRow STAR_MASK 16 (15 - j.val) = maskRow STAR_MASK 16 j ↔
      (j.val ≠ 7 ∧ j.val ≠ 8)) ∧
    (∀ j i : Fin 16,
      STAR_MASK.getD (i.val * 16 + j.val) 0 = STAR_MASK.getD (j.val * 16 + i.val) 0) := by
  refine ⟨mask_lengths.1, mask_lengths.2, by decide, by decide, by decide, by decide,
    by decide⟩

/-- C31: the particle count is unbounded. A Sparks tick after a horizontal
move by `d > 0` pixels appends `max 1 ⌊d / 2⌋` particles, so for every `N` the
move by `2 * N + 2` pixels (more than `2 * N`) leaves more than `N` particles
in a store that was empty; the move by 10002 pixels leaves 5001, more than
`MAX_PARTICLES = 5000`. No operation enforces the constant: a spawn tick keeps
every particle of the store it finds, `SetActiveParticleSystem` keeps the
store, and `UpdateParticles` removes only expired particles. -/
theorem C31_count_unbounded :
    (∀ (m : Libm) (s : State) (d : Nat), s.g_activeParticleSystem = .SPARKS →
      s.g_lastMousePos ≠ { x := -1, y := -1 } → 0 < d →
      (SpawnParticlesOnMouseMove m
        { x := s.g_lastMousePos.x + (d : Int), y := s.g_lastMousePos.y } s).g_particles.length
        = s.g_particles.length + max 1 (d / 2)) ∧
    (∀ (m : Libm) (N : Nat), ∃ (s : State) (pt : POINT),
      s.g_particles = [] ∧ s.g_lastMousePos ≠ { x := -1, y := -1 } ∧
      N < (SpawnParticlesOnMouseMove m pt s).g_particles.length) ∧
    MAX_PARTICLES = 5000 ∧
    (∀ m : Libm,
      (SpawnParticlesOnMouseMove m { x := 10102, y := 100 } (sampleState .SPARKS)).g_particles.length
        = 5001 ∧
      MAX_PARTICLES <
        (SpawnParticlesOnMouseMove m { x := 10102, y := 100 }
          (sampleState .SPARKS)).g_particles.length) ∧
    (∀ (m : Libm) (pt : POINT) (s : State), ∃ new : List Particle,
      (SpawnParticlesOnMouseMove m pt s).g_particles = s.g_particles ++ new) ∧
    (∀ (systemId : Int) (s : State),
      (SetActiveParticleSystem systemId s).g_particles = s.g_particles) ∧
    (∀ (dt : ℚ) (s : State), (∀ p ∈ s.g_particles, dt < p.life) →
      (UpdateParticles dt s).g_particles.length = s.g_particles.length) := by
  have hbig : ∀ m : Libm,
      (SpawnParticlesOnMouseMove m { x := 10102, y := 100 } (sampleState .SPARKS)).g_particles.length
        = 5001 := by
    intro m
    have h := sparks_tick_length m (sampleState .SPARKS) 10002 rfl (by decide) (by norm_num)
    exact h
  refine ⟨fun m s d hk hr hd => sparks_tick_length m s d hk hr hd, ?_, rfl, ?_, ?_,
    SetActiveParticleSystem_particles, ?_⟩
  · intro m N
    refine ⟨sampleState .SPARKS,
      { x := (sampleState .SPARKS).g_lastMousePos.x + ((2 * N + 2 : Nat) : Int),
        y := (sampleState .SPARKS).g_lastMousePos.y }, rfl, by decide, ?_⟩
    rw [sparks_tick_length m (sampleState .SPARKS) (2 * N + 2) rfl (by decide) (by omega)]
    have h1 : (2 * N + 2) / 2 = N + 1 := by omega
    rw [h1]
    have h2 : (sampleState .SPARKS).g_particles.length = 0 := rfl
    rw [h2]
    have h3 : N + 1 ≤ max 1 (N + 1) := le_max_right _ _
    omega
  · intro m
    refine ⟨hbig m, ?_⟩
    rw [hbig m]
    decide
  · intro m pt s
    obtain ⟨new, h, -⟩ := spawn_tick_any m pt s
    exact ⟨new, h⟩
  · intro dt s hall
    have h := (UpdateParticles_descends dt s).length_eq
    rw [← h]
    congr 1
    apply List.filter_eq_self.mpr
    intro p hp
    simpa using hall p hp

/-- C32: `DrawParticlesToDIB` culls by the centre, not by the footprint. A
particle whose truncated centre, translated by the origin, lies outside
`[0, width) × [0, height)` draws nothing (and draws no random number), so the
frame is the frame of the store without such particles. The smoke puff of
radius 1 centred at the local position `(-1, 5)` of the sample overlay is
skipped, although `DrawSmoke` at that centre stores the in-buffer pixels
`(0, 4)`, `(0, 5)` and `(0, 6)`; the frame of a store holding only this puff is
the cleared buffer. -/
theorem C32_cull_by_centre :
    (∀ (m : DrawLibm) (sc : Screen) (p : Particle) (r : Rng),
      (truncInt p.x - sc.g_VirtualOffsetX < 0 ∨
        truncInt p.x - sc.g_VirtualOffsetX ≥ sc.g_ScreenWidth ∨
        truncInt p.y - sc.g_VirtualOffsetY < 0 ∨
        truncInt p.y - sc.g_VirtualOffsetY ≥ sc.g_ScreenHeight) →
      drawParticle m sc p r = ([], r)) ∧
    (∀ (m : DrawLibm) (sc : Screen) (s : State) (buf : Buffer),
      DrawParticlesToDIB m sc s buf =
        DrawParticlesToDIB m sc
          { s with g_particles := s.g_particles.filter (centreInside sc) } buf) ∧
    truncInt sampleSmokeLeft.x - sampleScreen.g_VirtualOffsetX = -1 ∧
    truncInt sampleSmokeLeft.y - sampleScreen.g_VirtualOffsetY = 5 ∧
    truncInt (sampleSmokeLeft.scale * 8) = 1 ∧
    centreInside sampleScreen sampleSmokeLeft = false ∧
    drawParticle sampleDrawLibm sampleScreen sampleSmokeLeft sampleRng = ([], sampleRng) ∧
    (DrawSmoke sampleDrawLibm sampleScreen { sampleSmokeLeft with x := -1, y := 5 }
        sampleRng).1
      = [Effect.divide 1, Effect.write 0 4 0x04969696, Effect.divide 1,
          Effect.write 0 5 0x03969696, Effect.divide 1, Effect.write 0 6 0x01969696] ∧
    onScreen sampleScreen 0 4 = true ∧ onScreen sampleScreen 0 5 = true ∧
    onScreen sampleScreen 0 6 = true ∧
    (∀ buf : Buffer,
      (DrawParticlesToDIB sampleDrawLibm sampleScreen
        { sampleState .SMOKE with g_particles := [sampleSmokeLeft] } buf).1
        = clearBuffer sampleScreen buf) := by
  have hx : truncInt sampleSmokeLeft.x - sampleScreen.g_VirtualOffsetX = -1 := by decide!
  have hy : truncInt sampleSmokeLeft.y - sampleScreen.g_VirtualOffsetY = 5 := by decide!
  have hin : centreInside sampleScreen sampleSmokeLeft = false := by
    rw [centreInside_false_iff, hx]
    exact Or.inl (by decide)
  have hdraw := drawParticle_outside sampleDrawLibm sampleScreen sampleSmokeLeft sampleRng hin
  refine ⟨?_, ?_, hx, hy, by decide!, hin, hdraw, by decide!, by decide, by decide, by decide,
    ?_⟩
  · intro m sc p r hout
    exact drawParticle_outside m sc p r ((centreInside_false_iff sc p).mpr hout)
  · intro m sc s buf
    unfold DrawParticlesToDIB
    by_cases hp : sc.pixelsAllocated = true
    · simp only [hp, Bool.not_true, Bool.false_eq_true, if_false]
      rw [forEachM_filter (drawParticle m sc) (centreInside sc)
        (fun a r h => drawParticle_outside m sc a r h) s.g_particles s.rng]
    · simp only [hp, Bool.not_false, if_true]
  · intro buf
    have hs : (forEachM [sampleSmokeLeft] (drawParticle sampleDrawLibm sampleScreen)
        sampleRng) = ([], sampleRng) := by
      simp only [forEachM, hdraw, List.append_nil]
    show (if !sampleScreen.pixelsAllocated then (buf, sampleRng)
      else ((applyEffects sampleScreen (clearBuffer sampleScreen buf)
        (forEachM [sampleSmokeLeft] (drawParticle sampleDrawLibm sampleScreen) sampleRng).1),
        (forEachM [sampleSmokeLeft] (drawParticle sampleDrawLibm sampleScreen) sampleRng).2)).1
      = clearBuffer sampleScreen buf
    rw [hs]
    rfl

/-- C33: the pixels stored for Fire and Sword particles do not depend on the
colour of the particle. For two particles that differ only in `color`, and
the same random draws, `DrawFire` executes the same stores (and leaves the
generator in the same state) and `DrawSword` executes the same stores, so the
buffers afterwards are identical, also when the particle is drawn as part of a
frame. Every value `DrawFire` stores has red 255, green in 80..199 and blue 0;
every value `DrawSword` stores is one of the four fixed part colours. The
sample flame stores `0x7FFF8B00` at `(50, 32)` whether its colour is
`RGB(230, 90, 0)` or 0. -/
theorem C33_fire_sword_ignore_color :
    (∀ (m : Libm) (sc : Screen) (p : Particle) (c : Nat) (r : Rng),
      DrawFire m sc { p with color := c } r = DrawFire m sc p r) ∧
    (∀ (m : Libm) (sc : Screen) (p : Particle) (c : Nat),
      DrawSword m sc { p with color := c } = DrawSword m sc p) ∧
    (∀ (m : Libm) (sc : Screen) (p : Particle) (c : Nat) (r : Rng) (buf : Buffer),
      applyEffects sc buf (DrawFire m sc { p with color := c } r).1
        = applyEffects sc buf (DrawFire m sc p r).1) ∧
    (∀ (m : Libm) (sc : Screen) (p : Particle) (c : Nat) (buf : Buffer),
      applyEffects sc buf (DrawSword m sc { p with color := c })
        = applyEffects sc buf (DrawSword m sc p)) ∧
    (∀ (m : DrawLibm) (sc : Screen) (p : Particle) (c : Nat) (r : Rng),
      p.type = .FIRE ∨ p.type = .SWORD →
      drawParticle m sc { p with color := c } r = drawParticle m sc p r) ∧
    (∀ (m : Libm) (sc : Screen) (p : Particle) (r : Rng) (x y : Int) (v : Nat),
      Effect.write x y v ∈ (DrawFire m sc p r).1 →
        (v >>> 16) % 256 = 255 ∧ 80 ≤ (v >>> 8) % 256 ∧ (v >>> 8) % 256 ≤ 199 ∧
          v % 256 = 0) ∧
    (∀ (m : Libm) (sc : Screen) (p : Particle) (x y : Int) (v : Nat),
      Effect.write x y v ∈ DrawSword m sc p →
        v = 0xFFC0C0C0 ∨ v = 0xFFFFD700 ∨ v = 0xFF8B4513 ∨ v = 0xFF696969) ∧
    (DrawFire sampleLibm sampleScreen sampleFlame sampleRng).1.take 2
      = [Effect.divide 15, Effect.write 50 32 0x7FFF8B00] ∧
    (DrawFire sampleLibm sampleScreen { sampleFlame with color := 0 } sampleRng).1.take 2
      = [Effect.divide 15, Effect.write 50 32 0x7FFF8B00] := by
  have hsample : (DrawFire sampleLibm sampleScreen sampleFlame sampleRng).1.take 2
      = [Effect.divide 15, Effect.write 50 32 0x7FFF8B00] := by decide!
  refine ⟨DrawFire_color_indep, DrawSword_color_indep, ?_, ?_, drawParticle_color_indep,
    ?_, ?_, hsample, ?_⟩
  · intro m sc p c r buf
    rw [DrawFire_color_indep]
  · intro m sc p c buf
    rw [DrawSword_color_indep]
  · intro m sc p r x y v hv
    exact DrawFire_fire m sc p r _ hv
  · intro m sc p x y v hv
    exact DrawSword_sword m sc p _ hv
  · rw [DrawFire_color_indep]
    exact hsample

end MouseTrail
